import Mathlib

/-! The minimp3 streaming decode engine: `mp3dec_load_cb`.

A shallow embedding of `mp3dec_load_cb` (src/dependencies/minimp3/minimp3_decl.c,
lines 95-306) and theorems about it.

Conventions of the embedding.

* `size_t` and `uint64_t` are 64 bit wide.  Unsigned subtraction wraps around
  (`subSize`), an `int` converted to an unsigned type wraps around (`toSize`).
  Sums and products of sizes are taken exactly, except where the source
  multiplies into a `uint64_t` (`detected_samples`).
* A pointer with a length is the list of bytes it designates.  `buf += n` is
  `List.drop n`; a helper that receives `(p, len)` receives `window p 0 len`.
* Memory that was never written reads as `0`.
* The helpers that `minimp3_ex.h` supplies (tag skipping, frame locator, header
  interpreter, VBR directory parser, frame decoder), the constants it defines
  and the allocator are fields of `Env`: the function is verified for every
  choice of them, and a theorem that needs a contract of a helper states it as
  a hypothesis.
* The two loops of the function are `iterate` of a step function; `iterate`
  takes the number of iterations it may run and gives `none` when they are
  used up.
* Fields marked *ghost* are not variables of the source: they record what the
  execution did (the calls of the frame decoder, of the progress callback, the
  window bounds) so that theorems can speak about every point of a run.  In
  `St` these are `nalloc`, `io_calls`, `vbr_delay` (the pending delay as the
  VBR directory declared it), `hdr_channels` (the channel count of the first
  frame's header), `calls`, `starts`, `cbs` and `wpts`.
-/

namespace Minimp3

/-! ## Machine arithmetic and memory -/

abbrev Byte := Nat

abbrev Sample := Int

/-- Number of values of `size_t` and `uint64_t`. -/
def SIZE_MOD : Nat := 2 ^ 64

/-- The value `(size_t)-1`. -/
def SIZE_MAX : Nat := 2 ^ 64 - 1

/-- The value `INT_MAX` of a 32 bit `int`. -/
def INT_MAX : Nat := 2147483647

/-- Unsigned subtraction `a - b` of two sizes: wraps around below zero. -/
def subSize (a b : Nat) : Nat := if b ≤ a then a - b else a + SIZE_MOD - b

/-- Conversion of an `int` to `size_t` / `uint64_t`: a negative value wraps around. -/
def toSize (x : Int) : Nat := if 0 ≤ x then x.toNat else (x + (SIZE_MOD : Int)).toNat

/-- The `n` cells of memory `m` from offset `off`; cells never written read as `dflt`. -/
def readRange {α : Type} (dflt : α) (m : List α) (off n : Nat) : List α :=
  (m.drop off).take n ++ List.replicate (n - ((m.drop off).take n).length) dflt

/-- Memory `m` after `data` was stored at offset `off`. -/
def writeAt {α : Type} (dflt : α) (m : List α) (off : Nat) (data : List α) : List α :=
  readRange dflt m 0 off ++ data ++ m.drop (off + data.length)

/-- The bytes a helper sees when it is handed the pointer `p + off` and the length `len`. -/
def window (p : List Byte) (off len : Nat) : List Byte := (p.drop off).take len

/-! ## Data model -/

/-- The per-frame metadata `mp3dec_frame_info_t`. -/
structure mp3dec_frame_info_t where
  frame_bytes : Nat
  channels : Nat
  hz : Nat
  layer : Int
  bitrate_kbps : Nat
deriving DecidableEq

/-- The result structure `mp3dec_file_info_t`; `buffer = none` is the null pointer,
`buffer = some b` a block holding the samples `b`. -/
structure mp3dec_file_info_t where
  buffer : Option (List Sample)
  samples : Nat
  channels : Nat
  hz : Nat
  layer : Int
  avg_bitrate_kbps : Nat
deriving DecidableEq

/-- The structure after `memset(info, 0, sizeof(*info))`. -/
def zeroInfo : mp3dec_file_info_t :=
  { buffer := none, samples := 0, channels := 0, hz := 0, layer := 0, avg_bitrate_kbps := 0 }

/-- The structure after `memset(&frame_info, 0, sizeof(frame_info))`. -/
def zeroFrameInfo : mp3dec_frame_info_t :=
  { frame_bytes := 0, channels := 0, hz := 0, layer := 0, bitrate_kbps := 0 }

/-- What `mp3dec_check_vbrtag` reports: its return value and its three out-parameters. -/
structure VbrTag where
  ret : Int
  frames : Nat
  delay : Int
  padding : Int
deriving DecidableEq

/-- What one call of `mp3dec_decode_frame` gives: the returned sample count (per channel),
the frame info it fills in, the values it stores at the output pointer, and the decoder state. -/
structure DecodeOut (D : Type) where
  samples : Nat
  info : mp3dec_frame_info_t
  pcm : List Sample
  dec : D

/-- The source abstraction `mp3dec_io_t`.  `read d n` is `io->read(p, n, read_data)`: the bytes
it delivers (their number is the value it returns) and the new state of the source;
`seek d pos` is `io->seek(pos, seek_data)`: nonzero on failure. -/
structure IoOps (S : Type) where
  read : S → Nat → List Byte × S
  seek : S → Nat → Int × S

/-- A progress callback: from the user data, the two size arguments and the frame info to the
returned value and the new user data. -/
abbrev ProgressCb (U : Type) := U → Nat → Nat → mp3dec_frame_info_t → Int × U

/-- The constants and helpers of `minimp3.h` / `minimp3_ex.h` used by `mp3dec_load_cb`, and the
allocator.  `alloc_ok k n` tells whether the `k`-th allocation request of the call (`malloc` or
`realloc`), for `n` bytes, succeeds. -/
structure Env (D : Type) where
  MINIMP3_BUF_SIZE : Nat
  MINIMP3_ID3_DETECT_SIZE : Nat
  MINIMP3_MAX_SAMPLES_PER_FRAME : Nat
  sizeof_sample : Nat
  MP3D_E_PARAM : Int
  MP3D_E_MEMORY : Int
  MP3D_E_IOERROR : Int
  MP3D_E_DECODE : Int
  mp3dec_skip_id3v2 : List Byte → Nat
  mp3dec_skip_id3v1 : List Byte → Nat
  mp3dec_skip_id3 : List Byte → Nat × Nat
  mp3d_find_frame : List Byte → Nat × Nat
  HDR_IS_MONO : List Byte → Bool
  hdr_sample_rate_hz : List Byte → Nat
  HDR_GET_LAYER : List Byte → Nat
  hdr_bitrate_kbps : List Byte → Nat
  hdr_frame_samples : List Byte → Nat
  mp3dec_check_vbrtag : List Byte → Nat → VbrTag
  mp3dec_init : D → D
  mp3dec_decode_frame : D → List Byte → DecodeOut D
  alloc_ok : Nat → Nat → Bool

/-- The arguments of `mp3dec_load_cb`; a pointer argument that may be null is an `Option`.
`io_data` stands for `io->read_data` and `io->seek_data`. -/
structure Args (D U S : Type) where
  dec : Option D
  io : Option (IoOps S)
  io_data : S
  buf : Option (List Byte)
  buf_size : Nat
  info : Option mp3dec_file_info_t
  progress_cb : Option (ProgressCb U)
  user_data : U

/-- Ghost: one call of the frame decoder in the decode loop. -/
structure CallRec where
  allocated : Nat
  acc : Nat
  to_skip : Int
  samples : Nat
  info : mp3dec_frame_info_t
  pcm : List Sample
deriving DecidableEq

/-- Ghost: the start of one iteration of the decode loop. -/
structure IterRec where
  to_skip : Int
  acc : Nat
  allocated : Nat
deriving DecidableEq

/-- Ghost: one invocation of the progress callback. -/
structure CbRec where
  file_size : Nat
  offset : Nat
  info : mp3dec_frame_info_t
  result : Int
deriving DecidableEq

/-- Ghost: the window bounds at one point of a bounded-window run. -/
structure WinRec where
  consumed : Nat
  filled : Nat
deriving DecidableEq

/-- The local variables of `mp3dec_load_cb`, the objects its pointers designate, and the
ghost records. -/
structure St (D U S : Type) where
  dec : D
  io_data : S
  user_data : U
  buf : List Byte
  buf_size : Nat
  orig_buf_size : Nat
  filled : Nat
  consumed : Nat
  eof : Bool
  to_skip : Int
  detected_samples : Nat
  frame_info : mp3dec_frame_info_t
  samples : Nat
  info : mp3dec_file_info_t
  allocated : Nat
  out : List Sample
  avg_bitrate_kbps : Nat
  frames : Nat
  ret : Int
  nalloc : Nat
  io_calls : Nat
  vbr_delay : Int
  hdr_channels : Nat
  calls : List CallRec
  starts : List IterRec
  cbs : List CbRec
  wpts : List WinRec

/-- The `return` statement (or the place of it) through which a call leaves the function. -/
inductive Exit where
  | param
  | io_tag
  | short_source
  | empty_after_tags
  | io_probe
  | no_frame
  | vbr_zero
  | malloc_failed
  | grow_failed
  | shrink_failed
  | done
deriving DecidableEq

/-- What a call of `mp3dec_load_cb` leaves behind: the returned code, the info structure, the
state of the source and of the user data, and the ghost records of the run. -/
structure Result (U S : Type) where
  ret : Int
  exit : Exit
  info : Option mp3dec_file_info_t
  io_data : S
  user_data : U
  io_calls : Nat
  budget : Nat
  vbr_delay : Int
  hdr_channels : Nat
  calls : List CallRec
  starts : List IterRec
  cbs : List CbRec
  wpts : List WinRec

/-- The outcome of one pass through a loop body. -/
inductive Flow (σ ρ : Type) where
  | next (s : σ)
  | leave (s : σ)
  | ret (r : ρ)

/-- A loop `do body while (1)`, run for at most `fuel` passes: `some (Sum.inl s)` when the body
left the loop in state `s`, `some (Sum.inr r)` when it returned `r`, `none` when the passes are
used up. -/
def iterate {σ ρ : Type} (step : σ → Flow σ ρ) : Nat → σ → Option (σ ⊕ ρ)
  | 0, _ => none
  | fuel + 1, s =>
    match step s with
    | Flow.next s1 => iterate step fuel s1
    | Flow.leave s1 => some (Sum.inl s1)
    | Flow.ret r => some (Sum.inr r)

section Engine

variable {D U S : Type}

/-- A `return code;` in state `s`, with `info->buffer` as given. -/
def mkResult (s : St D U S) (code : Int) (exit : Exit) (buffer : Option (List Sample)) :
    Result U S :=
  { ret := code, exit := exit, info := some { s.info with buffer := buffer },
    io_data := s.io_data, user_data := s.user_data, io_calls := s.io_calls,
    budget := s.detected_samples, vbr_delay := s.vbr_delay, hdr_channels := s.hdr_channels,
    calls := s.calls, starts := s.starts, cbs := s.cbs, wpts := s.wpts }

/-- The samples held by the block `info->buffer` when it is `nbytes` long. -/
def blockView (env : Env D) (out : List Sample) (nbytes : Nat) : List Sample :=
  readRange 0 out 0 (nbytes / env.sizeof_sample)

/-- Ghost: record the window bounds. -/
def markWin (s : St D U S) : St D U S :=
  { s with wpts := s.wpts ++ [{ consumed := s.consumed, filled := s.filled }] }

/-- Lines 99-107: the state after the declarations and the two `memset`. -/
def initSt (dec : D) (buf : List Byte) (a : Args D U S) : St D U S :=
  { dec := dec, io_data := a.io_data, user_data := a.user_data, buf := buf,
    buf_size := a.buf_size, orig_buf_size := a.buf_size, filled := 0, consumed := 0,
    eof := false, to_skip := 0, detected_samples := 0, frame_info := zeroFrameInfo,
    samples := 0, info := zeroInfo, allocated := 0, out := [], avg_bitrate_kbps := 0,
    frames := 0, ret := 0, nalloc := 0, io_calls := 0, vbr_delay := 0, hdr_channels := 0,
    calls := [], starts := [], cbs := [], wpts := [] }

/-- One `io->seek(pos, io->seek_data)`: the returned value and the state after it. -/
def doSeek (ops : IoOps S) (s : St D U S) (pos : Nat) : Int × St D U S :=
  ((ops.seek s.io_data pos).1,
   { s with io_data := (ops.seek s.io_data pos).2, io_calls := s.io_calls + 1 })

/-- One `io->read(buf + off, n, io->read_data)`: the returned count and the state after it. -/
def doRead (ops : IoOps S) (s : St D U S) (off n : Nat) : Nat × St D U S :=
  ((ops.read s.io_data n).1.length,
   { s with buf := writeAt 0 s.buf off (ops.read s.io_data n).1,
            io_data := (ops.read s.io_data n).2, io_calls := s.io_calls + 1 })

/-- The `memmove(buf, buf + consumed, filled - consumed); filled -= consumed; consumed = 0;`
of lines 152-154 and 240-242. -/
def compact (s : St D U S) : St D U S :=
  { s with buf := writeAt 0 s.buf 0 (window s.buf s.consumed (subSize s.filled s.consumed)),
           filled := subSize s.filled s.consumed, consumed := 0 }

/-- Lines 108-139, bounded-window branch: seek to the start, probe for an ID3v2 tag, fill the
window, strip a trailing ID3v1 tag from a short source. -/
def tagSkipIo (env : Env D) (ops : IoOps S) (s : St D U S) : St D U S ⊕ Result U S :=
  let s1 := (doSeek ops s 0).2
  if (doSeek ops s 0).1 ≠ 0 then Sum.inr (mkResult s1 env.MP3D_E_IOERROR Exit.io_tag none)
  else
    let r1 := doRead ops s1 0 env.MINIMP3_ID3_DETECT_SIZE
    let s2 : St D U S := { r1.2 with filled := r1.1 }
    if s2.filled > env.MINIMP3_ID3_DETECT_SIZE then
      Sum.inr (mkResult s2 env.MP3D_E_IOERROR Exit.io_tag none)
    else if env.MINIMP3_ID3_DETECT_SIZE ≠ s2.filled then
      Sum.inr (mkResult s2 0 Exit.short_source none)
    else
      let id3v2size := env.mp3dec_skip_id3v2 (window s2.buf 0 s2.filled)
      let filled3 : St D U S ⊕ Result U S :=
        if id3v2size ≠ 0 then
          let s3 := (doSeek ops s2 id3v2size).2
          if (doSeek ops s2 id3v2size).1 ≠ 0 then
            Sum.inr (mkResult s3 env.MP3D_E_IOERROR Exit.io_tag none)
          else
            let r4 := doRead ops s3 0 s3.buf_size
            let s4 : St D U S := { r4.2 with filled := r4.1 }
            if s4.filled > s4.buf_size then
              Sum.inr (mkResult s4 env.MP3D_E_IOERROR Exit.io_tag none)
            else Sum.inl s4
        else
          let r4 := doRead ops s2 env.MINIMP3_ID3_DETECT_SIZE
            (subSize s2.buf_size env.MINIMP3_ID3_DETECT_SIZE)
          if r4.1 > subSize s2.buf_size env.MINIMP3_ID3_DETECT_SIZE then
            Sum.inr (mkResult r4.2 env.MP3D_E_IOERROR Exit.io_tag none)
          else Sum.inl { r4.2 with filled := r4.2.filled + r4.1 }
      match filled3 with
      | Sum.inr r => Sum.inr r
      | Sum.inl s5 =>
        Sum.inl (markWin { s5 with filled := if s5.filled < env.MINIMP3_BUF_SIZE then
                                               env.mp3dec_skip_id3v1 (window s5.buf 0 s5.filled)
                                             else s5.filled })

/-- Lines 134-139, whole-buffer branch: `mp3dec_skip_id3(&buf, &buf_size)`, then the test for an
empty buffer. -/
def tagSkipBuf (env : Env D) (s : St D U S) : St D U S ⊕ Result U S :=
  let r := env.mp3dec_skip_id3 (window s.buf 0 s.buf_size)
  let s1 : St D U S := { s with buf := s.buf.drop r.1, buf_size := r.2 }
  if s1.buf_size = 0 then Sum.inr (mkResult s1 0 Exit.empty_after_tags none)
  else Sum.inl s1

/-- Lines 150-163: the refill of the window in the first-frame probe loop. -/
def probeRefill (env : Env D) (ops : IoOps S) (s : St D U S) : St D U S ⊕ Result U S :=
  if s.eof = false ∧ subSize s.filled s.consumed < env.MINIMP3_BUF_SIZE then
    let s1 := compact s
    let want := subSize s1.buf_size s1.filled
    let r := doRead ops s1 s1.filled want
    if r.1 > want then Sum.inr (mkResult r.2 env.MP3D_E_IOERROR Exit.io_probe none)
    else
      let s2 : St D U S := { r.2 with eof := if r.1 ≠ want then true else r.2.eof,
                                      filled := r.2.filled + r.1 }
      Sum.inl (markWin { s2 with filled := if s2.eof then
                                             env.mp3dec_skip_id3v1 (window s2.buf 0 s2.filled)
                                           else s2.filled })
  else Sum.inl s

/-- Lines 186-198: the sample budget a VBR directory declares, from the sample count `samples`
of the first frame (channels included), the declared frame count, the pending delay `to_skip`
and the padding (both already multiplied by the channel count). -/
def vbrBudget (samples frames : Nat) (to_skip padding : Int) : Nat :=
  let d0 := (samples * frames) % SIZE_MOD
  let d1 := if d0 ≥ toSize to_skip then subSize d0 (toSize to_skip) else d0
  if padding > 0 ∧ d1 ≥ toSize padding then subSize d1 (toSize padding) else d1

/-- Lines 174-210: what the probe loop does with the frame the locator reported (`i` bytes
skipped, `frame_size` bytes long, header at `hdr`). -/
def probeFrame (env : Env D) (io : Option (IoOps S)) (s : St D U S) (i frame_size : Nat)
    (hdr : List Byte) : Flow (St D U S) (Result U S) :=
  if i ≠ 0 ∧ frame_size = 0 then Flow.next s
  else if frame_size = 0 then Flow.ret (mkResult s 0 Exit.no_frame none)
  else
    let channels := if env.HDR_IS_MONO hdr then 1 else 2
    let fi : mp3dec_frame_info_t :=
      { frame_bytes := frame_size, channels := channels, hz := env.hdr_sample_rate_hz hdr,
        layer := 4 - (env.HDR_GET_LAYER hdr : Int), bitrate_kbps := env.hdr_bitrate_kbps hdr }
    let s1 : St D U S :=
      { s with frame_info := fi, samples := env.hdr_frame_samples hdr * channels }
    if (3 : Int) ≠ fi.layer then Flow.leave s1
    else
      let v := env.mp3dec_check_vbrtag hdr frame_size
      let s2 : St D U S :=
        if v.ret > 0 then
          { s1 with to_skip := v.delay * channels, vbr_delay := v.delay * channels,
                    detected_samples :=
                      vbrBudget s1.samples v.frames (v.delay * channels) (v.padding * channels) }
        else s1
      if v.ret > 0 ∧ s2.detected_samples = 0 then Flow.ret (mkResult s2 0 Exit.vbr_zero none)
      else if v.ret ≠ 0 then
        match io with
        | some _ => Flow.leave (markWin { s2 with consumed := s2.consumed + frame_size })
        | none =>
          Flow.leave { s2 with buf := s2.buf.drop frame_size,
                               buf_size := subSize s2.buf_size frame_size }
      else Flow.leave s2

/-- Lines 143-211: one pass through the body of the first-frame probe loop. -/
def probeStep (env : Env D) (io : Option (IoOps S)) (s : St D U S) :
    Flow (St D U S) (Result U S) :=
  match io with
  | some ops =>
    match probeRefill env ops s with
    | Sum.inr r => Flow.ret r
    | Sum.inl s1 =>
      let f := env.mp3d_find_frame (window s1.buf s1.consumed (subSize s1.filled s1.consumed))
      let s2 := markWin { s1 with consumed := s1.consumed + f.1 }
      probeFrame env io s2 f.1 f.2 (window s2.buf s2.consumed (subSize s2.filled s2.consumed))
  | none =>
    let f := env.mp3d_find_frame (window s.buf 0 s.buf_size)
    let s2 : St D U S := { s with buf := s.buf.drop f.1, buf_size := subSize s.buf_size f.1 }
    probeFrame env io s2 f.1 f.2 (window s2.buf 0 s2.buf_size)

/-- Lines 212-223: size and allocate the output buffer, save the first frame's format. -/
def allocate (env : Env D) (s : St D U S) : St D U S ⊕ Result U S :=
  let base := env.MINIMP3_MAX_SAMPLES_PER_FRAME * env.sizeof_sample
  let allocated :=
    if s.detected_samples ≠ 0 then base + s.detected_samples * env.sizeof_sample
    else base + (s.buf_size / s.frame_info.frame_bytes) * s.samples * env.sizeof_sample
  let s1 : St D U S := { s with allocated := allocated, nalloc := s.nalloc + 1 }
  if env.alloc_ok s.nalloc allocated = false then
    Sum.inr (mkResult s1 env.MP3D_E_MEMORY Exit.malloc_failed none)
  else
    Sum.inl { s1 with out := [],
                      info := { s1.info with channels := s1.frame_info.channels,
                                             hz := s1.frame_info.hz,
                                             layer := s1.frame_info.layer },
                      avg_bitrate_kbps := 0, frames := 0,
                      hdr_channels := s1.frame_info.channels }

/-- Lines 228-235: double the output buffer when less than one maximal frame of room is left. -/
def growStep (env : Env D) (s : St D U S) : St D U S ⊕ Result U S :=
  if subSize s.allocated (s.info.samples * env.sizeof_sample)
      < env.MINIMP3_MAX_SAMPLES_PER_FRAME * env.sizeof_sample then
    let s1 : St D U S := { s with allocated := s.allocated * 2, nalloc := s.nalloc + 1 }
    if env.alloc_ok s.nalloc (s.allocated * 2) = false then
      Sum.inr (mkResult s1 env.MP3D_E_MEMORY Exit.grow_failed
        (some (blockView env s.out s.allocated)))
    else Sum.inl s1
  else Sum.inl s

/-- Lines 238-249: the refill of the window in the decode loop. -/
def decodeRefill (env : Env D) (ops : IoOps S) (s : St D U S) : St D U S :=
  if s.eof = false ∧ subSize s.filled s.consumed < env.MINIMP3_BUF_SIZE then
    let s1 := compact s
    let want := subSize s1.buf_size s1.filled
    let r := doRead ops s1 s1.filled want
    let s2 : St D U S := { r.2 with eof := if r.1 ≠ want then true else r.2.eof,
                                    filled := r.2.filled + r.1 }
    markWin { s2 with filled := if s2.eof then
                                  env.mp3dec_skip_id3v1 (window s2.buf 0 s2.filled)
                                else s2.filled }
  else s

/-- Ghost: record a call of the frame decoder. -/
def logCall (s : St D U S) (o : DecodeOut D) : St D U S :=
  { s with calls := s.calls ++ [{ allocated := s.allocated, acc := s.info.samples,
                                  to_skip := s.to_skip, samples := o.samples, info := o.info,
                                  pcm := o.pcm }] }

/-- The effect of `samples = mp3dec_decode_frame(dec, p, len, info->buffer + info->samples,
&frame_info)` on the state, for the output `o` of the decoder. -/
def storeFrame (s : St D U S) (o : DecodeOut D) : St D U S :=
  { logCall s o with dec := o.dec, samples := o.samples, frame_info := o.info,
                     out := writeAt 0 s.out s.info.samples o.pcm }

/-- Lines 236-257: fetch and decode the next frame, advance the cursor by its byte length. -/
def fetchStep (env : Env D) (io : Option (IoOps S)) (s : St D U S) : St D U S :=
  match io with
  | some ops =>
    let s1 := decodeRefill env ops s
    let o := env.mp3dec_decode_frame s1.dec
      (window s1.buf s1.consumed (subSize s1.filled s1.consumed))
    let s2 := storeFrame s1 o
    markWin { s2 with consumed := s2.consumed + s2.frame_info.frame_bytes }
  | none =>
    let o := env.mp3dec_decode_frame s.dec (window s.buf 0 (min s.buf_size INT_MAX))
    let s2 := storeFrame s o
    { s2 with buf := s2.buf.drop s2.frame_info.frame_bytes,
              buf_size := subSize s2.buf_size s2.frame_info.frame_bytes }

/-- Lines 274-284: scale the sample count by the channel count, apply the pending delay, append
the frame to the output, account its bitrate. -/
def appendFrame (s : St D U S) : St D U S :=
  let samples : Int := (s.samples * s.frame_info.channels : Nat)
  let skip : Int := if s.to_skip ≠ 0 then min samples s.to_skip else 0
  let kept : Nat := (samples - skip).toNat
  { s with to_skip := s.to_skip - skip,
           samples := kept,
           out := if s.to_skip ≠ 0 then writeAt 0 s.out 0 (readRange 0 s.out (toSize skip) kept)
                  else s.out,
           info := { s.info with samples := s.info.samples + kept },
           avg_bitrate_kbps := s.avg_bitrate_kbps + s.frame_info.bitrate_kbps,
           frames := s.frames + 1 }

/-- Lines 285-290: invoke the progress callback, when one is supplied. -/
def notify (cb : Option (ProgressCb U)) (s : St D U S) : St D U S :=
  match cb with
  | some f =>
    let r := f s.user_data s.orig_buf_size (subSize s.orig_buf_size s.buf_size) s.frame_info
    { s with ret := r.1, user_data := r.2,
             cbs := s.cbs ++ [{ file_size := s.orig_buf_size,
                                offset := subSize s.orig_buf_size s.buf_size,
                                info := s.frame_info, result := r.1 }] }
  | none => s

/-- Lines 258-292: the bookkeeping for the frame just decoded and the loop condition. -/
def accountStep (cb : Option (ProgressCb U)) (env : Env D) (s : St D U S) :
    Flow (St D U S) (Result U S) :=
  if s.samples ≠ 0 then
    if s.info.hz ≠ s.frame_info.hz ∨ s.info.layer ≠ s.frame_info.layer then
      Flow.leave { s with ret := env.MP3D_E_DECODE }
    else
      let s1 : St D U S :=
        if s.info.channels ≠ 0 ∧ s.info.channels ≠ s.frame_info.channels then
          { s with info := { s.info with channels := 0 } }
        else s
      let s2 := notify cb (appendFrame s1)
      if cb.isSome ∧ s2.ret ≠ 0 then Flow.leave s2
      else if s2.frame_info.frame_bytes ≠ 0 then Flow.next s2 else Flow.leave s2
  else if s.frame_info.frame_bytes ≠ 0 then Flow.next s else Flow.leave s

/-- Ghost: record the start of an iteration of the decode loop. -/
def logStart (s : St D U S) : St D U S :=
  { s with starts := s.starts ++ [{ to_skip := s.to_skip, acc := s.info.samples,
                                    allocated := s.allocated }] }

/-- Lines 226-292: one pass through the body of the decode loop. -/
def decodeStep (env : Env D) (io : Option (IoOps S)) (cb : Option (ProgressCb U))
    (s : St D U S) : Flow (St D U S) (Result U S) :=
  match growStep env (logStart s) with
  | Sum.inr r => Flow.ret r
  | Sum.inl s1 => accountStep cb env (fetchStep env io s1)

/-- Lines 293-305: cut the padding, shrink the buffer to the sample count, average the
bitrate, return.  When `allocated` already is `info->samples*sizeof(mp3d_sample_t)` the block is
kept: it holds `info->samples` samples. -/
def finish (env : Env D) (s : St D U S) : Result U S :=
  let s1 : St D U S :=
    if s.detected_samples ≠ 0 ∧ s.info.samples > s.detected_samples then
      { s with info := { s.info with samples := s.detected_samples } }
    else s
  let avg := if s1.frames ≠ 0 then s1.avg_bitrate_kbps / s1.frames else s1.info.avg_bitrate_kbps
  if s1.allocated ≠ s1.info.samples * env.sizeof_sample then
    let ok := env.alloc_ok s1.nalloc (s1.info.samples * env.sizeof_sample)
    if ok = false ∧ s1.info.samples ≠ 0 then
      mkResult s1 env.MP3D_E_MEMORY Exit.shrink_failed (some (blockView env s1.out s1.allocated))
    else
      mkResult { s1 with info := { s1.info with avg_bitrate_kbps := avg } } s1.ret Exit.done
        (if ok then some (readRange 0 s1.out 0 s1.info.samples) else none)
  else
    mkResult { s1 with info := { s1.info with avg_bitrate_kbps := avg } } s1.ret Exit.done
      (some (readRange 0 s1.out 0 s1.info.samples))

/-- Lines 140-306: everything after the tag skip, from the state `s` the tag skip left. -/
def decodeAll (env : Env D) (io : Option (IoOps S)) (cb : Option (ProgressCb U)) (fuel : Nat)
    (s : St D U S) : Option (Result U S) :=
  match iterate (probeStep env io) fuel { s with dec := env.mp3dec_init s.dec } with
  | none => none
  | some (Sum.inr r) => some r
  | some (Sum.inl s1) =>
    match allocate env s1 with
    | Sum.inr r => some r
    | Sum.inl s2 =>
      match iterate (decodeStep env io cb) fuel s2 with
      | none => none
      | some (Sum.inr r) => some r
      | some (Sum.inl s3) => some (finish env s3)

/-- The result of the `return MP3D_E_PARAM;` of line 98: nothing was touched. -/
def paramError (env : Env D) (a : Args D U S) : Result U S :=
  { ret := env.MP3D_E_PARAM, exit := Exit.param, info := a.info, io_data := a.io_data,
    user_data := a.user_data, io_calls := 0, budget := 0, vbr_delay := 0, hdr_channels := 0,
    calls := [], starts := [], cbs := [], wpts := [] }

/-- The function `mp3dec_load_cb(dec, io, buf, buf_size, info, progress_cb, user_data)`, each of
its two loops run for at most `fuel` passes; `none` when a loop used them up. -/
def mp3dec_load_cb (env : Env D) (a : Args D U S) (fuel : Nat) : Option (Result U S) :=
  match a.dec, a.buf, a.info with
  | some dec, some buf, some _ =>
    if a.buf_size = SIZE_MAX ∨ (a.io.isSome ∧ a.buf_size < env.MINIMP3_BUF_SIZE) then
      some (paramError env a)
    else
      match a.io with
      | some ops =>
        match tagSkipIo env ops (initSt dec buf a) with
        | Sum.inr r => some r
        | Sum.inl s => decodeAll env a.io a.progress_cb fuel s
      | none =>
        match tagSkipBuf env (initSt dec buf a) with
        | Sum.inr r => some r
        | Sum.inl s => decodeAll env a.io a.progress_cb fuel s
  | _, _, _ => some (paramError env a)

/-- The sample count a call reports in `info->samples`. -/
def Result.samples (r : Result U S) : Nat :=
  match r.info with
  | some i => i.samples
  | none => 0

/-- The samples a call returns in `info->buffer`; a null buffer holds none. -/
def Result.contents (r : Result U S) : List Sample :=
  match r.info with
  | some i => i.buffer.getD []
  | none => []

/-! ## Vocabulary of the theorems -/

/-- The outcome of a pass satisfies `I` when it goes on, `Q` when it leaves the loop, `R` when
it returns. -/
def Flow.sat {σ ρ : Type} (I Q : σ → Prop) (R : ρ → Prop) : Flow σ ρ → Prop
  | Flow.next s => I s
  | Flow.leave s => Q s
  | Flow.ret r => R r

/-- What a loop delivers satisfies `Q` when it was left and `R` when it returned. -/
def loopSat {σ ρ : Type} (Q : σ → Prop) (R : ρ → Prop) : Option (σ ⊕ ρ) → Prop
  | none => True
  | some (Sum.inl s) => Q s
  | some (Sum.inr r) => R r

/-- The helper contract "the VBR directory parser reports a delay that is not negative". -/
def DelayNonneg (env : Env D) : Prop :=
  ∀ (w : List Byte) (n : Nat), 0 ≤ (env.mp3dec_check_vbrtag w n).delay

/-- The helper contract "the frame decoder stores `samples * channels` values". -/
def DecoderFills (env : Env D) : Prop :=
  ∀ (d : D) (w : List Byte),
    (env.mp3dec_decode_frame d w).pcm.length
      = (env.mp3dec_decode_frame d w).samples * (env.mp3dec_decode_frame d w).info.channels

/-- The helper contract "the frame decoder never produces more than
`MINIMP3_MAX_SAMPLES_PER_FRAME` values for one frame". -/
def DecoderBounded (env : Env D) : Prop :=
  ∀ (d : D) (w : List Byte),
    (env.mp3dec_decode_frame d w).samples * (env.mp3dec_decode_frame d w).info.channels
      ≤ env.MINIMP3_MAX_SAMPLES_PER_FRAME

/-- The number of values a decoded frame holds: samples per channel times channels. -/
def CallRec.values (k : CallRec) : Nat := k.samples * k.info.channels

/-- The number of values of a decoded frame that the pending delay drops (line 277). -/
def CallRec.skip (k : CallRec) : Int :=
  if k.to_skip ≠ 0 then min (k.values : Int) k.to_skip else 0

/-- The number of values of a decoded frame that are appended to the output (line 279). -/
def CallRec.kept (k : CallRec) : Nat := ((k.values : Int) - k.skip).toNat

/-- A decoded frame is accepted by the loop when its sample count is nonzero and its rate and
layer are those of the stream. -/
def CallRec.accepted (hz : Nat) (layer : Int) (k : CallRec) : Prop :=
  k.samples ≠ 0 ∧ k.info.hz = hz ∧ k.info.layer = layer

instance (hz : Nat) (layer : Int) (k : CallRec) : Decidable (k.accepted hz layer) := by
  unfold CallRec.accepted
  infer_instance

/-- The bookkeeping of an accepted frame `k`, from the state `s` before the pass to the state
`s1` after it (lines 265-290). -/
structure Accepted (cb : Option (ProgressCb U)) (s s1 : St D U S) (k : CallRec) : Prop where
  to_skip : s1.to_skip = s.to_skip - k.skip
  info : s1.info =
    { s.info with samples := s.info.samples + k.kept,
                  channels := if s.info.channels ≠ 0 ∧ s.info.channels ≠ k.info.channels then 0
                              else s.info.channels }
  out : s1.out =
    if s.to_skip ≠ 0 then
      writeAt 0 (writeAt 0 s.out s.info.samples k.pcm) 0
        (readRange 0 (writeAt 0 s.out s.info.samples k.pcm) (toSize k.skip) k.kept)
    else writeAt 0 s.out s.info.samples k.pcm
  avg : s1.avg_bitrate_kbps = s.avg_bitrate_kbps + k.info.bitrate_kbps
  frames : s1.frames = s.frames + 1
  cb_none : cb = none → s1.ret = s.ret ∧ s1.cbs = s.cbs ∧ s1.user_data = s.user_data
  cb_some : ∀ f, cb = some f →
    s1.cbs = s.cbs ++ [{ file_size := s.orig_buf_size,
                         offset := subSize s.orig_buf_size s1.buf_size,
                         info := k.info, result := s1.ret }] ∧
    (s1.ret, s1.user_data)
      = f s.user_data s.orig_buf_size (subSize s.orig_buf_size s1.buf_size) k.info

/-- The bookkeeping of a frame `k` that is not accepted: nothing but the return code changes,
and that only when the frame has samples (lines 258-264). -/
structure Rejected (env : Env D) (s s1 : St D U S) (k : CallRec) : Prop where
  to_skip : s1.to_skip = s.to_skip
  info : s1.info = s.info
  out : s1.out = writeAt 0 s.out s.info.samples k.pcm
  avg : s1.avg_bitrate_kbps = s.avg_bitrate_kbps
  frames : s1.frames = s.frames
  cbs : s1.cbs = s.cbs
  user_data : s1.user_data = s.user_data
  ret : s1.ret = if k.samples = 0 then s.ret else env.MP3D_E_DECODE

/-- One pass of the decode loop that reaches the frame decoder, from the state `s` to the state
`s1`, with the record `k` of the decoder call. -/
structure Pass (env : Env D) (cb : Option (ProgressCb U)) (s s1 : St D U S) (k : CallRec) :
    Prop where
  decoded : ∃ d w, k.samples = (env.mp3dec_decode_frame d w).samples ∧
    k.info = (env.mp3dec_decode_frame d w).info ∧ k.pcm = (env.mp3dec_decode_frame d w).pcm
  k_acc : k.acc = s.info.samples
  k_to_skip : k.to_skip = s.to_skip
  k_allocated : k.allocated = s1.allocated
  grow : (s1.allocated = s.allocated ∧ ¬ subSize s.allocated (s.info.samples * env.sizeof_sample)
            < env.MINIMP3_MAX_SAMPLES_PER_FRAME * env.sizeof_sample) ∨
         (s1.allocated = s.allocated * 2 ∧ subSize s.allocated (s.info.samples * env.sizeof_sample)
            < env.MINIMP3_MAX_SAMPLES_PER_FRAME * env.sizeof_sample)
  calls : s1.calls = s.calls ++ [k]
  starts : s1.starts = s.starts ++ [{ to_skip := s.to_skip, acc := s.info.samples,
                                      allocated := s.allocated }]
  detected : s1.detected_samples = s.detected_samples
  vbr_delay : s1.vbr_delay = s.vbr_delay
  hdr_channels : s1.hdr_channels = s.hdr_channels
  orig_buf_size : s1.orig_buf_size = s.orig_buf_size
  frame_info : s1.frame_info = k.info
  accepted : k.accepted s.info.hz s.info.layer → Accepted cb s s1 k
  rejected : ¬ k.accepted s.info.hz s.info.layer → Rejected env s s1 k

/-- The loop goes round again after the pass: the frame advanced the cursor, and it had no
samples or was accepted without the callback asking to stop. -/
def Goes (cb : Option (ProgressCb U)) (s s1 : St D U S) (k : CallRec) : Prop :=
  k.info.frame_bytes ≠ 0 ∧
  (k.samples = 0 ∨ (k.accepted s.info.hz s.info.layer ∧ (cb.isSome → s1.ret = 0)))

/-- The loop is left after the pass: the frame was inconsistent, or the callback asked to stop,
or the frame did not advance the cursor. -/
def Stops (cb : Option (ProgressCb U)) (s s1 : St D U S) (k : CallRec) : Prop :=
  (k.samples ≠ 0 ∧ ¬ k.accepted s.info.hz s.info.layer) ∨
  (k.accepted s.info.hz s.info.layer ∧ cb.isSome ∧ s1.ret ≠ 0) ∨
  (k.info.frame_bytes = 0 ∧
    (k.samples = 0 ∨ (k.accepted s.info.hz s.info.layer ∧ (cb.isSome → s1.ret = 0))))

/-- The result of the `return MP3D_E_MEMORY;` of line 233, from the state `s` at the head of
the pass. -/
def growFailure (env : Env D) (s : St D U S) : Result U S :=
  mkResult { logStart s with allocated := s.allocated * 2, nalloc := s.nalloc + 1 }
    env.MP3D_E_MEMORY Exit.grow_failed (some (blockView env s.out s.allocated))

/-- The number of values of the accepted frames among the decoder calls `ks`. -/
def accTotal (hz : Nat) (layer : Int) : List CallRec → Nat
  | [] => 0
  | k :: ks => (if k.accepted hz layer then k.values else 0) + accTotal hz layer ks

/-- The outputs of the accepted frames among the decoder calls `ks`, concatenated in order. -/
def accOutput (hz : Nat) (layer : Int) : List CallRec → List Sample
  | [] => []
  | k :: ks => (if k.accepted hz layer then k.pcm else []) ++ accOutput hz layer ks

/-- The frame infos of the accepted frames among the decoder calls `ks`, in order. -/
def accInfos (hz : Nat) (layer : Int) : List CallRec → List mp3dec_frame_info_t
  | [] => []
  | k :: ks => (if k.accepted hz layer then [k.info] else []) ++ accInfos hz layer ks

/-- The running channel count after the decoder calls `ks`, from the running count `ch`: an
accepted frame with another channel count turns a nonzero count into the sentinel `0`
(lines 265-268). -/
def chanAfter (hz : Nat) (layer : Int) (ch : Nat) : List CallRec → Nat
  | [] => ch
  | k :: ks =>
    chanAfter hz layer
      (if k.accepted hz layer ∧ ch ≠ 0 ∧ ch ≠ k.info.channels then 0 else ch) ks

/-- The outputs of the decoder calls with a nonzero sample count, concatenated in order. -/
def rawOutput : List CallRec → List Sample
  | [] => []
  | k :: ks => (if k.samples ≠ 0 then k.pcm else []) ++ rawOutput ks

/-- The number of values the decoder calls produced. -/
def rawTotal : List CallRec → Nat
  | [] => 0
  | k :: ks => k.values + rawTotal ks

/-- The padding cut of line 293: a count above a nonzero budget becomes the budget. -/
def cutTo (budget n : Nat) : Nat := if budget ≠ 0 ∧ n > budget then budget else n

/-- The raw output with the first `delay` values dropped and then, when a budget was
established, truncated to the budget. -/
def trimmed (raw : List Sample) (delay : Int) (budget : Nat) : List Sample :=
  if budget ≠ 0 then (raw.drop delay.toNat).take budget else raw.drop delay.toNat

/-- What holds of the state after any number of passes of the decode loop entered in `s0`:
the variables the loop does not assign are unchanged, and the bookkeeping variables are
determined by the recorded decoder calls. -/
structure Book (cb : Option (ProgressCb U)) (s0 s : St D U S) : Prop where
  detected : s.detected_samples = s0.detected_samples
  vbr_delay : s.vbr_delay = s0.vbr_delay
  hdr_channels : s.hdr_channels = s0.hdr_channels
  orig_buf_size : s.orig_buf_size = s0.orig_buf_size
  hz : s.info.hz = s0.info.hz
  layer : s.info.layer = s0.info.layer
  buffer : s.info.buffer = s0.info.buffer
  avg0 : s.info.avg_bitrate_kbps = s0.info.avg_bitrate_kbps
  frames : s.frames = (accInfos s0.info.hz s0.info.layer s.calls).length
  avg : s.avg_bitrate_kbps
    = ((accInfos s0.info.hz s0.info.layer s.calls).map fun i => i.bitrate_kbps).sum
  channels : s.info.channels = chanAfter s0.info.hz s0.info.layer s0.hdr_channels s.calls
  cbs_none : cb = none → s.cbs = []
  cbs_some : cb.isSome → s.cbs.map (fun c => c.info) = accInfos s0.info.hz s0.info.layer s.calls
  cbs_size : ∀ c ∈ s.cbs, c.file_size = s0.orig_buf_size
  starts : s.starts.length = s.calls.length

/-- What holds in addition at the head of each pass: no error, no stop request, every decoded
frame so far was accepted or empty, and advanced the cursor. -/
structure Head (s0 s : St D U S) : Prop where
  ret : s.ret = 0
  cbs : ∀ c ∈ s.cbs, c.result = 0
  calls : ∀ k ∈ s.calls, k.samples = 0 ∨ k.accepted s0.info.hz s0.info.layer
  advance : ∀ k ∈ s.calls, k.info.frame_bytes ≠ 0

/-- How the decode loop is left in state `s`, with `k` the last decoder call and `ks` the ones
before it: after an inconsistent frame, after a stop request, or at the end of the stream. -/
structure Exiting (env : Env D) (cb : Option (ProgressCb U)) (s0 s : St D U S)
    (ks : List CallRec) (k : CallRec) : Prop where
  calls : s.calls = ks ++ [k]
  before : ∀ j ∈ ks, (j.samples = 0 ∨ j.accepted s0.info.hz s0.info.layer) ∧
    j.info.frame_bytes ≠ 0
  samples : s.info.samples = k.acc + (if k.accepted s0.info.hz s0.info.layer then k.kept else 0)
  how :
    (k.samples ≠ 0 ∧ ¬ k.accepted s0.info.hz s0.info.layer ∧ s.ret = env.MP3D_E_DECODE ∧
      ∀ c ∈ s.cbs, c.result = 0) ∨
    (k.accepted s0.info.hz s0.info.layer ∧ s.ret ≠ 0 ∧
      ∃ cs c, s.cbs = cs ++ [c] ∧ c.result = s.ret ∧ c.info = k.info ∧
        ∀ c1 ∈ cs, c1.result = 0) ∨
    (k.info.frame_bytes = 0 ∧ (k.samples = 0 ∨ k.accepted s0.info.hz s0.info.layer) ∧
      s.ret = 0 ∧ ∀ c ∈ s.cbs, c.result = 0)

/-- The counting invariant of the decode loop, for a delay that is not negative: the pending
delay and the accumulated count are what is left of the declared delay and of the accepted
values after the one was taken from the other. -/
structure CountInv (s0 s : St D U S) : Prop where
  nonneg : 0 ≤ s.to_skip
  balance : s.to_skip + (accTotal s0.info.hz s0.info.layer s.calls : Int)
    = s0.vbr_delay + (s.info.samples : Int)
  either : s.to_skip = 0 ∨ s.info.samples = 0

/-- The content invariant of the decode loop: the accumulated samples are the accepted output
without the values the delay has dropped so far. -/
structure ContentInv (s0 s : St D U S) : Prop where
  length : (accOutput s0.info.hz s0.info.layer s.calls).length
    = accTotal s0.info.hz s0.info.layer s.calls
  content : readRange 0 s.out 0 s.info.samples
    = (accOutput s0.info.hz s0.info.layer s.calls).drop (s0.vbr_delay - s.to_skip).toNat

/-- The capacity invariant of the decode loop: the accumulated samples fit the buffer, and at
every decoder call there was room for one maximal frame behind them. -/
structure CapInv (env : Env D) (s : St D U S) : Prop where
  nonneg : 0 ≤ s.to_skip
  fits : s.info.samples * env.sizeof_sample ≤ s.allocated
  base : env.MINIMP3_MAX_SAMPLES_PER_FRAME * env.sizeof_sample ≤ s.allocated
  calls : ∀ k ∈ s.calls,
    (k.acc + env.MINIMP3_MAX_SAMPLES_PER_FRAME) * env.sizeof_sample ≤ k.allocated ∧
    (k.acc + k.kept) * env.sizeof_sample ≤ k.allocated
  starts : ∀ i ∈ s.starts, i.acc * env.sizeof_sample ≤ i.allocated

/-- Everything the invariants say of a state `s` of the decode loop entered in `s0`; the
counting, content and capacity invariants under the helper contracts they need. -/
structure Known (env : Env D) (cb : Option (ProgressCb U)) (s0 s : St D U S) : Prop where
  book : Book cb s0 s
  count : 0 ≤ s0.vbr_delay → CountInv s0 s
  content : 0 ≤ s0.vbr_delay → DecoderFills env → ContentInv s0 s
  cap : 0 ≤ s0.vbr_delay → DecoderBounded env → CapInv env s

/-- The arguments pass the parameter check of line 97. -/
def ValidArgs (env : Env D) (a : Args D U S) : Prop :=
  a.dec.isSome ∧ a.buf.isSome ∧ a.info.isSome ∧ a.buf_size ≠ SIZE_MAX ∧
  (a.io.isSome → env.MINIMP3_BUF_SIZE ≤ a.buf_size)

/-- An empty success: the call returns `0`, the info structure is all zero (no samples, no
buffer), and the frame decoder was never called. -/
def EmptySuccess (r : Result U S) : Prop :=
  r.ret = 0 ∧ r.info = some zeroInfo ∧ r.calls = []

/-- In whole-buffer mode over the buffer `buf` of `buf_size` bytes: bytes are left after tag
skipping, the locator finds a frame in them on its first call, the frame's header says
Layer III, and the VBR directory found in the frame declares a budget of zero. -/
def FirstFrameVbrZero (env : Env D) (buf : List Byte) (buf_size : Nat) : Prop :=
  let t := env.mp3dec_skip_id3 (window buf 0 buf_size)
  let f := env.mp3d_find_frame (window (buf.drop t.1) 0 t.2)
  let hdr := window ((buf.drop t.1).drop f.1) 0 (subSize t.2 f.1)
  let ch : Nat := if env.HDR_IS_MONO hdr then 1 else 2
  let v := env.mp3dec_check_vbrtag hdr f.2
  t.2 ≠ 0 ∧ f.2 ≠ 0 ∧ env.HDR_GET_LAYER hdr = 1 ∧ v.ret > 0 ∧
  vbrBudget (env.hdr_frame_samples hdr * ch) v.frames (v.delay * ch) (v.padding * ch) = 0

/-- The variables the probe loop never touches still have their initial values. -/
def Pristine (a : Args D U S) (s : St D U S) : Prop :=
  s.info = zeroInfo ∧ s.calls = [] ∧ s.starts = [] ∧ s.cbs = [] ∧ s.out = [] ∧ s.ret = 0 ∧
  s.avg_bitrate_kbps = 0 ∧ s.frames = 0 ∧ s.nalloc = 0 ∧ s.orig_buf_size = a.buf_size ∧
  s.user_data = a.user_data ∧ s.hdr_channels = 0

/-- The state at the head of the probe loop. -/
def ProbeHead (a : Args D U S) (s : St D U S) : Prop :=
  Pristine a s ∧ s.to_skip = 0 ∧ s.vbr_delay = 0 ∧ s.detected_samples = 0

/-- The state in which the probe loop is left: a frame was found and interpreted. -/
def Probed (env : Env D) (a : Args D U S) (s : St D U S) : Prop :=
  Pristine a s ∧ s.to_skip = s.vbr_delay ∧ (DelayNonneg env → 0 ≤ s.vbr_delay) ∧
  s.frame_info.frame_bytes ≠ 0 ∧ (s.frame_info.channels = 1 ∨ s.frame_info.channels = 2) ∧
  (s.detected_samples ≠ 0 →
    ∃ n f p, s.detected_samples = vbrBudget n f s.vbr_delay p)

/-- The state in which the decode loop is entered. -/
def Entry (env : Env D) (a : Args D U S) (s : St D U S) : Prop :=
  s.info = { zeroInfo with channels := s.hdr_channels, hz := s.info.hz, layer := s.info.layer } ∧
  s.calls = [] ∧ s.starts = [] ∧ s.cbs = [] ∧ s.out = [] ∧ s.ret = 0 ∧
  s.avg_bitrate_kbps = 0 ∧ s.frames = 0 ∧ s.orig_buf_size = a.buf_size ∧
  s.user_data = a.user_data ∧ s.to_skip = s.vbr_delay ∧ (DelayNonneg env → 0 ≤ s.vbr_delay) ∧
  (s.hdr_channels = 1 ∨ s.hdr_channels = 2) ∧
  env.MINIMP3_MAX_SAMPLES_PER_FRAME * env.sizeof_sample ≤ s.allocated ∧
  (s.detected_samples ≠ 0 →
    ∃ n f p, s.detected_samples = vbrBudget n f s.vbr_delay p)

/-- A return before the decode loop, other than the parameter error: nothing was decoded, the
info structure is all zero, and the code is the one of the `return` taken. -/
def Early (env : Env D) (r : Result U S) : Prop :=
  r.info = some zeroInfo ∧ r.calls = [] ∧ r.starts = [] ∧ r.cbs = [] ∧
  ((r.exit = Exit.io_tag ∧ r.ret = env.MP3D_E_IOERROR) ∨
   (r.exit = Exit.short_source ∧ r.ret = 0) ∨
   (r.exit = Exit.empty_after_tags ∧ r.ret = 0) ∨
   (r.exit = Exit.io_probe ∧ r.ret = env.MP3D_E_IOERROR) ∨
   (r.exit = Exit.no_frame ∧ r.ret = 0) ∨
   (r.exit = Exit.vbr_zero ∧ r.ret = 0) ∨
   (r.exit = Exit.malloc_failed ∧ r.ret = env.MP3D_E_MEMORY ∧
      ∃ n, env.alloc_ok 0 n = false))

end Engine

/-! ## Concrete streams

A miniature stream format for the concrete runs below.  A frame is one byte `b > 0`: it decodes
to `spf` samples per channel of value `b`, mono when `b` is odd and stereo when it is even, at
44100 Hz when `b < 100` and at 48000 Hz otherwise, Layer III, 128 kbps.  A byte `0` is not a
frame: the locator skips it and the decoder reports zero samples with an advance of one byte.
The byte `7` at the head of the stream carries the VBR directory `vbr`.  There are no tags. -/

/-- The frame decoder of the miniature format. -/
def toyDecode (spf : Nat) (w : List Byte) : DecodeOut Unit :=
  match w with
  | [] => { samples := 0, info := zeroFrameInfo, pcm := [], dec := () }
  | b :: _ =>
    if b = 0 then
      { samples := 0, info := { zeroFrameInfo with frame_bytes := 1 }, pcm := [], dec := () }
    else
      { samples := spf,
        info := { frame_bytes := 1, channels := if b % 2 = 1 then 1 else 2,
                  hz := if b < 100 then 44100 else 48000, layer := 3, bitrate_kbps := 128 },
        pcm := List.replicate (spf * (if b % 2 = 1 then 1 else 2)) (b : Int), dec := () }

/-- No VBR directory. -/
def noVbr : VbrTag := { ret := 0, frames := 0, delay := 0, padding := 0 }

/-- The helpers of the miniature format, with the constants of `minimp3_ex.h`; the allocator and
the VBR directory of a leading byte `7` are parameters. -/
def toyEnv (spf : Nat) (vbr : VbrTag) (alloc : Nat → Nat → Bool) : Env Unit :=
  { MINIMP3_BUF_SIZE := 16384, MINIMP3_ID3_DETECT_SIZE := 10,
    MINIMP3_MAX_SAMPLES_PER_FRAME := 2304, sizeof_sample := 2,
    MP3D_E_PARAM := -1, MP3D_E_MEMORY := -2, MP3D_E_IOERROR := -3, MP3D_E_DECODE := -5,
    mp3dec_skip_id3v2 := fun _ => 0,
    mp3dec_skip_id3v1 := fun w => w.length,
    mp3dec_skip_id3 := fun w => (0, w.length),
    mp3d_find_frame := fun w =>
      ((w.takeWhile fun b => b = 0).length, if (w.dropWhile fun b => b = 0) = [] then 0 else 1),
    HDR_IS_MONO := fun w => w.headD 0 % 2 = 1,
    hdr_sample_rate_hz := fun w => if w.headD 0 < 100 then 44100 else 48000,
    HDR_GET_LAYER := fun _ => 1,
    hdr_bitrate_kbps := fun _ => 128,
    hdr_frame_samples := fun _ => spf,
    mp3dec_check_vbrtag := fun w _ => if w.headD 0 = 7 then vbr else noVbr,
    mp3dec_init := id,
    mp3dec_decode_frame := fun _ w => toyDecode spf w,
    alloc_ok := alloc }

/-- An allocator that never fails. -/
def allocAlways : Nat → Nat → Bool := fun _ _ => true

/-- Whole-buffer arguments: the stream `bytes`, valid pointers, the callback `cb`. -/
def bufArgs (bytes : List Byte) (cb : Option (ProgressCb Unit)) : Args Unit Unit Unit :=
  { dec := some (), io := none, io_data := (), buf := some bytes, buf_size := bytes.length,
    info := some zeroInfo, progress_cb := cb, user_data := () }

/-- A well-behaved source over a byte sequence: the state is the sequence and the read position;
`read` delivers the next bytes in order, fewer than requested only at the end; `seek` succeeds. -/
def listIo : IoOps (List Byte × Nat) :=
  { read := fun d n => ((d.1.drop d.2).take n, (d.1, d.2 + ((d.1.drop d.2).take n).length)),
    seek := fun d pos => (0, (d.1, pos)) }

/-- Bounded-window arguments: the stream `bytes` behind `listIo`, a window of `cap` bytes. -/
def ioArgs (bytes : List Byte) (cap : Nat) (cb : Option (ProgressCb Unit)) :
    Args Unit Unit (List Byte × Nat) :=
  { dec := some (), io := some listIo, io_data := (bytes, 0), buf := some [], buf_size := cap,
    info := some zeroInfo, progress_cb := cb, user_data := () }

/-- A VBR directory that declares 4 frames, a delay of 1 and a padding of 1. -/
def vbrFour : VbrTag := { ret := 1, frames := 4, delay := 1, padding := 1 }

/-- A stream that opens with a VBR directory frame, followed by four mono frames. -/
def vbrStream : List Byte := [7, 1, 3, 5, 9]

/-- A VBR directory that declares 9 frames and a delay of 10: more than the stream holds. -/
def vbrLongDelay : VbrTag := { ret := 1, frames := 9, delay := 10, padding := 0 }

/-- A VBR directory that declares 2 frames, no delay and no padding: a budget of 2. -/
def vbrTwo : VbrTag := { ret := 1, frames := 2, delay := 0, padding := 0 }

/-- A stream that opens with a VBR directory frame, followed by three mono frames at 44100 Hz
and one at 48000 Hz. -/
def rateChangeStream : List Byte := [7, 1, 3, 5, 101]

/-- A VBR directory that declares 9 frames, a delay of 1 and no padding: a budget of 8. -/
def vbrNine : VbrTag := { ret := 1, frames := 9, delay := 1, padding := 0 }

/-- A stream that opens with a VBR directory frame, followed by a mono, a stereo and a mono
frame. -/
def channelChangeStream : List Byte := [7, 1, 2, 3]

/-- A VBR directory that declares one frame and a delay of 1: a budget of zero. -/
def vbrNothing : VbrTag := { ret := 1, frames := 1, delay := 1, padding := 0 }

/-- The helpers of the miniature format with a locator that never finds a frame: it skips the
whole window and reports frame size 0. -/
def silentEnv : Env Unit :=
  { toyEnv 1 noVbr allocAlways with mp3d_find_frame := fun w => (w.length, 0) }

/-- A progress callback that never asks to stop. -/
def cbContinue : ProgressCb Unit := fun _ _ _ _ => (0, ())

/-- A progress callback that asks to stop, with the value `1`, once the reported offset is
positive. -/
def cbStopPastStart : ProgressCb Unit := fun _ _ offset _ => (if offset > 0 then 1 else 0, ())

/-- A stream of ten mono frames. -/
def tenFrames : List Byte := [1, 3, 5, 1, 3, 5, 1, 3, 5, 1]

/-- The frame decoder of a second miniature format, with frames of eight bytes: eight or more
bytes that start with a nonzero byte are a mono frame of one sample; other bytes are skipped one
at a time. -/
def wideDecode (w : List Byte) : DecodeOut Unit :=
  if w = [] then { samples := 0, info := zeroFrameInfo, pcm := [], dec := () }
  else if 8 ≤ w.length ∧ w.headD 0 ≠ 0 then
    { samples := 1,
      info := { frame_bytes := 8, channels := 1, hz := 44100, layer := 3, bitrate_kbps := 128 },
      pcm := [(w.headD 0 : Int)], dec := () }
  else { samples := 0, info := { zeroFrameInfo with frame_bytes := 1 }, pcm := [], dec := () }

/-- The helpers of the eight-byte format, scaled down to a minimal window of 16 bytes. -/
def wideEnv : Env Unit :=
  { MINIMP3_BUF_SIZE := 16, MINIMP3_ID3_DETECT_SIZE := 10,
    MINIMP3_MAX_SAMPLES_PER_FRAME := 2304, sizeof_sample := 2,
    MP3D_E_PARAM := -1, MP3D_E_MEMORY := -2, MP3D_E_IOERROR := -3, MP3D_E_DECODE := -5,
    mp3dec_skip_id3v2 := fun _ => 0,
    mp3dec_skip_id3v1 := fun w => w.length,
    mp3dec_skip_id3 := fun w => (0, w.length),
    mp3d_find_frame := fun w => (0, if 8 ≤ w.length ∧ w.headD 0 ≠ 0 then 8 else 0),
    HDR_IS_MONO := fun _ => true,
    hdr_sample_rate_hz := fun _ => 44100,
    HDR_GET_LAYER := fun _ => 1,
    hdr_bitrate_kbps := fun _ => 128,
    hdr_frame_samples := fun _ => 1,
    mp3dec_check_vbrtag := fun _ _ => noVbr,
    mp3dec_init := id,
    mp3dec_decode_frame := fun _ w => wideDecode w,
    alloc_ok := allocAlways }

/-- A source whose state counts its reads and whose third read delivers one byte more than it
was asked for; every other read delivers exactly what was asked. -/
def overIo : IoOps Nat :=
  { read := fun k n => (List.replicate (if k = 2 then n + 1 else n) 1, k + 1),
    seek := fun k _ => (0, k) }

/-- Bounded-window arguments over `overIo`, with a window of 16 bytes. -/
def overArgs : Args Unit Unit Nat :=
  { dec := some (), io := some overIo, io_data := 0, buf := some [], buf_size := 16,
    info := some zeroInfo, progress_cb := none, user_data := () }

/-! ## Vocabulary and inputs of the later claims -/

section Readings

variable {U S : Type}

/-- The sample rate a call reports in `info->hz`. -/
def Result.hz (r : Result U S) : Nat :=
  match r.info with
  | some i => i.hz
  | none => 0

/-- The layer a call reports in `info->layer`. -/
def Result.layer (r : Result U S) : Int :=
  match r.info with
  | some i => i.layer
  | none => 0

/-- The channel count a call reports in `info->channels`. -/
def Result.channels (r : Result U S) : Nat :=
  match r.info with
  | some i => i.channels
  | none => 0

/-- The average bitrate a call reports in `info->avg_bitrate_kbps`. -/
def Result.avg_bitrate_kbps (r : Result U S) : Nat :=
  match r.info with
  | some i => i.avg_bitrate_kbps
  | none => 0

end Readings

section Readings2

variable {U S : Type}

/-- Ghost reading: the sample count accumulated when the decode loop was left, from the record
of the last decoder call: the count before that call, plus the values the frame appended when
it was accepted. -/
def Result.accumulated (r : Result U S) : Nat :=
  match r.calls.getLast? with
  | some k => k.acc + (if k.accepted r.hz r.layer then k.kept else 0)
  | none => 0

end Readings2

/-- An allocator that grants the first request of a call and refuses every later one. -/
def allocFirstOnly : Nat → Nat → Bool := fun k _ => k = 0

section Contracts2

variable {D U S : Type}

/-- The arguments fail the parameter check of line 97: a null decoder state, buffer or info
pointer, the buffer size `(size_t)-1`, or a source with a window below `MINIMP3_BUF_SIZE`. -/
def BadArgs (env : Env D) (a : Args D U S) : Prop :=
  a.dec = none ∨ a.buf = none ∨ a.info = none ∨ a.buf_size = SIZE_MAX ∨
  (a.io.isSome ∧ a.buf_size < env.MINIMP3_BUF_SIZE)

end Contracts2

/-- A state at the head of the decode loop of the miniature format, in whole-buffer mode: the
bytes `bytes` are left, nothing is accumulated, the buffer has room for one maximal frame and
two samples. -/
def loopHead (bytes : List Byte) : St Unit Unit Unit :=
  { initSt () bytes (bufArgs bytes none) with
      allocated := 4612, info := { zeroInfo with channels := 1, hz := 44100, layer := 3 } }

section Contracts3

variable {D U S : Type}

/-- The source contract "a read delivers at most the number of bytes requested". -/
def ReadsBounded (ops : IoOps S) : Prop :=
  ∀ (d : S) (n : Nat), (ops.read d n).1.length ≤ n

/-- The helper contract "the frame the locator reports lies in the window it was given": the
bytes skipped and the frame length together are at most the length of the window. -/
def LocatorInWindow (env : Env D) : Prop :=
  ∀ w : List Byte, (env.mp3d_find_frame w).1 + (env.mp3d_find_frame w).2 ≤ w.length

/-- The helper contract "the frame decoder reports an advance no larger than the window it was
given". -/
def DecoderInWindow (env : Env D) : Prop :=
  ∀ (d : D) (w : List Byte), (env.mp3dec_decode_frame d w).info.frame_bytes ≤ w.length

/-- The helper contract "stripping a trailing ID3v1 tag does not lengthen the data". -/
def TagStripShrinks (env : Env D) : Prop :=
  ∀ w : List Byte, env.mp3dec_skip_id3v1 w ≤ w.length

/-- The recorded window bounds are in order: `consumed ≤ filled ≤ cap`. -/
def WinOk (cap : Nat) (ws : List WinRec) : Prop :=
  ∀ w ∈ ws, w.consumed ≤ w.filled ∧ w.filled ≤ cap

/-- The window invariant of bounded-window mode, for a window of `cap` bytes. -/
def WinInv (cap : Nat) (s : St D U S) : Prop :=
  s.buf_size = cap ∧ s.consumed ≤ s.filled ∧ s.filled ≤ cap ∧ WinOk cap s.wpts

end Contracts3

/-- Bounded-window arguments over the ten-frame stream: a source that delivers the bytes in
order, behind a window of `MINIMP3_BUF_SIZE` bytes. -/
def tenFramesIo : Args Unit Unit (List Byte × Nat) := ioArgs tenFrames 16384 none

/-- A stream that holds nothing but a VBR directory frame. -/
def vbrOnlyStream : List Byte := [7]

section Delay

variable {D U S : Type}

/-- What claim C18 says of the recorded starts of the passes of the decode loop: at each start
the pending delay is not negative, and a nonzero pending delay goes with an accumulated count of
zero; and from one start to every later one the pending delay does not increase. -/
def StartsOk (ss : List IterRec) : Prop :=
  (∀ i ∈ ss, 0 ≤ i.to_skip ∧ (i.to_skip ≠ 0 → i.acc = 0)) ∧
  ss.Pairwise fun x y => y.to_skip ≤ x.to_skip

/-- The invariant behind `StartsOk`: the recorded starts are in order, and the pending delay
of the state is at most each recorded one. -/
def StartsInv (s : St D U S) : Prop :=
  StartsOk s.starts ∧ ∀ i ∈ s.starts, s.to_skip ≤ i.to_skip

end Delay

section Contracts4

variable {D : Type}

/-- The helper contract "the frame locator reports a skip no larger than the length it was
given". -/
def LocatorSkipBounded (env : Env D) : Prop :=
  ∀ w : List Byte, (env.mp3d_find_frame w).1 ≤ w.length

end Contracts4

/-- A stream that opens with two bytes of garbage, followed by three mono frames. -/
def garbageStream : List Byte := [0, 0, 1, 3, 5]

section Reset

variable {D U S : Type}

/-- The state `s` with the decoder state replaced by `d`. -/
def St.withDec (d : D) (s : St D U S) : St D U S := { s with dec := d }

/-- The outcome of a pass, with the decoder state replaced by `d` where a state is handed
on. -/
def Flow.withDec (d : D) : Flow (St D U S) (Result U S) → Flow (St D U S) (Result U S)
  | Flow.next s => Flow.next (s.withDec d)
  | Flow.leave s => Flow.leave (s.withDec d)
  | Flow.ret r => Flow.ret r

/-- The helper contract "after `mp3dec_init` the frame decoder does not depend on what the
decoder state held before": its output, and the state it leaves, are the same. -/
def InitResets (env : Env D) : Prop :=
  ∀ (d1 d2 : D) (w : List Byte),
    env.mp3dec_decode_frame (env.mp3dec_init d1) w
      = env.mp3dec_decode_frame (env.mp3dec_init d2) w

end Reset

/-- A frame decoder of the miniature format with memory: the decoder state counts the calls,
and the count is added to every sample value. -/
def countDecode (d : Nat) (w : List Byte) : DecodeOut Nat :=
  { samples := (toyDecode 1 w).samples, info := (toyDecode 1 w).info,
    pcm := (toyDecode 1 w).pcm.map fun v => v + (d : Int), dec := d + 1 }

/-- The helpers of the miniature format with the decoder `countDecode`; `mp3dec_init` sets the
count to `0`. -/
def countEnv : Env Nat :=
  { MINIMP3_BUF_SIZE := 16384, MINIMP3_ID3_DETECT_SIZE := 10,
    MINIMP3_MAX_SAMPLES_PER_FRAME := 2304, sizeof_sample := 2,
    MP3D_E_PARAM := -1, MP3D_E_MEMORY := -2, MP3D_E_IOERROR := -3, MP3D_E_DECODE := -5,
    mp3dec_skip_id3v2 := fun _ => 0,
    mp3dec_skip_id3v1 := fun w => w.length,
    mp3dec_skip_id3 := fun w => (0, w.length),
    mp3d_find_frame := fun w =>
      ((w.takeWhile fun b => b = 0).length, if (w.dropWhile fun b => b = 0) = [] then 0 else 1),
    HDR_IS_MONO := fun w => w.headD 0 % 2 = 1,
    hdr_sample_rate_hz := fun w => if w.headD 0 < 100 then 44100 else 48000,
    HDR_GET_LAYER := fun _ => 1,
    hdr_bitrate_kbps := fun _ => 128,
    hdr_frame_samples := fun _ => 1,
    mp3dec_check_vbrtag := fun _ _ => noVbr,
    mp3dec_init := fun _ => 0,
    mp3dec_decode_frame := countDecode,
    alloc_ok := allocAlways }

/-- Whole-buffer arguments for `countEnv`: the stream `bytes`, a decoder state that holds `d`
and an info structure that holds `i` from an earlier use. -/
def countArgs (d : Nat) (i : mp3dec_file_info_t) (bytes : List Byte) : Args Nat Unit Unit :=
  { dec := some d, io := none, io_data := (), buf := some bytes, buf_size := bytes.length,
    info := some i, progress_cb := none, user_data := () }

/-- An info structure left behind by an earlier call. -/
def usedInfo : mp3dec_file_info_t :=
  { buffer := some [9, 9], samples := 2, channels := 2, hz := 48000, layer := 3,
    avg_bitrate_kbps := 320 }

section Budget

variable {D : Type}

/-- The channel count the probe loop reads off a frame header (line 178). -/
def hdrChannels (env : Env D) (hdr : List Byte) : Nat := if env.HDR_IS_MONO hdr then 1 else 2

/-- The budget that lines 183-195 compute for the frame with header `hdr` and length
`frame_size`: from the frame's sample count, and the frame count, delay and padding that its
VBR directory declares, the last two scaled by the channel count. -/
def declaredBudget (env : Env D) (hdr : List Byte) (frame_size : Nat) : Nat :=
  vbrBudget (env.hdr_frame_samples hdr * hdrChannels env hdr)
    (env.mp3dec_check_vbrtag hdr frame_size).frames
    ((env.mp3dec_check_vbrtag hdr frame_size).delay * hdrChannels env hdr)
    ((env.mp3dec_check_vbrtag hdr frame_size).padding * hdrChannels env hdr)

/-- The budget `budget`, the pending delay `delay` and the channel count `channels` are those
of a Layer III frame in which the VBR directory parser found a directory: the delay is the
declared delay scaled by the channel count, the budget is `declaredBudget` of that frame. -/
def DeclaredBy (env : Env D) (budget : Nat) (delay : Int) (channels : Nat) : Prop :=
  ∃ (hdr : List Byte) (frame_size : Nat),
    (env.mp3dec_check_vbrtag hdr frame_size).ret > 0 ∧ env.HDR_GET_LAYER hdr = 1 ∧
    channels = hdrChannels env hdr ∧
    delay = (env.mp3dec_check_vbrtag hdr frame_size).delay * hdrChannels env hdr ∧
    budget = declaredBudget env hdr frame_size

end Budget

/-! ## Arithmetic and memory lemmas -/

theorem subSize_of_le {a b : Nat} (h : b ≤ a) : subSize a b = a - b := by
  simp [subSize, h]

theorem subSize_self (a : Nat) : subSize a a = 0 := by
  simp [subSize]

theorem toSize_of_nonneg {x : Int} (h : 0 ≤ x) : toSize x = x.toNat := by
  simp [toSize, h]

theorem length_readRange {α : Type} (d : α) (m : List α) (off n : Nat) :
    (readRange d m off n).length = n := by
  simp only [readRange, List.length_append, List.length_replicate, List.length_take,
    List.length_drop]
  omega

theorem readRange_zero_len {α : Type} (d : α) (m : List α) (off : Nat) :
    readRange d m off 0 = [] := by
  simp [readRange]

theorem readRange_of_le {α : Type} (d : α) (m : List α) {n : Nat} (h : n ≤ m.length) :
    readRange d m 0 n = m.take n := by
  simp [readRange, List.length_take, Nat.min_eq_left h]

theorem readRange_append_left {α : Type} (d : α) (xs ys : List α) :
    readRange d (xs ++ ys) 0 xs.length = xs := by
  simp [readRange]

theorem readRange_append_both {α : Type} (d : α) (xs ys zs : List α) :
    readRange d (xs ++ ys ++ zs) 0 (xs.length + ys.length) = xs ++ ys := by
  have h : (xs ++ ys ++ zs).take (xs.length + ys.length) = xs ++ ys := by
    rw [← List.length_append]
    exact List.take_left' rfl
  simp only [readRange, List.drop_zero, h, List.length_append, Nat.sub_self,
    List.replicate_zero, List.append_nil]

/-- Reading the cells below the offset of a store gives what was there before. -/
theorem readRange_writeAt_below {α : Type} (d : α) (m : List α) (off : Nat) (data : List α) :
    readRange d (writeAt d m off data) 0 off = readRange d m 0 off := by
  have h := readRange_append_left d (readRange d m 0 off) (data ++ m.drop (off + data.length))
  rw [length_readRange] at h
  simpa [writeAt, List.append_assoc] using h

/-- Reading up to the end of a store gives what was there before, followed by the data. -/
theorem readRange_writeAt_through {α : Type} (d : α) (m : List α) (off : Nat) (data : List α) :
    readRange d (writeAt d m off data) 0 (off + data.length) = readRange d m 0 off ++ data := by
  have h := readRange_append_both d (readRange d m 0 off) data (m.drop (off + data.length))
  rw [length_readRange] at h
  simpa [writeAt] using h

theorem getElem?_readRange {α : Type} (d : α) (m : List α) (off n i : Nat) :
    (readRange d m off n)[i]? = if i < n then some (m[off + i]?.getD d) else none := by
  unfold readRange
  by_cases hin : i < n
  · by_cases him : off + i < m.length
    · have h1 : i < ((m.drop off).take n).length := by
        simp only [List.length_take, List.length_drop]; omega
      rw [List.getElem?_append_left h1, List.getElem?_take_of_lt hin, List.getElem?_drop]
      simp [hin, List.getElem?_eq_getElem him]
    · have h1 : ((m.drop off).take n).length ≤ i := by
        simp only [List.length_take, List.length_drop]; omega
      rw [List.getElem?_append_right h1]
      have h2 : m[off + i]? = none := List.getElem?_eq_none (by omega)
      simp only [hin, h2, if_true, Option.getD_none, List.getElem?_replicate]
      simp only [List.length_take, List.length_drop]
      rw [if_pos (by omega)]
  · have h1 : (readRange d m off n).length ≤ i := by
      simp only [readRange, List.length_append, List.length_replicate, List.length_take,
        List.length_drop]
      omega
    simp only [hin, if_false]
    exact List.getElem?_eq_none h1

/-- A shorter read from the start is a prefix of a longer one. -/
theorem take_readRange {α : Type} (d : α) (m : List α) {j n : Nat} (h : j ≤ n) :
    (readRange d m 0 n).take j = readRange d m 0 j := by
  apply List.ext_getElem?
  intro i
  by_cases hij : i < j
  · rw [List.getElem?_take_of_lt hij, getElem?_readRange, getElem?_readRange]
    simp [hij, Nat.lt_of_lt_of_le hij h]
  · rw [getElem?_readRange, if_neg hij]
    exact List.getElem?_eq_none (by simp only [List.length_take]; omega)

/-- A read at an offset is the tail of a read from the start. -/
theorem readRange_offset {α : Type} (d : α) (m : List α) (off n : Nat) :
    readRange d m off n = (readRange d m 0 (off + n)).drop off := by
  apply List.ext_getElem?
  intro i
  rw [List.getElem?_drop, getElem?_readRange, getElem?_readRange]
  by_cases hin : i < n
  · simp [hin]
  · simp [hin]
/-! ## Loops -/

/-- The invariant rule for `iterate`: a property `I` that every pass hands on to the next pass,
and that gives `Q` where the body leaves the loop and `R` where it returns, gives `Q` or `R` for
whatever the loop delivers. -/
theorem iterate_spec {σ ρ : Type} (step : σ → Flow σ ρ) (I Q : σ → Prop) (R : ρ → Prop)
    (h : ∀ s, I s → Flow.sat I Q R (step s)) :
    ∀ (fuel : Nat) (s : σ), I s → loopSat Q R (iterate step fuel s) := by
  intro fuel
  induction fuel with
  | zero => intro s _; simp [iterate, loopSat]
  | succ n ih =>
    intro s hs
    have hstep := h s hs
    unfold iterate
    cases hst : step s with
    | next s1 => rw [hst] at hstep; exact ih s1 hstep
    | leave s1 => rw [hst] at hstep; exact hstep
    | ret r => rw [hst] at hstep; exact hstep

theorem iterate_leave {σ ρ : Type} {step : σ → Flow σ ρ} {I Q : σ → Prop}
    (h : ∀ s, I s → Flow.sat I Q (fun _ => True) (step s))
    {fuel : Nat} {s s1 : σ} (hs : I s) (hrun : iterate step fuel s = some (Sum.inl s1)) :
    Q s1 := by
  have := iterate_spec step I Q (fun _ => True) h fuel s hs
  rw [hrun] at this
  exact this

theorem iterate_ret {σ ρ : Type} {step : σ → Flow σ ρ} {I : σ → Prop} {R : ρ → Prop}
    (h : ∀ s, I s → Flow.sat I (fun _ => True) R (step s))
    {fuel : Nat} {s : σ} {r : ρ} (hs : I s) (hrun : iterate step fuel s = some (Sum.inr r)) :
    R r := by
  have := iterate_spec step I (fun _ => True) R h fuel s hs
  rw [hrun] at this
  exact this

/-! ## What one pass of the decode loop changes -/

section Steps

variable {D U S : Type}

/-- The growth step changes the capacity and the allocation count only, and leaves room for one
maximal frame behind the doubled value when it doubles. -/
theorem growStep_inl {env : Env D} {s s1 : St D U S} (h : growStep env s = Sum.inl s1) :
    ∃ g n, s1 = { s with allocated := g, nalloc := n } ∧
      ((g = s.allocated ∧ ¬ subSize s.allocated (s.info.samples * env.sizeof_sample)
          < env.MINIMP3_MAX_SAMPLES_PER_FRAME * env.sizeof_sample) ∨
       (g = s.allocated * 2 ∧ subSize s.allocated (s.info.samples * env.sizeof_sample)
          < env.MINIMP3_MAX_SAMPLES_PER_FRAME * env.sizeof_sample)) := by
  unfold growStep at h
  by_cases hc : subSize s.allocated (s.info.samples * env.sizeof_sample)
      < env.MINIMP3_MAX_SAMPLES_PER_FRAME * env.sizeof_sample
  · rw [if_pos hc] at h
    by_cases ha : env.alloc_ok s.nalloc (s.allocated * 2) = false
    · simp [ha] at h
    · simp only [ha, if_false] at h
      exact ⟨s.allocated * 2, s.nalloc + 1, (Sum.inl.inj h).symm, Or.inr ⟨rfl, hc⟩⟩
  · rw [if_neg hc] at h
    exact ⟨s.allocated, s.nalloc, (Sum.inl.inj h).symm, Or.inl ⟨rfl, hc⟩⟩

/-- The growth step returns only through the failed `realloc`, with `MP3D_E_MEMORY`. -/
theorem growStep_inr {env : Env D} {s : St D U S} {r : Result U S}
    (h : growStep env s = Sum.inr r) :
    env.alloc_ok s.nalloc (s.allocated * 2) = false ∧
    r = mkResult { s with allocated := s.allocated * 2, nalloc := s.nalloc + 1 }
      env.MP3D_E_MEMORY Exit.grow_failed (some (blockView env s.out s.allocated)) := by
  unfold growStep at h
  by_cases hc : subSize s.allocated (s.info.samples * env.sizeof_sample)
      < env.MINIMP3_MAX_SAMPLES_PER_FRAME * env.sizeof_sample
  · rw [if_pos hc] at h
    by_cases ha : env.alloc_ok s.nalloc (s.allocated * 2) = false
    · simp only [ha, if_true] at h
      exact ⟨ha, (Sum.inr.inj h).symm⟩
    · simp [ha] at h
  · simp [hc] at h

/-- The refill of the decode loop touches the window and the source only. -/
theorem decodeRefill_eq (env : Env D) (ops : IoOps S) (s : St D U S) :
    ∃ buf filled consumed eof io_data io_calls wpts,
      decodeRefill env ops s =
        { s with buf := buf, filled := filled, consumed := consumed, eof := eof,
                 io_data := io_data, io_calls := io_calls, wpts := wpts } := by
  refine ⟨(decodeRefill env ops s).buf, (decodeRefill env ops s).filled,
    (decodeRefill env ops s).consumed, (decodeRefill env ops s).eof,
    (decodeRefill env ops s).io_data, (decodeRefill env ops s).io_calls,
    (decodeRefill env ops s).wpts, ?_⟩
  unfold decodeRefill
  by_cases hc : s.eof = false ∧ subSize s.filled s.consumed < env.MINIMP3_BUF_SIZE
  · rw [if_pos hc]
    rfl
  · rw [if_neg hc]

/-- Fetching a frame stores the decoder's output behind the accumulated samples, records the
call, and otherwise touches the cursor, the window and the source only. -/
theorem fetchStep_eq (env : Env D) (io : Option (IoOps S)) (s : St D U S) :
    ∃ (o : DecodeOut D) (buf : List Byte) (buf_size filled consumed : Nat) (eof : Bool)
      (io_data : S) (io_calls : Nat) (wpts : List WinRec),
      (∃ d w, o = env.mp3dec_decode_frame d w) ∧
      fetchStep env io s =
        { s with dec := o.dec, samples := o.samples, frame_info := o.info,
                 out := writeAt 0 s.out s.info.samples o.pcm,
                 calls := s.calls ++ [{ allocated := s.allocated, acc := s.info.samples,
                                        to_skip := s.to_skip, samples := o.samples,
                                        info := o.info, pcm := o.pcm }],
                 buf := buf, buf_size := buf_size, filled := filled, consumed := consumed,
                 eof := eof, io_data := io_data, io_calls := io_calls, wpts := wpts } := by
  cases io with
  | none =>
    exact ⟨env.mp3dec_decode_frame s.dec (window s.buf 0 (min s.buf_size INT_MAX)), _, _, _, _, _,
      _, _, _, ⟨_, _, rfl⟩, rfl⟩
  | some ops =>
    obtain ⟨b, f, c, e, d, n, w, h⟩ := decodeRefill_eq env ops s
    refine ⟨env.mp3dec_decode_frame (decodeRefill env ops s).dec
      (window (decodeRefill env ops s).buf (decodeRefill env ops s).consumed
        (subSize (decodeRefill env ops s).filled (decodeRefill env ops s).consumed)),
      (fetchStep env (some ops) s).buf, (fetchStep env (some ops) s).buf_size,
      (fetchStep env (some ops) s).filled, (fetchStep env (some ops) s).consumed,
      (fetchStep env (some ops) s).eof, (fetchStep env (some ops) s).io_data,
      (fetchStep env (some ops) s).io_calls, (fetchStep env (some ops) s).wpts,
      ⟨_, _, rfl⟩, ?_⟩
    simp only [fetchStep]
    rw [h]
    rfl

/-- One pass of the decode loop: either the growth fails and the pass returns, or the pass is
the bookkeeping `accountStep` applied to the state in which the capacity is `g`, the decoder's
output `o` is stored behind the accumulated samples and the call is recorded. -/
theorem decodeStep_cases (env : Env D) (io : Option (IoOps S)) (cb : Option (ProgressCb U))
    (s : St D U S) :
    (env.alloc_ok s.nalloc (s.allocated * 2) = false ∧
      decodeStep env io cb s = Flow.ret (mkResult
        { logStart s with allocated := s.allocated * 2, nalloc := s.nalloc + 1 }
        env.MP3D_E_MEMORY Exit.grow_failed (some (blockView env s.out s.allocated)))) ∨
    ∃ (g n : Nat) (o : DecodeOut D) (buf : List Byte) (buf_size filled consumed : Nat)
      (eof : Bool) (io_data : S) (io_calls : Nat) (wpts : List WinRec),
      (∃ d w, o = env.mp3dec_decode_frame d w) ∧
      ((g = s.allocated ∧ ¬ subSize s.allocated (s.info.samples * env.sizeof_sample)
          < env.MINIMP3_MAX_SAMPLES_PER_FRAME * env.sizeof_sample) ∨
       (g = s.allocated * 2 ∧ subSize s.allocated (s.info.samples * env.sizeof_sample)
          < env.MINIMP3_MAX_SAMPLES_PER_FRAME * env.sizeof_sample)) ∧
      decodeStep env io cb s = accountStep cb env
        { s with starts := s.starts ++ [{ to_skip := s.to_skip, acc := s.info.samples,
                                          allocated := s.allocated }],
                 allocated := g, nalloc := n,
                 dec := o.dec, samples := o.samples, frame_info := o.info,
                 out := writeAt 0 s.out s.info.samples o.pcm,
                 calls := s.calls ++ [{ allocated := g, acc := s.info.samples,
                                        to_skip := s.to_skip, samples := o.samples,
                                        info := o.info, pcm := o.pcm }],
                 buf := buf, buf_size := buf_size, filled := filled, consumed := consumed,
                 eof := eof, io_data := io_data, io_calls := io_calls, wpts := wpts } := by
  unfold decodeStep
  cases hg : growStep env (logStart s) with
  | inr r =>
    left
    refine ⟨(growStep_inr hg).1, ?_⟩
    rw [(growStep_inr hg).2]
    rfl
  | inl s1 =>
    right
    obtain ⟨g, n, hs1, hgrow⟩ := growStep_inl hg
    obtain ⟨o, b, bs, f, c, e, d, ic, w, ho, hf⟩ := fetchStep_eq env io s1
    refine ⟨g, n, o, b, bs, f, c, e, d, ic, w, ho, hgrow, ?_⟩
    simp only
    rw [hf, hs1]
    rfl

/-- One pass of the decode loop, as a relation between the state before and the state after:
the summary on which the invariants of the loop are proved. -/
theorem decodeStep_pass (env : Env D) (io : Option (IoOps S)) (cb : Option (ProgressCb U))
    (s : St D U S) :
    Flow.sat (fun s1 => ∃ k, Pass env cb s s1 k ∧ Goes cb s s1 k)
      (fun s1 => ∃ k, Pass env cb s s1 k ∧ Stops cb s s1 k)
      (fun r => env.alloc_ok s.nalloc (s.allocated * 2) = false ∧ r = growFailure env s)
      (decodeStep env io cb s) := by
  rcases decodeStep_cases env io cb s with
    ⟨ha, h⟩ | ⟨g, n, o, b, bs, f, c, e, d, ic, w, ho, hgrow, h⟩
  · rw [h]
    exact ⟨ha, rfl⟩
  · obtain ⟨dd, ww, ho⟩ := ho
    have hdec : ∃ d w, o.samples = (env.mp3dec_decode_frame d w).samples ∧
        o.info = (env.mp3dec_decode_frame d w).info ∧
        o.pcm = (env.mp3dec_decode_frame d w).pcm := ⟨dd, ww, by rw [ho], by rw [ho], by rw [ho]⟩
    clear ho
    rw [h]
    clear h
    unfold accountStep
    dsimp only
    by_cases hs0 : o.samples = 0
    · have hrej : ∀ hz layer, ¬ CallRec.accepted hz layer
          { allocated := g, acc := s.info.samples, to_skip := s.to_skip,
            samples := o.samples, info := o.info, pcm := o.pcm } := fun _ _ hk => hk.1 hs0
      rw [if_neg (not_not.mpr hs0)]
      by_cases hfb : o.info.frame_bytes ≠ 0
      · rw [if_pos hfb]
        exact ⟨_, ⟨hdec, rfl, rfl, rfl, hgrow, rfl, rfl, rfl, rfl, rfl, rfl,
          rfl, fun hk => absurd hk (hrej _ _),
          fun _ => ⟨rfl, rfl, rfl, rfl, rfl, rfl, rfl, by simp [hs0]⟩⟩, ⟨hfb, Or.inl hs0⟩⟩
      · rw [if_neg hfb]
        exact ⟨_, ⟨hdec, rfl, rfl, rfl, hgrow, rfl, rfl, rfl, rfl, rfl, rfl,
          rfl, fun hk => absurd hk (hrej _ _),
          fun _ => ⟨rfl, rfl, rfl, rfl, rfl, rfl, rfl, by simp [hs0]⟩⟩,
          Or.inr (Or.inr ⟨not_not.mp hfb, Or.inl hs0⟩)⟩
    · rw [if_pos hs0]
      by_cases hinc : s.info.hz ≠ o.info.hz ∨ s.info.layer ≠ o.info.layer
      · have hrej : ¬ CallRec.accepted s.info.hz s.info.layer
            { allocated := g, acc := s.info.samples, to_skip := s.to_skip,
              samples := o.samples, info := o.info, pcm := o.pcm } := by
          intro hk
          rcases hinc with h1 | h1
          · exact h1 hk.2.1.symm
          · exact h1 hk.2.2.symm
        rw [if_pos hinc]
        exact ⟨_, ⟨hdec, rfl, rfl, rfl, hgrow, rfl, rfl, rfl, rfl, rfl, rfl,
          rfl, fun hk => absurd hk hrej,
          fun _ => ⟨rfl, rfl, rfl, rfl, rfl, rfl, rfl, by simp [hs0]⟩⟩, Or.inl ⟨hs0, hrej⟩⟩
      · rw [if_neg hinc]
        have hacc : CallRec.accepted s.info.hz s.info.layer
            { allocated := g, acc := s.info.samples, to_skip := s.to_skip,
              samples := o.samples, info := o.info, pcm := o.pcm } := by
          refine ⟨hs0, ?_, ?_⟩
          · by_contra hne
            exact hinc (Or.inl fun he => hne he.symm)
          · by_contra hne
            exact hinc (Or.inr fun he => hne he.symm)
        cases cb with
        | none =>
          simp only [notify, Option.isSome_none, Bool.false_eq_true, false_and, if_false]
          by_cases hch : s.info.channels ≠ 0 ∧ s.info.channels ≠ o.info.channels
          · rw [if_pos hch]
            split
            · rename_i hfb
              exact ⟨_, ⟨hdec, rfl, rfl, rfl, hgrow, rfl, rfl, rfl, rfl, rfl, rfl, rfl,
                fun _ => ⟨rfl, by simp only [appendFrame, if_pos hch]; rfl, rfl, rfl, rfl,
                  fun _ => ⟨rfl, rfl, rfl⟩, fun f hf => by simp at hf⟩,
                fun hk => absurd hacc hk⟩, ⟨hfb, Or.inr ⟨hacc, by simp⟩⟩⟩
            · rename_i hfb
              exact ⟨_, ⟨hdec, rfl, rfl, rfl, hgrow, rfl, rfl, rfl, rfl, rfl, rfl, rfl,
                fun _ => ⟨rfl, by simp only [appendFrame, if_pos hch]; rfl, rfl, rfl, rfl,
                  fun _ => ⟨rfl, rfl, rfl⟩, fun f hf => by simp at hf⟩,
                fun hk => absurd hacc hk⟩,
                Or.inr (Or.inr ⟨not_not.mp hfb, Or.inr ⟨hacc, by simp⟩⟩)⟩
          · rw [if_neg hch]
            split
            · rename_i hfb
              exact ⟨_, ⟨hdec, rfl, rfl, rfl, hgrow, rfl, rfl, rfl, rfl, rfl, rfl, rfl,
                fun _ => ⟨rfl, by simp only [appendFrame, if_neg hch]; rfl, rfl, rfl, rfl,
                  fun _ => ⟨rfl, rfl, rfl⟩, fun f hf => by simp at hf⟩,
                fun hk => absurd hacc hk⟩, ⟨hfb, Or.inr ⟨hacc, by simp⟩⟩⟩
            · rename_i hfb
              exact ⟨_, ⟨hdec, rfl, rfl, rfl, hgrow, rfl, rfl, rfl, rfl, rfl, rfl, rfl,
                fun _ => ⟨rfl, by simp only [appendFrame, if_neg hch]; rfl, rfl, rfl, rfl,
                  fun _ => ⟨rfl, rfl, rfl⟩, fun f hf => by simp at hf⟩,
                fun hk => absurd hacc hk⟩,
                Or.inr (Or.inr ⟨not_not.mp hfb, Or.inr ⟨hacc, by simp⟩⟩)⟩
        | some f =>
          simp only [Option.isSome_some, true_and]
          by_cases hch : s.info.channels ≠ 0 ∧ s.info.channels ≠ o.info.channels
          · rw [if_pos hch]
            split
            · rename_i hret
              exact ⟨_, ⟨hdec, rfl, rfl, rfl, hgrow, rfl, rfl, rfl, rfl, rfl, rfl, rfl,
                fun _ => ⟨rfl, by simp only [appendFrame, notify, if_pos hch]; rfl, rfl, rfl, rfl,
                  fun hf => by simp at hf,
                  fun f1 hf => by
                    obtain rfl := Option.some.inj hf
                    exact ⟨rfl, rfl⟩⟩,
                fun hk => absurd hacc hk⟩, Or.inr (Or.inl ⟨hacc, rfl, hret⟩)⟩
            · rename_i hret
              split
              · rename_i hfb
                exact ⟨_, ⟨hdec, rfl, rfl, rfl, hgrow, rfl, rfl, rfl, rfl, rfl, rfl, rfl,
                  fun _ => ⟨rfl, by simp only [appendFrame, notify, if_pos hch]; rfl, rfl, rfl, rfl,
                    fun hf => by simp at hf,
                    fun f1 hf => by
                      obtain rfl := Option.some.inj hf
                      exact ⟨rfl, rfl⟩⟩,
                  fun hk => absurd hacc hk⟩, ⟨hfb, Or.inr ⟨hacc, fun _ => not_not.mp hret⟩⟩⟩
              · rename_i hfb
                exact ⟨_, ⟨hdec, rfl, rfl, rfl, hgrow, rfl, rfl, rfl, rfl, rfl, rfl, rfl,
                  fun _ => ⟨rfl, by simp only [appendFrame, notify, if_pos hch]; rfl, rfl, rfl, rfl,
                    fun hf => by simp at hf,
                    fun f1 hf => by
                      obtain rfl := Option.some.inj hf
                      exact ⟨rfl, rfl⟩⟩,
                  fun hk => absurd hacc hk⟩,
                  Or.inr (Or.inr ⟨not_not.mp hfb, Or.inr ⟨hacc, fun _ => not_not.mp hret⟩⟩)⟩
          · rw [if_neg hch]
            split
            · rename_i hret
              exact ⟨_, ⟨hdec, rfl, rfl, rfl, hgrow, rfl, rfl, rfl, rfl, rfl, rfl, rfl,
                fun _ => ⟨rfl, by simp only [appendFrame, notify, if_neg hch]; rfl, rfl, rfl, rfl,
                  fun hf => by simp at hf,
                  fun f1 hf => by
                    obtain rfl := Option.some.inj hf
                    exact ⟨rfl, rfl⟩⟩,
                fun hk => absurd hacc hk⟩, Or.inr (Or.inl ⟨hacc, rfl, hret⟩)⟩
            · rename_i hret
              split
              · rename_i hfb
                exact ⟨_, ⟨hdec, rfl, rfl, rfl, hgrow, rfl, rfl, rfl, rfl, rfl, rfl, rfl,
                  fun _ => ⟨rfl, by simp only [appendFrame, notify, if_neg hch]; rfl, rfl, rfl, rfl,
                    fun hf => by simp at hf,
                    fun f1 hf => by
                      obtain rfl := Option.some.inj hf
                      exact ⟨rfl, rfl⟩⟩,
                  fun hk => absurd hacc hk⟩, ⟨hfb, Or.inr ⟨hacc, fun _ => not_not.mp hret⟩⟩⟩
              · rename_i hfb
                exact ⟨_, ⟨hdec, rfl, rfl, rfl, hgrow, rfl, rfl, rfl, rfl, rfl, rfl, rfl,
                  fun _ => ⟨rfl, by simp only [appendFrame, notify, if_neg hch]; rfl, rfl, rfl, rfl,
                    fun hf => by simp at hf,
                    fun f1 hf => by
                      obtain rfl := Option.some.inj hf
                      exact ⟨rfl, rfl⟩⟩,
                  fun hk => absurd hacc hk⟩,
                  Or.inr (Or.inr ⟨not_not.mp hfb, Or.inr ⟨hacc, fun _ => not_not.mp hret⟩⟩)⟩

end Steps

/-! ## The recorded decoder calls -/

theorem accTotal_append (hz : Nat) (layer : Int) (ks : List CallRec) (k : CallRec) :
    accTotal hz layer (ks ++ [k])
      = accTotal hz layer ks + (if k.accepted hz layer then k.values else 0) := by
  induction ks with
  | nil => simp [accTotal]
  | cons j js ih => rw [List.cons_append, accTotal, accTotal, ih]; omega

theorem accOutput_append (hz : Nat) (layer : Int) (ks : List CallRec) (k : CallRec) :
    accOutput hz layer (ks ++ [k])
      = accOutput hz layer ks ++ (if k.accepted hz layer then k.pcm else []) := by
  induction ks with
  | nil => simp [accOutput]
  | cons j js ih => rw [List.cons_append, accOutput, accOutput, ih, List.append_assoc]

theorem accInfos_append (hz : Nat) (layer : Int) (ks : List CallRec) (k : CallRec) :
    accInfos hz layer (ks ++ [k])
      = accInfos hz layer ks ++ (if k.accepted hz layer then [k.info] else []) := by
  induction ks with
  | nil => simp [accInfos]
  | cons j js ih => rw [List.cons_append, accInfos, accInfos, ih, List.append_assoc]

theorem chanAfter_append (hz : Nat) (layer : Int) (ch : Nat) (ks : List CallRec) (k : CallRec) :
    chanAfter hz layer ch (ks ++ [k])
      = if k.accepted hz layer ∧ chanAfter hz layer ch ks ≠ 0 ∧
            chanAfter hz layer ch ks ≠ k.info.channels then 0
        else chanAfter hz layer ch ks := by
  induction ks generalizing ch with
  | nil => simp [chanAfter]
  | cons j js ih => rw [List.cons_append, chanAfter, chanAfter, ih]

theorem rawOutput_append (ks : List CallRec) (k : CallRec) :
    rawOutput (ks ++ [k]) = rawOutput ks ++ (if k.samples ≠ 0 then k.pcm else []) := by
  induction ks with
  | nil => simp [rawOutput]
  | cons j js ih => rw [List.cons_append, rawOutput, rawOutput, ih, List.append_assoc]

theorem rawTotal_append (ks : List CallRec) (k : CallRec) :
    rawTotal (ks ++ [k]) = rawTotal ks + k.values := by
  induction ks with
  | nil => simp [rawTotal]
  | cons j js ih => rw [List.cons_append, rawTotal, rawTotal, ih]; omega

theorem chanAfter_zero (hz : Nat) (layer : Int) (ks : List CallRec) :
    chanAfter hz layer 0 ks = 0 := by
  induction ks with
  | nil => rfl
  | cons j js ih =>
    rw [chanAfter]
    simpa using ih

/-- An accepted frame with another channel count than the nonzero running count leaves the
sentinel behind. -/
theorem chanAfter_eq_zero (hz : Nat) (layer : Int) (ch : Nat) (ks : List CallRec) (k : CallRec)
    (hk : k ∈ ks) (hacc : k.accepted hz layer) (hne : k.info.channels ≠ ch) :
    chanAfter hz layer ch ks = 0 := by
  induction ks generalizing ch with
  | nil => simp at hk
  | cons j js ih =>
    rw [chanAfter]
    by_cases hc : j.accepted hz layer ∧ ch ≠ 0 ∧ ch ≠ j.info.channels
    · rw [if_pos hc]
      exact chanAfter_zero hz layer js
    · rw [if_neg hc]
      rcases List.mem_cons.mp hk with h1 | h1
      · subst h1
        by_cases h0 : ch = 0
        · rw [h0]
          exact chanAfter_zero hz layer js
        · exact absurd ⟨hacc, h0, fun h => hne h.symm⟩ hc
      · exact ih ch h1 hne

/-- When every decoded frame with samples was accepted, the accepted values are all the
values. -/
theorem accTotal_eq_rawTotal (hz : Nat) (layer : Int) (ks : List CallRec)
    (h : ∀ k ∈ ks, k.samples = 0 ∨ k.accepted hz layer) :
    accTotal hz layer ks = rawTotal ks := by
  induction ks with
  | nil => rfl
  | cons j js ih =>
    have hj := h j (List.mem_cons_self _ _)
    have hjs := ih fun k hk => h k (List.mem_cons_of_mem _ hk)
    simp only [accTotal, rawTotal, hjs]
    rcases hj with h0 | hacc
    · have : ¬ j.accepted hz layer := fun hk => hk.1 h0
      simp [this, CallRec.values, h0]
    · simp [hacc]

/-- When every decoded frame with samples was accepted, the accepted output is the raw
output. -/
theorem accOutput_eq_rawOutput (hz : Nat) (layer : Int) (ks : List CallRec)
    (h : ∀ k ∈ ks, k.samples = 0 ∨ k.accepted hz layer) :
    accOutput hz layer ks = rawOutput ks := by
  induction ks with
  | nil => rfl
  | cons j js ih =>
    have hj := h j (List.mem_cons_self _ _)
    have hjs := ih fun k hk => h k (List.mem_cons_of_mem _ hk)
    simp only [accOutput, rawOutput, hjs]
    rcases hj with h0 | hacc
    · have : ¬ j.accepted hz layer := fun hk => hk.1 h0
      simp [h0, this]
    · simp [hacc, hacc.1]

/-- The accepted values are among the values the decoder produced. -/
theorem accTotal_le_rawTotal (hz : Nat) (layer : Int) (ks : List CallRec) :
    accTotal hz layer ks ≤ rawTotal ks := by
  induction ks with
  | nil => simp [accTotal, rawTotal]
  | cons j js ih =>
    simp only [accTotal, rawTotal]
    split_ifs <;> omega

/-! ## Invariants of the decode loop -/

section Invariants

variable {D U S : Type}

theorem book_refl (cb : Option (ProgressCb U)) {env : Env D} {a : Args D U S} {s0 : St D U S}
    (h : Entry env a s0) : Book cb s0 s0 := by
  obtain ⟨h1, h2, h3, h4, h5, h6, h7, h8, h9, h10, h11, h12, h13, h14, -⟩ := h
  refine ⟨rfl, rfl, rfl, rfl, rfl, rfl, rfl, rfl, ?_, ?_, ?_, fun _ => h4, fun _ => ?_, ?_, ?_⟩
  · simp [h2, accInfos, h8]
  · simp [h2, accInfos, h7]
  · rw [h2, chanAfter, h1]
  · simp [h2, h4, accInfos]
  · simp [h4]
  · simp [h2, h3]

theorem book_step {env : Env D} {cb : Option (ProgressCb U)} {s0 s s1 : St D U S} {k : CallRec}
    (hb : Book cb s0 s) (hp : Pass env cb s s1 k) : Book cb s0 s1 := by
  have hzl : k.accepted s.info.hz s.info.layer ↔ k.accepted s0.info.hz s0.info.layer := by
    rw [hb.hz, hb.layer]
  by_cases hk : k.accepted s0.info.hz s0.info.layer
  · have ha := hp.accepted (hzl.mpr hk)
    have hinfo := ha.info
    refine ⟨hp.detected.trans hb.detected, hp.vbr_delay.trans hb.vbr_delay,
      hp.hdr_channels.trans hb.hdr_channels, hp.orig_buf_size.trans hb.orig_buf_size,
      ?_, ?_, ?_, ?_, ?_, ?_, ?_, ?_, ?_, ?_, ?_⟩
    · rw [hinfo]; exact hb.hz
    · rw [hinfo]; exact hb.layer
    · rw [hinfo]; exact hb.buffer
    · rw [hinfo]; exact hb.avg0
    · rw [hp.calls, accInfos_append, if_pos hk, ha.frames, hb.frames]
      simp
    · rw [hp.calls, accInfos_append, if_pos hk, ha.avg, hb.avg]
      simp
    · rw [hp.calls, chanAfter_append, hinfo, ← hb.channels]
      simp [hk]
    · intro hn
      rw [(ha.cb_none hn).2.1]
      exact hb.cbs_none hn
    · intro hsome
      obtain ⟨f, rfl⟩ := Option.isSome_iff_exists.mp hsome
      rw [(ha.cb_some f rfl).1, hp.calls, accInfos_append, if_pos hk]
      simp [hb.cbs_some hsome]
    · intro c hc
      cases cb with
      | none =>
        rw [(ha.cb_none rfl).2.1] at hc
        exact hb.cbs_size c hc
      | some f =>
        rw [(ha.cb_some f rfl).1] at hc
        rcases List.mem_append.mp hc with h1 | h1
        · exact hb.cbs_size c h1
        · simp only [List.mem_singleton] at h1
          rw [h1]
          exact hb.orig_buf_size
    · rw [hp.starts, hp.calls]
      simp [hb.starts]
  · have hr := hp.rejected (fun h => hk (hzl.mp h))
    refine ⟨hp.detected.trans hb.detected, hp.vbr_delay.trans hb.vbr_delay,
      hp.hdr_channels.trans hb.hdr_channels, hp.orig_buf_size.trans hb.orig_buf_size,
      ?_, ?_, ?_, ?_, ?_, ?_, ?_, ?_, ?_, ?_, ?_⟩
    · rw [hr.info]; exact hb.hz
    · rw [hr.info]; exact hb.layer
    · rw [hr.info]; exact hb.buffer
    · rw [hr.info]; exact hb.avg0
    · rw [hp.calls, accInfos_append, if_neg hk, hr.frames, hb.frames]
      simp
    · rw [hp.calls, accInfos_append, if_neg hk, hr.avg, hb.avg]
      simp
    · rw [hp.calls, chanAfter_append, hr.info, ← hb.channels]
      simp [hk]
    · intro hn
      rw [hr.cbs]
      exact hb.cbs_none hn
    · intro hsome
      rw [hr.cbs, hp.calls, accInfos_append, if_neg hk]
      simp [hb.cbs_some hsome]
    · intro c hc
      rw [hr.cbs] at hc
      exact hb.cbs_size c hc
    · rw [hp.starts, hp.calls]
      simp [hb.starts]

theorem head_refl {env : Env D} {a : Args D U S} {s0 : St D U S} (h : Entry env a s0) :
    Head s0 s0 := by
  obtain ⟨h1, h2, h3, h4, h5, h6, -⟩ := h
  exact ⟨h6, by simp [h4], by simp [h2], by simp [h2]⟩

theorem head_step {env : Env D} {cb : Option (ProgressCb U)} {s0 s s1 : St D U S} {k : CallRec}
    (hb : Book cb s0 s) (hh : Head s0 s) (hp : Pass env cb s s1 k) (hg : Goes cb s s1 k) :
    Head s0 s1 := by
  have hzl : k.accepted s.info.hz s.info.layer ↔ k.accepted s0.info.hz s0.info.layer := by
    rw [hb.hz, hb.layer]
  obtain ⟨hfb, hg⟩ := hg
  have hcalls : ∀ j ∈ s1.calls, j.samples = 0 ∨ j.accepted s0.info.hz s0.info.layer := by
    intro j hj
    rw [hp.calls] at hj
    rcases List.mem_append.mp hj with h1 | h1
    · exact hh.calls j h1
    · simp only [List.mem_singleton] at h1
      subst h1
      rcases hg with h0 | h2
      · exact Or.inl h0
      · exact Or.inr (hzl.mp h2.1)
  have hadv : ∀ j ∈ s1.calls, j.info.frame_bytes ≠ 0 := by
    intro j hj
    rw [hp.calls] at hj
    rcases List.mem_append.mp hj with h1 | h1
    · exact hh.advance j h1
    · simp only [List.mem_singleton] at h1
      subst h1
      exact hfb
  rcases hg with h0 | ⟨hacc, hret⟩
  · have hr := hp.rejected (fun h => h.1 h0)
    refine ⟨?_, ?_, hcalls, hadv⟩
    · rw [hr.ret, if_pos h0]; exact hh.ret
    · rw [hr.cbs]; exact hh.cbs
  · have ha := hp.accepted hacc
    cases cb with
    | none =>
      refine ⟨?_, ?_, hcalls, hadv⟩
      · rw [(ha.cb_none rfl).1]; exact hh.ret
      · rw [(ha.cb_none rfl).2.1]; exact hh.cbs
    | some f =>
      have hr0 : s1.ret = 0 := hret rfl
      refine ⟨hr0, ?_, hcalls, hadv⟩
      intro c hc
      rw [(ha.cb_some f rfl).1] at hc
      rcases List.mem_append.mp hc with h1 | h1
      · exact hh.cbs c h1
      · simp only [List.mem_singleton] at h1
        rw [h1]
        exact hr0

theorem exit_step {env : Env D} {cb : Option (ProgressCb U)} {s0 s s1 : St D U S} {k : CallRec}
    (hb : Book cb s0 s) (hh : Head s0 s) (hp : Pass env cb s s1 k) (hs : Stops cb s s1 k) :
    Exiting env cb s0 s1 s.calls k := by
  have hzl : k.accepted s.info.hz s.info.layer ↔ k.accepted s0.info.hz s0.info.layer := by
    rw [hb.hz, hb.layer]
  have hsamples : s1.info.samples
      = k.acc + (if k.accepted s0.info.hz s0.info.layer then k.kept else 0) := by
    by_cases hk : k.accepted s0.info.hz s0.info.layer
    · rw [if_pos hk, (hp.accepted (hzl.mpr hk)).info, hp.k_acc]
    · rw [if_neg hk, (hp.rejected (fun h => hk (hzl.mp h))).info, hp.k_acc]
      rfl
  refine ⟨hp.calls, fun j hj => ⟨hh.calls j hj, hh.advance j hj⟩, hsamples, ?_⟩
  have hkeep : ∀ (_ : k.accepted s.info.hz s.info.layer), (cb.isSome → s1.ret = 0) →
      s1.ret = 0 ∧ ∀ c ∈ s1.cbs, c.result = 0 := by
    intro hacc hret
    have ha := hp.accepted hacc
    cases cb with
    | none =>
      refine ⟨?_, ?_⟩
      · rw [(ha.cb_none rfl).1]; exact hh.ret
      · rw [(ha.cb_none rfl).2.1]; exact hh.cbs
    | some f =>
      have hr0 : s1.ret = 0 := hret rfl
      refine ⟨hr0, ?_⟩
      intro c hc
      rw [(ha.cb_some f rfl).1] at hc
      rcases List.mem_append.mp hc with h1 | h1
      · exact hh.cbs c h1
      · simp only [List.mem_singleton] at h1
        rw [h1]
        exact hr0
  rcases hs with ⟨hn0, hrej⟩ | ⟨hacc, hsome, hret⟩ | ⟨hfb, h0 | ⟨hacc, hret⟩⟩
  · have hr := hp.rejected hrej
    refine Or.inl ⟨hn0, fun h => hrej (hzl.mpr h), ?_, ?_⟩
    · rw [hr.ret, if_neg hn0]
    · rw [hr.cbs]; exact hh.cbs
  · have ha := hp.accepted hacc
    obtain ⟨f, rfl⟩ := Option.isSome_iff_exists.mp hsome
    exact Or.inr (Or.inl ⟨hzl.mp hacc, hret, s.cbs, _, (ha.cb_some f rfl).1, rfl, rfl, hh.cbs⟩)
  · have hr := hp.rejected (fun h => h.1 h0)
    refine Or.inr (Or.inr ⟨hfb, Or.inl h0, ?_, ?_⟩)
    · rw [hr.ret, if_pos h0]; exact hh.ret
    · rw [hr.cbs]; exact hh.cbs
  · obtain ⟨h1, h2⟩ := hkeep hacc hret
    exact Or.inr (Or.inr ⟨hfb, Or.inr (hzl.mp hacc), h1, h2⟩)

theorem count_refl {env : Env D} {a : Args D U S} {s0 : St D U S} (h : Entry env a s0)
    (hd : 0 ≤ s0.vbr_delay) : CountInv s0 s0 := by
  obtain ⟨h1, h2, h3, h4, h5, h6, h7, h8, h9, h10, h11, -⟩ := h
  have hs : s0.info.samples = 0 := by rw [h1]; rfl
  refine ⟨by rw [h11]; exact hd, ?_, Or.inr hs⟩
  rw [h2, hs, h11]
  simp [accTotal]

theorem count_step {env : Env D} {cb : Option (ProgressCb U)} {s0 s s1 : St D U S}
    {k : CallRec} (hb : Book cb s0 s) (hc : CountInv s0 s) (hp : Pass env cb s s1 k) :
    CountInv s0 s1 := by
  have hzl : k.accepted s.info.hz s.info.layer ↔ k.accepted s0.info.hz s0.info.layer := by
    rw [hb.hz, hb.layer]
  obtain ⟨hnn, hbal, hei⟩ := hc
  by_cases hk : k.accepted s0.info.hz s0.info.layer
  · have ha := hp.accepted (hzl.mpr hk)
    have hts := ha.to_skip
    have hinfo : s1.info.samples = s.info.samples + k.kept := by rw [ha.info]
    have hkt := hp.k_to_skip
    refine ⟨?_, ?_, ?_⟩
    · rw [hts]
      unfold CallRec.skip
      split_ifs <;> omega
    · rw [hp.calls, accTotal_append, if_pos hk, hts, hinfo]
      unfold CallRec.kept CallRec.skip
      push_cast
      split_ifs <;> omega
    · rw [hts, hinfo]
      unfold CallRec.kept CallRec.skip
      split_ifs <;> omega
  · have hr := hp.rejected (fun h => hk (hzl.mp h))
    refine ⟨?_, ?_, ?_⟩
    · rw [hr.to_skip]; exact hnn
    · rw [hp.calls, accTotal_append, if_neg hk, hr.to_skip, hr.info]
      simpa using hbal
    · rw [hr.to_skip, hr.info]; exact hei

theorem pass_pcm_length {env : Env D} {cb : Option (ProgressCb U)} {s s1 : St D U S}
    {k : CallRec} (hf : DecoderFills env) (hp : Pass env cb s s1 k) :
    k.pcm.length = k.values := by
  obtain ⟨d, w, h1, h2, h3⟩ := hp.decoded
  rw [h3, CallRec.values, h1, h2]
  exact hf d w

theorem content_refl {env : Env D} {a : Args D U S} {s0 : St D U S} (h : Entry env a s0) :
    ContentInv s0 s0 := by
  obtain ⟨h1, h2, h3, h4, h5, -⟩ := h
  have hs : s0.info.samples = 0 := by rw [h1]; rfl
  refine ⟨by simp [h2, accOutput, accTotal], ?_⟩
  rw [h2, hs, readRange_zero_len]
  simp [accOutput]

theorem content_step {env : Env D} {cb : Option (ProgressCb U)} {s0 s s1 : St D U S}
    {k : CallRec} (hf : DecoderFills env) (hb : Book cb s0 s) (hc : CountInv s0 s)
    (hi : ContentInv s0 s) (hp : Pass env cb s s1 k) : ContentInv s0 s1 := by
  have hzl : k.accepted s.info.hz s.info.layer ↔ k.accepted s0.info.hz s0.info.layer := by
    rw [hb.hz, hb.layer]
  have hlen := pass_pcm_length hf hp
  obtain ⟨hnn, hbal, hei⟩ := hc
  obtain ⟨hil, hic⟩ := hi
  by_cases hk : k.accepted s0.info.hz s0.info.layer
  · have ha := hp.accepted (hzl.mpr hk)
    have hts := ha.to_skip
    have hinfo : s1.info.samples = s.info.samples + k.kept := by rw [ha.info]
    have hkt := hp.k_to_skip
    refine ⟨?_, ?_⟩
    · rw [hp.calls, accOutput_append, accTotal_append, if_pos hk, if_pos hk,
        List.length_append, hil, hlen]
    · rw [hp.calls, accOutput_append, if_pos hk, hinfo, ha.out, hts]
      by_cases h0 : s.to_skip = 0
      · have hskip : k.skip = 0 := by
          unfold CallRec.skip
          rw [hkt, if_neg (not_not.mpr h0)]
        have hkept : k.kept = k.pcm.length := by
          unfold CallRec.kept
          rw [hskip, hlen]
          simp
        rw [if_neg (not_not.mpr h0), hkept, readRange_writeAt_through, hic, hskip, h0]
        have hle : s0.vbr_delay.toNat
            ≤ (accOutput s0.info.hz s0.info.layer s.calls).length := by
          rw [hil]
          omega
        simp only [sub_zero]
        rw [List.drop_append_of_le_length hle]
      · have hacc0 : s.info.samples = 0 := by
          rcases hei with h | h
          · exact absurd h h0
          · exact h
        have hsk : 0 ≤ k.skip ∧ k.skip ≤ (k.values : Int) ∧ k.skip ≤ s.to_skip := by
          unfold CallRec.skip
          rw [hkt, if_pos h0]
          omega
        have hkept : (k.skip.toNat + k.kept) = k.pcm.length := by
          unfold CallRec.kept
          rw [hlen]
          omega
        rw [if_pos h0, hacc0, toSize_of_nonneg hsk.1]
        have h1 : readRange (0 : Sample) (writeAt 0 s.out 0 k.pcm) k.skip.toNat k.kept
            = k.pcm.drop k.skip.toNat := by
          rw [readRange_offset, hkept]
          have := readRange_writeAt_through (0 : Sample) s.out 0 k.pcm
          rw [Nat.zero_add, readRange_zero_len, List.nil_append] at this
          rw [this]
        rw [h1]
        have h2 := readRange_writeAt_through (0 : Sample) (writeAt 0 s.out 0 k.pcm) 0
          (k.pcm.drop k.skip.toNat)
        rw [Nat.zero_add, readRange_zero_len, List.nil_append] at h2
        have h3 : (k.pcm.drop k.skip.toNat).length = k.kept := by
          rw [List.length_drop]
          omega
        rw [h3] at h2
        rw [Nat.zero_add, h2]
        have h4 : (s0.vbr_delay - (s.to_skip - k.skip)).toNat
            = (accOutput s0.info.hz s0.info.layer s.calls).length + k.skip.toNat := by
          rw [hil]
          omega
        rw [h4, List.drop_append]
  · have hr := hp.rejected (fun h => hk (hzl.mp h))
    refine ⟨?_, ?_⟩
    · rw [hp.calls, accOutput_append, accTotal_append, if_neg hk, if_neg hk]
      simpa using hil
    · rw [hp.calls, accOutput_append, if_neg hk, hr.info, hr.out, hr.to_skip,
        readRange_writeAt_below, hic]
      simp

theorem cap_refl {env : Env D} {a : Args D U S} {s0 : St D U S} (h : Entry env a s0)
    (hd : 0 ≤ s0.vbr_delay) : CapInv env s0 := by
  obtain ⟨h1, h2, h3, h4, h5, h6, h7, h8, h9, h10, h11, h12, h13, h14, -⟩ := h
  have hs : s0.info.samples = 0 := by rw [h1]; rfl
  refine ⟨by rw [h11]; exact hd, by rw [hs]; simp, h14, by simp [h2], by simp [h3]⟩

theorem cap_step {env : Env D} {cb : Option (ProgressCb U)} {s s1 : St D U S}
    {k : CallRec} (hbd : DecoderBounded env) (hc : CapInv env s) (hp : Pass env cb s s1 k) :
    CapInv env s1 := by
  obtain ⟨hnn, hfits, hbase, hcalls, hstarts⟩ := hc
  have hval : k.values ≤ env.MINIMP3_MAX_SAMPLES_PER_FRAME := by
    obtain ⟨d, w, h1, h2, h3⟩ := hp.decoded
    rw [CallRec.values, h1, h2]
    exact hbd d w
  have hkt := hp.k_to_skip
  have hskip : 0 ≤ k.skip ∧ k.skip ≤ s.to_skip := by
    unfold CallRec.skip
    rw [hkt]
    split_ifs <;> omega
  have hkept : k.kept ≤ env.MINIMP3_MAX_SAMPLES_PER_FRAME := by
    unfold CallRec.kept
    omega
  have hroom : (s.info.samples + env.MINIMP3_MAX_SAMPLES_PER_FRAME) * env.sizeof_sample
      ≤ s1.allocated := by
    rw [Nat.add_mul]
    rcases hp.grow with ⟨hg, hno⟩ | ⟨hg, _⟩
    · rw [hg]
      rw [subSize_of_le hfits] at hno
      omega
    · rw [hg]
      omega
  have hkeptroom : (s.info.samples + k.kept) * env.sizeof_sample ≤ s1.allocated :=
    Nat.le_trans (Nat.mul_le_mul_right _ (Nat.add_le_add_left hkept _)) hroom
  have hmono : s.allocated ≤ s1.allocated := by
    rcases hp.grow with ⟨hg, _⟩ | ⟨hg, _⟩ <;> omega
  have hcalls1 : ∀ j ∈ s1.calls,
      (j.acc + env.MINIMP3_MAX_SAMPLES_PER_FRAME) * env.sizeof_sample ≤ j.allocated ∧
      (j.acc + j.kept) * env.sizeof_sample ≤ j.allocated := by
    intro j hj
    rw [hp.calls] at hj
    rcases List.mem_append.mp hj with h1 | h1
    · exact hcalls j h1
    · simp only [List.mem_singleton] at h1
      subst h1
      rw [hp.k_acc, hp.k_allocated]
      exact ⟨hroom, hkeptroom⟩
  have hstarts1 : ∀ i ∈ s1.starts, i.acc * env.sizeof_sample ≤ i.allocated := by
    intro i hi
    rw [hp.starts] at hi
    rcases List.mem_append.mp hi with h1 | h1
    · exact hstarts i h1
    · simp only [List.mem_singleton] at h1
      subst h1
      exact hfits
  by_cases hk : k.accepted s.info.hz s.info.layer
  · have ha := hp.accepted hk
    refine ⟨?_, ?_, Nat.le_trans hbase hmono, hcalls1, hstarts1⟩
    · rw [ha.to_skip]; omega
    · rw [ha.info]; exact hkeptroom
  · have hr := hp.rejected hk
    refine ⟨?_, ?_, Nat.le_trans hbase hmono, hcalls1, hstarts1⟩
    · rw [hr.to_skip]; exact hnn
    · rw [hr.info]; exact Nat.le_trans hfits hmono

theorem Flow.sat_mono {σ ρ : Type} {I I1 Q Q1 : σ → Prop} {R R1 : ρ → Prop} {f : Flow σ ρ}
    (h : Flow.sat I Q R f) (hI : ∀ s, I s → I1 s) (hQ : ∀ s, Q s → Q1 s)
    (hR : ∀ r, R r → R1 r) : Flow.sat I1 Q1 R1 f := by
  cases f with
  | next s => exact hI s h
  | leave s => exact hQ s h
  | ret r => exact hR r h

theorem known_refl {env : Env D} {a : Args D U S} (cb : Option (ProgressCb U)) {s0 : St D U S}
    (h : Entry env a s0) : Known env cb s0 s0 :=
  ⟨book_refl cb h, fun hd => count_refl h hd, fun _ _ => content_refl h,
    fun hd _ => cap_refl h hd⟩

theorem known_step {env : Env D} {cb : Option (ProgressCb U)} {s0 s s1 : St D U S}
    {k : CallRec} (hk : Known env cb s0 s) (hp : Pass env cb s s1 k) : Known env cb s0 s1 :=
  ⟨book_step hk.book hp, fun hd => count_step hk.book (hk.count hd) hp,
    fun hd hf => content_step hf hk.book (hk.count hd) (hk.content hd hf) hp,
    fun hd hb => cap_step hb (hk.cap hd hb) hp⟩

/-- What the decode loop delivers, entered in `s0`: a state in which everything known holds
and which describes how the loop was left, or the result of a failed growth at the head of a
pass. -/
theorem decode_loop_spec {env : Env D} {a : Args D U S} (io : Option (IoOps S))
    (cb : Option (ProgressCb U)) {s0 : St D U S} (hE : Entry env a s0) (fuel : Nat) :
    loopSat (fun s3 => Known env cb s0 s3 ∧ ∃ ks k, Exiting env cb s0 s3 ks k)
      (fun r => ∃ s, Known env cb s0 s ∧ Head s0 s ∧
        env.alloc_ok s.nalloc (s.allocated * 2) = false ∧ r = growFailure env s)
      (iterate (decodeStep env io cb) fuel s0) := by
  refine iterate_spec (decodeStep env io cb) (fun s => Known env cb s0 s ∧ Head s0 s) _ _ ?_
    fuel s0 ⟨known_refl cb hE, head_refl hE⟩
  intro s hs
  refine Flow.sat_mono (decodeStep_pass env io cb s) ?_ ?_ ?_
  · rintro s1 ⟨k, hp, hg⟩
    exact ⟨known_step hs.1 hp, head_step hs.1.book hs.2 hp hg⟩
  · rintro s1 ⟨k, hp, hst⟩
    exact ⟨known_step hs.1 hp, s.calls, k, exit_step hs.1.book hs.2 hp hst⟩
  · rintro r ⟨ha, hr⟩
    exact ⟨s, hs.1, hs.2, ha, hr⟩

/-! ### The end of the function -/

theorem cutTo_le (budget n : Nat) : cutTo budget n ≤ n := by
  unfold cutTo
  split_ifs <;> omega

/-- The result of `finish`: either the shrink failed, or the call is done with the code the
loop left, the cut sample count, and the samples up to that count. -/
theorem finish_spec (env : Env D) (s : St D U S) :
    (finish env s).calls = s.calls ∧ (finish env s).cbs = s.cbs ∧
    (finish env s).starts = s.starts ∧ (finish env s).budget = s.detected_samples ∧
    (finish env s).vbr_delay = s.vbr_delay ∧ (finish env s).hdr_channels = s.hdr_channels ∧
    (((finish env s).exit = Exit.shrink_failed ∧ (finish env s).ret = env.MP3D_E_MEMORY ∧
        cutTo s.detected_samples s.info.samples ≠ 0 ∧
        env.alloc_ok s.nalloc (cutTo s.detected_samples s.info.samples * env.sizeof_sample)
          = false ∧
        (finish env s).samples = cutTo s.detected_samples s.info.samples) ∨
     ((finish env s).exit = Exit.done ∧ (finish env s).ret = s.ret ∧
        (finish env s).contents
          = readRange 0 s.out 0 (cutTo s.detected_samples s.info.samples) ∧
        ∃ b, (finish env s).info = some
          { s.info with buffer := b, samples := cutTo s.detected_samples s.info.samples,
                        avg_bitrate_kbps := if s.frames ≠ 0 then s.avg_bitrate_kbps / s.frames
                                            else s.info.avg_bitrate_kbps })) := by
  unfold finish cutTo
  by_cases hcut : s.detected_samples ≠ 0 ∧ s.info.samples > s.detected_samples
  · simp only [hcut, and_self, if_true]
    split_ifs <;> simp_all [mkResult, Result.contents, Result.samples, readRange_zero_len]
  · simp only [hcut, if_false]
    split_ifs <;> simp_all [mkResult, Result.contents, Result.samples, readRange_zero_len]

end Invariants

/-! ## From the entry of the function to the entry of the decode loop -/

section Probe

variable {D U S : Type}

theorem pristine_initSt (dec : D) (buf : List Byte) (a : Args D U S) :
    ProbeHead a (initSt dec buf a) := by
  simp [ProbeHead, Pristine, initSt]

theorem early_mkResult {env : Env D} (a : Args D U S) {s : St D U S} (h : Pristine a s)
    (code : Int) (exit : Exit)
    (hx : (exit = Exit.io_tag ∧ code = env.MP3D_E_IOERROR) ∨
      (exit = Exit.short_source ∧ code = 0) ∨
      (exit = Exit.empty_after_tags ∧ code = 0) ∨
      (exit = Exit.io_probe ∧ code = env.MP3D_E_IOERROR) ∨
      (exit = Exit.no_frame ∧ code = 0) ∨
      (exit = Exit.vbr_zero ∧ code = 0) ∨
      (exit = Exit.malloc_failed ∧ code = env.MP3D_E_MEMORY ∧
        ∃ n, env.alloc_ok 0 n = false)) :
    Early env (mkResult s code exit none) := by
  obtain ⟨h1, h2, h3, h4, -⟩ := h
  refine ⟨?_, h2, h3, h4, hx⟩
  simp [mkResult, h1, zeroInfo]

theorem probeHead_doSeek {a : Args D U S} (ops : IoOps S) {s : St D U S} (pos : Nat)
    (h : ProbeHead a s) : ProbeHead a (doSeek ops s pos).2 := h

theorem probeHead_doRead {a : Args D U S} (ops : IoOps S) {s : St D U S} (off n : Nat)
    (h : ProbeHead a s) : ProbeHead a (doRead ops s off n).2 := h

theorem probeHead_window {a : Args D U S} {s : St D U S} (h : ProbeHead a s)
    (buf : List Byte) (buf_size filled consumed : Nat) (eof : Bool) (wpts : List WinRec) :
    ProbeHead a { s with buf := buf, buf_size := buf_size, filled := filled,
                         consumed := consumed, eof := eof, wpts := wpts } := h

theorem tagSkipIo_spec (env : Env D) {a : Args D U S} (ops : IoOps S) {s : St D U S}
    (h : ProbeHead a s) :
    match tagSkipIo env ops s with
    | Sum.inl s1 => ProbeHead a s1
    | Sum.inr r => Early env r := by
  unfold tagSkipIo
  simp only
  split_ifs <;> first
    | exact early_mkResult a h.1 _ _ (by simp)
    | exact h

theorem tagSkipBuf_spec (env : Env D) {a : Args D U S} {s : St D U S} (h : ProbeHead a s) :
    match tagSkipBuf env s with
    | Sum.inl s1 => ProbeHead a s1
    | Sum.inr r => Early env r := by
  unfold tagSkipBuf
  simp only
  split_ifs <;> first
    | exact early_mkResult a h.1 _ _ (by simp)
    | exact h

theorem probeRefill_spec (env : Env D) {a : Args D U S} (ops : IoOps S) {s : St D U S}
    (h : ProbeHead a s) :
    match probeRefill env ops s with
    | Sum.inl s1 => ProbeHead a s1
    | Sum.inr r => Early env r := by
  unfold probeRefill
  simp only
  split_ifs <;> first
    | exact early_mkResult a h.1 _ _ (by simp)
    | exact h

theorem probeFrame_spec {env : Env D} {a : Args D U S} (io : Option (IoOps S)) (s : St D U S)
    (h : ProbeHead a s) (i frame_size : Nat) (hdr : List Byte) :
    Flow.sat (ProbeHead a) (Probed env a) (Early env) (probeFrame env io s i frame_size hdr) := by
  obtain ⟨hp, h1, h2, h3⟩ := h
  have hch : ((if env.HDR_IS_MONO hdr = true then 1 else 2 : Nat) = 1 ∨
      (if env.HDR_IS_MONO hdr = true then 1 else 2 : Nat) = 2) := by
    split_ifs <;> simp
  have hnn : DelayNonneg env → (0 : Int) ≤ (env.mp3dec_check_vbrtag hdr frame_size).delay *
      ((if env.HDR_IS_MONO hdr = true then 1 else 2 : Nat) : Int) := by
    intro hd
    exact Int.mul_nonneg (hd _ _) (Int.ofNat_nonneg _)
  unfold probeFrame
  generalize (if env.HDR_IS_MONO hdr = true then 1 else 2 : Nat) = ch at hch hnn ⊢
  by_cases c1 : i ≠ 0 ∧ frame_size = 0
  · rw [if_pos c1]
    exact ⟨hp, h1, h2, h3⟩
  · rw [if_neg c1]
    by_cases c2 : frame_size = 0
    · rw [if_pos c2]
      exact early_mkResult a hp _ _ (by simp)
    · rw [if_neg c2]
      simp only
      by_cases c3 : (3 : Int) ≠ 4 - (env.HDR_GET_LAYER hdr : Int)
      · rw [if_pos c3]
        exact ⟨hp, by simp [markWin, h1, h2], by simp [markWin, h2], c2, hch,
          fun h => absurd h3 h⟩
      · rw [if_neg c3]
        by_cases c4 : (env.mp3dec_check_vbrtag hdr frame_size).ret > 0
        · have c5 : (env.mp3dec_check_vbrtag hdr frame_size).ret ≠ 0 := by omega
          simp only [c4, if_true, true_and, c5, ne_eq, not_false_eq_true]
          split_ifs
          · exact early_mkResult a hp _ _ (by simp)
          · cases io with
            | none => exact ⟨hp, rfl, hnn, c2, hch, fun _ => ⟨_, _, _, rfl⟩⟩
            | some ops => exact ⟨hp, rfl, hnn, c2, hch, fun _ => ⟨_, _, _, rfl⟩⟩
        · simp only [c4, if_false, false_and]
          split_ifs
          · cases io with
            | none => exact ⟨hp, by simp [markWin, h1, h2], by simp [markWin, h2], c2, hch,
          fun h => absurd h3 h⟩
            | some ops => exact ⟨hp, by simp [markWin, h1, h2], by simp [markWin, h2], c2, hch,
          fun h => absurd h3 h⟩
          · exact ⟨hp, by simp [markWin, h1, h2], by simp [markWin, h2], c2, hch,
          fun h => absurd h3 h⟩

theorem probeStep_spec (env : Env D) {a : Args D U S} (io : Option (IoOps S)) {s : St D U S}
    (h : ProbeHead a s) :
    Flow.sat (ProbeHead a) (Probed env a) (Early env) (probeStep env io s) := by
  unfold probeStep
  cases io with
  | none =>
    simp only
    exact probeFrame_spec none { s with
        buf := s.buf.drop (env.mp3d_find_frame (window s.buf 0 s.buf_size)).1,
        buf_size := subSize s.buf_size (env.mp3d_find_frame (window s.buf 0 s.buf_size)).1 }
      h _ _ _
  | some ops =>
    simp only
    have hr := probeRefill_spec env ops h
    cases hq : probeRefill env ops s with
    | inr r => rw [hq] at hr; exact hr
    | inl s1 =>
      rw [hq] at hr
      simp only
      exact probeFrame_spec (some ops) (markWin { s1 with consumed := s1.consumed +
          (env.mp3d_find_frame (window s1.buf s1.consumed (subSize s1.filled s1.consumed))).1 })
        hr _ _ _

theorem allocate_spec {env : Env D} {a : Args D U S} {s : St D U S} (h : Probed env a s) :
    match allocate env s with
    | Sum.inl s1 => Entry env a s1 ∧ s1.detected_samples = s.detected_samples ∧
        s1.vbr_delay = s.vbr_delay
    | Sum.inr r => Early env r := by
  obtain ⟨hp, h1, h2, h3, h4, h5⟩ := h
  have hn : s.nalloc = 0 := hp.2.2.2.2.2.2.2.2.1
  unfold allocate
  simp only
  split_ifs with c1 c2 c2
  · refine early_mkResult a hp _ _ ?_
    rw [hn] at c2
    simp only [reduceCtorEq, false_and, true_and, false_or]
    exact ⟨_, c2⟩
  · obtain ⟨p1, p2, p3, p4, p5, p6, p7, p8, p9, p10, p11, p12⟩ := hp
    refine ⟨⟨?_, p2, p3, p4, rfl, p6, rfl, rfl, p10, p11, h1, h2, h4, ?_, h5⟩, rfl, rfl⟩
    · simp [p1, zeroInfo]
    · exact Nat.le_add_right _ _
  · refine early_mkResult a hp _ _ ?_
    rw [hn] at c2
    simp only [reduceCtorEq, false_and, true_and, false_or]
    exact ⟨_, c2⟩
  · obtain ⟨p1, p2, p3, p4, p5, p6, p7, p8, p9, p10, p11, p12⟩ := hp
    refine ⟨⟨?_, p2, p3, p4, rfl, p6, rfl, rfl, p10, p11, h1, h2, h4, ?_, h5⟩, rfl, rfl⟩
    · simp [p1, zeroInfo]
    · exact Nat.le_add_right _ _

/-- How the part after the tag skip can go. -/
theorem decodeAll_inv {env : Env D} {a : Args D U S} {fuel : Nat} {s : St D U S}
    {r : Result U S} (hs : ProbeHead a s)
    (h : decodeAll env a.io a.progress_cb fuel s = some r) :
    Early env r ∨
    ∃ s2, Entry env a s2 ∧
      (iterate (decodeStep env a.io a.progress_cb) fuel s2 = some (Sum.inr r) ∨
       ∃ s3, iterate (decodeStep env a.io a.progress_cb) fuel s2 = some (Sum.inl s3) ∧
         r = finish env s3) := by
  have hs1 : ProbeHead a { s with dec := env.mp3dec_init s.dec } := hs
  have hp := iterate_spec (probeStep env a.io) (ProbeHead a) (Probed env a) (Early env)
    (fun t ht => probeStep_spec env a.io ht) fuel _ hs1
  unfold decodeAll at h
  cases hq : iterate (probeStep env a.io) fuel { s with dec := env.mp3dec_init s.dec } with
  | none => rw [hq] at h; simp at h
  | some x =>
    rw [hq] at h hp
    cases x with
    | inr r1 =>
      simp only [Option.some.injEq] at h
      subst h
      exact Or.inl hp
    | inl s1 =>
      simp only at h hp
      have ha := allocate_spec hp
      cases hq2 : allocate env s1 with
      | inr r1 =>
        rw [hq2] at h ha
        simp only [Option.some.injEq] at h
        subst h
        exact Or.inl ha
      | inl s2 =>
        rw [hq2] at h ha
        simp only at h ha
        refine Or.inr ⟨s2, ha.1, ?_⟩
        cases hq3 : iterate (decodeStep env a.io a.progress_cb) fuel s2 with
        | none => rw [hq3] at h; simp at h
        | some y =>
          rw [hq3] at h
          cases y with
          | inr r1 =>
            simp only [Option.some.injEq] at h
            subst h
            exact Or.inl rfl
          | inl s3 =>
            simp only [Option.some.injEq] at h
            exact Or.inr ⟨s3, rfl, h.symm⟩

/-- How a call can go: the parameter error, a return before the decode loop, or the decode loop
entered in a state `s2`, which either returns from inside or is left in a state `s3` that
`finish` turns into the result. -/
theorem load_cb_inv {env : Env D} {a : Args D U S} {fuel : Nat} {r : Result U S}
    (h : mp3dec_load_cb env a fuel = some r) :
    r = paramError env a ∨ Early env r ∨
    ∃ s2, Entry env a s2 ∧
      (iterate (decodeStep env a.io a.progress_cb) fuel s2 = some (Sum.inr r) ∨
       ∃ s3, iterate (decodeStep env a.io a.progress_cb) fuel s2 = some (Sum.inl s3) ∧
         r = finish env s3) := by
  unfold mp3dec_load_cb at h
  split at h
  · rename_i dec buf i hd hb hi
    split_ifs at h with hparam
    · exact Or.inl (Option.some.inj h).symm
    · cases hio : a.io with
      | none =>
        rw [hio] at h
        simp only at h
        have ht := tagSkipBuf_spec env (pristine_initSt dec buf a)
        cases hq : tagSkipBuf env (initSt dec buf a) with
        | inr r1 =>
          rw [hq] at h ht
          simp only [Option.some.injEq] at h
          subst h
          exact Or.inr (Or.inl ht)
        | inl s1 =>
          rw [hq] at h ht
          simp only at h ht
          rw [← hio] at h
          have hall := decodeAll_inv ht h
          rw [hio] at hall
          exact Or.inr hall
      | some ops =>
        rw [hio] at h
        simp only at h
        have ht := tagSkipIo_spec env ops (pristine_initSt dec buf a)
        cases hq : tagSkipIo env ops (initSt dec buf a) with
        | inr r1 =>
          rw [hq] at h ht
          simp only [Option.some.injEq] at h
          subst h
          exact Or.inr (Or.inl ht)
        | inl s1 =>
          rw [hq] at h ht
          simp only at h ht
          rw [← hio] at h
          have hall := decodeAll_inv ht h
          rw [hio] at hall
          exact Or.inr hall
  · exact Or.inl (Option.some.inj h).symm

end Probe

/-! ## Whole runs -/

section Runs

variable {D U S : Type}

/-- How a call that returns went: the parameter error; a return before the decode loop; a
failed growth at the head of a pass of the decode loop; or the decode loop left in a state `s3`
and the result made of it by `finish`. -/
theorem run_cases {env : Env D} {a : Args D U S} {fuel : Nat} {r : Result U S}
    (h : mp3dec_load_cb env a fuel = some r) :
    r = paramError env a ∨ Early env r ∨
    ∃ s0, Entry env a s0 ∧
      ((∃ s, Known env a.progress_cb s0 s ∧ Head s0 s ∧
          env.alloc_ok s.nalloc (s.allocated * 2) = false ∧ r = growFailure env s) ∨
       (∃ s3 ks k, Known env a.progress_cb s0 s3 ∧ Exiting env a.progress_cb s0 s3 ks k ∧
          r = finish env s3)) := by
  rcases load_cb_inv h with h1 | h1 | ⟨s0, hE, h1⟩
  · exact Or.inl h1
  · exact Or.inr (Or.inl h1)
  · refine Or.inr (Or.inr ⟨s0, hE, ?_⟩)
    have hl := decode_loop_spec a.io a.progress_cb hE fuel
    rcases h1 with h2 | ⟨s3, h2, h3⟩
    · rw [h2] at hl
      exact Or.inl hl
    · rw [h2] at hl
      obtain ⟨hk, ks, k, hx⟩ := hl
      exact Or.inr ⟨s3, ks, k, hk, hx, h3⟩

/-- The budget computation of lines 191-195 never wraps around: the budget is the declared
total less an amount `x` for the delay and an amount `y` for the padding, where `x` is the delay
or nothing, `y` is the padding or nothing, and each is taken only from a remainder that is at
least as large. -/
theorem vbrBudget_exact (samples frames : Nat) (to_skip padding : Int) :
    ∃ x y : Nat,
      (x = 0 ∨ (x = toSize to_skip ∧ x ≤ samples * frames % SIZE_MOD)) ∧
      (y = 0 ∨ (y = toSize padding ∧ 0 < padding ∧ y ≤ samples * frames % SIZE_MOD - x)) ∧
      vbrBudget samples frames to_skip padding + x + y = samples * frames % SIZE_MOD := by
  unfold vbrBudget
  simp only
  by_cases h1 : samples * frames % SIZE_MOD ≥ toSize to_skip
  · rw [if_pos h1, subSize_of_le h1]
    by_cases h2 : padding > 0 ∧ samples * frames % SIZE_MOD - toSize to_skip ≥ toSize padding
    · rw [if_pos h2, subSize_of_le h2.2]
      exact ⟨toSize to_skip, toSize padding, Or.inr ⟨rfl, h1⟩, Or.inr ⟨rfl, h2.1, h2.2⟩,
        by omega⟩
    · rw [if_neg h2]
      exact ⟨toSize to_skip, 0, Or.inr ⟨rfl, h1⟩, Or.inl rfl, by omega⟩
  · rw [if_neg h1]
    by_cases h2 : padding > 0 ∧ samples * frames % SIZE_MOD ≥ toSize padding
    · rw [if_pos h2, subSize_of_le h2.2]
      exact ⟨0, toSize padding, Or.inl rfl, Or.inr ⟨rfl, h2.1, by omega⟩, by omega⟩
    · rw [if_neg h2]
      exact ⟨0, 0, Or.inl rfl, Or.inl rfl, by omega⟩

/-- The samples up to the cut count are the trimmed accepted output, given the counting and
content invariants. -/
theorem readRange_cut_eq_trimmed (A out : List Sample) (n : Nat) (D ts : Int) (b : Nat)
    (hnn : 0 ≤ ts) (hbal : ts + (A.length : Int) = D + (n : Int)) (hei : ts = 0 ∨ n = 0)
    (hc : readRange 0 out 0 n = A.drop (D - ts).toNat) :
    readRange 0 out 0 (cutTo b n) = trimmed A D b := by
  have hdrop : A.drop (D - ts).toNat = A.drop D.toNat := by
    rcases hei with h | h
    · rw [h, sub_zero]
    · have h1 : A.length ≤ (D - ts).toNat := by omega
      have h2 : A.length ≤ D.toNat := by omega
      rw [List.drop_of_length_le h1, List.drop_of_length_le h2]
  rw [hdrop] at hc
  have hlen : (A.drop D.toNat).length = n := by
    rw [← hc, length_readRange]
  rw [← take_readRange 0 out (cutTo_le b n), hc]
  unfold trimmed cutTo
  by_cases hb : b ≠ 0
  · by_cases hgt : n > b
    · rw [if_pos ⟨hb, hgt⟩, if_pos hb]
    · rw [if_neg (fun h => hgt h.2), if_pos hb]
      rw [List.take_of_length_le (by omega), List.take_of_length_le (by omega)]
  · rw [if_neg (fun h => hb h.1), if_neg hb]
    rw [List.take_of_length_le (by omega)]

/-- After the loop every decoder call before the last one gave an accepted frame or none. -/
theorem exiting_all_ok {env : Env D} {cb : Option (ProgressCb U)} {s0 s3 : St D U S}
    {ks : List CallRec} {k : CallRec} (hx : Exiting env cb s0 s3 ks k)
    (hk : k.samples = 0 ∨ k.accepted s0.info.hz s0.info.layer) :
    ∀ j ∈ s3.calls, j.samples = 0 ∨ j.accepted s0.info.hz s0.info.layer := by
  intro j hj
  rw [hx.calls] at hj
  rcases List.mem_append.mp hj with h1 | h1
  · exact (hx.before j h1).1
  · simp only [List.mem_singleton] at h1
    rw [h1]
    exact hk

end Runs

/-! ## The miniature format keeps the helper contracts -/

theorem toyEnv_fills (spf : Nat) (vbr : VbrTag) (alloc : Nat → Nat → Bool) :
    DecoderFills (toyEnv spf vbr alloc) := by
  intro d w
  cases w with
  | nil => simp [toyEnv, toyDecode, zeroFrameInfo]
  | cons b bs =>
    by_cases hb : b = 0
    · simp [toyEnv, toyDecode, zeroFrameInfo, hb]
    · simp [toyEnv, toyDecode, hb]

theorem toyEnv_bounded (spf : Nat) (vbr : VbrTag) (alloc : Nat → Nat → Bool)
    (h : spf ≤ 1152) : DecoderBounded (toyEnv spf vbr alloc) := by
  intro d w
  cases w with
  | nil => simp [toyEnv, toyDecode, zeroFrameInfo]
  | cons b bs =>
    by_cases hb : b = 0
    · simp [toyEnv, toyDecode, zeroFrameInfo, hb]
    · simp only [toyEnv, toyDecode, hb, if_false]
      split_ifs <;> omega

theorem toyEnv_delay (spf : Nat) (vbr : VbrTag) (alloc : Nat → Nat → Bool)
    (h : 0 ≤ vbr.delay) : DelayNonneg (toyEnv spf vbr alloc) := by
  intro w n
  simp only [toyEnv]
  split_ifs
  · exact h
  · simp [noVbr]

/-- A fact computed about what a call delivers is a fact about the result. -/
theorem fact_of_run {α β : Type} {o : Option α} {r : α} (f : α → β) {v : β}
    (h : o = some r) (hf : o.map f = some v) : f r = v := by
  rw [h] at hf
  simpa using hf

/-- A call that delivers something delivers a result. -/
theorem run_of_isSome {α : Type} {o : Option α} (h : o.isSome = true) : ∃ r, o = some r :=
  Option.isSome_iff_exists.mp h

/-! ## Concrete runs -/

/-- Claim C6, evaluated: on the ten-frame stream, with a callback that stops once the reported
offset is positive, whole-buffer decoding stops after the first frame and returns `1` with one
sample, while bounded-window decoding of the same bytes (window of `MINIMP3_BUF_SIZE` bytes,
well-behaved source) never stops and returns `0` with ten samples. -/
theorem modes_differ_under_offset_callback :
    ((mp3dec_load_cb (toyEnv 1 noVbr allocAlways) (bufArgs tenFrames (some cbStopPastStart)) 20).map
        fun r => (r.ret, r.exit, r.info)) =
      some (1, Exit.done, some { buffer := some [1], samples := 1, channels := 1, hz := 44100,
                                 layer := 3, avg_bitrate_kbps := 128 }) ∧
    ((mp3dec_load_cb (toyEnv 1 noVbr allocAlways)
        (ioArgs tenFrames 16384 (some cbStopPastStart)) 20).map
        fun r => (r.ret, r.exit, r.info)) =
      some (0, Exit.done, some { buffer := some [1, 3, 5, 1, 3, 5, 1, 3, 5, 1], samples := 10,
                                 channels := 1, hz := 44100, layer := 3,
                                 avg_bitrate_kbps := 128 }) := by
  constructor <;> decide

/-- Claim C7, evaluated: on the ten-frame stream every frame advances the source by one byte.
In whole-buffer mode the callback receives the offsets 1, 2, ..., 10; in bounded-window mode it
receives the offset 0 at each of its ten invocations. -/
theorem progress_offset_is_zero_in_bounded_mode :
    ((mp3dec_load_cb (toyEnv 1 noVbr allocAlways) (bufArgs tenFrames (some cbContinue)) 20).map
        fun r => (r.ret, r.cbs.map fun c => (c.info.frame_bytes, c.offset))) =
      some (0, [(1, 1), (1, 2), (1, 3), (1, 4), (1, 5), (1, 6), (1, 7), (1, 8), (1, 9),
                (1, 10)]) ∧
    ((mp3dec_load_cb (toyEnv 1 noVbr allocAlways) (ioArgs tenFrames 16384 (some cbContinue)) 20).map
        fun r => (r.ret, r.cbs.map fun c => (c.info.frame_bytes, c.offset))) =
      some (0, [(1, 0), (1, 0), (1, 0), (1, 0), (1, 0), (1, 0), (1, 0), (1, 0), (1, 0),
                (1, 0)]) := by
  constructor <;> decide

/-- Claim C8, evaluated: the third read of `overIo` is the refill inside the decode loop; it is
asked for 8 bytes and delivers 9.  The call does not return `MP3D_E_IOERROR` (here `-3`): it
goes on decoding, the window holds 17 bytes in a buffer of 16, and the call returns `0` after
three reads and one seek. -/
theorem decode_loop_refill_overread_unreported :
    ((overIo.read 2 8).1.length = 9) ∧ wideEnv.MP3D_E_IOERROR = -3 ∧
    ((mp3dec_load_cb wideEnv overArgs 20).map
        fun r => (r.ret, r.exit, r.io_calls, r.samples)) = some (0, Exit.done, 4, 3) ∧
    ((mp3dec_load_cb wideEnv overArgs 20).map
        fun r => r.wpts.map fun w => (w.consumed, w.filled)) =
      some [(0, 16), (0, 16), (8, 16), (0, 17), (8, 17), (16, 17), (17, 17), (17, 17)] := by
  refine ⟨by decide, by decide, by decide, by decide⟩

/-- Claim C4 as stated fails: with a VBR budget of 2, three frames are accumulated (the
inconsistent fourth frame is decoded with 3 samples before it) and the call returns
`MP3D_E_DECODE` (here `-5`), but the returned count is 2 and the returned samples are the first
two, not the three accumulated from the frames before the inconsistent one. -/
theorem decode_error_output_is_cut_to_budget :
    ((mp3dec_load_cb (toyEnv 1 vbrTwo allocAlways) (bufArgs rateChangeStream none) 20).map
        fun r => (r.ret, r.exit, r.samples, r.contents)) = some (-5, Exit.done, 2, [1, 3]) ∧
    ((mp3dec_load_cb (toyEnv 1 vbrTwo allocAlways) (bufArgs rateChangeStream none) 20).map
        fun r => r.calls.map fun k => (k.acc, k.samples, k.info.hz, k.pcm)) =
      some [(0, 1, 44100, [1]), (1, 1, 44100, [3]), (2, 1, 44100, [5]), (3, 1, 48000, [101])] := by
  constructor <;> decide

/-- Claim C5 as stated fails: a mono, a stereo and a mono frame at constant rate and layer
decode to 1 + 2 + 1 = 4 values and the call returns success with the channel sentinel `0`, but in
a stream whose VBR directory declares a delay of 1 the resulting sample count is 3, not the sum
4 over the decoded frames. -/
theorem channel_change_count_is_less_the_delay :
    ((mp3dec_load_cb (toyEnv 1 vbrNine allocAlways) (bufArgs channelChangeStream none) 20).map
        fun r => (r.ret, r.exit, r.samples, rawTotal r.calls)) = some (0, Exit.done, 3, 4) ∧
    ((mp3dec_load_cb (toyEnv 1 vbrNine allocAlways) (bufArgs channelChangeStream none) 20).map
        fun r => r.info.map fun i => (i.channels, i.hz, i.layer)) = some (some (0, 44100, 3)) ∧
    ((mp3dec_load_cb (toyEnv 1 vbrNine allocAlways) (bufArgs channelChangeStream none) 20).map
        fun r => r.calls.map fun k => (k.samples, k.info.channels, k.info.hz, k.info.layer)) =
      some [(1, 1, 44100, 3), (1, 2, 44100, 3), (1, 1, 44100, 3), (0, 0, 0, 0)] := by
  refine ⟨by decide, by decide, by decide⟩

/-- Claim C9 as stated fails: on the ten-frame stream, with a callback that returns `1` on its
first invocation, the call returns `1`, not `0`. -/
theorem callback_stop_returns_callback_value :
    ((mp3dec_load_cb (toyEnv 1 noVbr allocAlways) (bufArgs tenFrames (some cbStopPastStart)) 20).map
        fun r => (r.ret, r.cbs.map fun c => c.result)) = some (1, [1]) := by
  decide

/-! ## The claims about whole runs -/

section Claims

variable {D U S : Type}

/-- Claim C1: when every allocation succeeds and no decoded frame is inconsistent in rate or
layer with the stream, the samples the call returns are the outputs of the decoder calls with a
nonzero sample count, concatenated in order, without the first `delay * channels` values that a
VBR directory declared, and truncated to the VBR budget when one was established.  The frame
decoder is taken to store `samples * channels` values and the declared delay not to be
negative.  This holds in both modes, and also when the progress callback stops the loop. -/
theorem output_is_trimmed_concatenation {env : Env D} {a : Args D U S} {fuel : Nat}
    {r : Result U S} (hfill : DecoderFills env) (hdelay : DelayNonneg env)
    (halloc : ∀ k n, env.alloc_ok k n = true)
    (hrun : mp3dec_load_cb env a fuel = some r) (hvalid : r.exit ≠ Exit.param)
    (hcons : ∀ k ∈ r.calls, k.samples ≠ 0 →
      ∃ i, r.info = some i ∧ k.info.hz = i.hz ∧ k.info.layer = i.layer) :
    r.contents = trimmed (rawOutput r.calls) r.vbr_delay r.budget := by
  rcases run_cases hrun with h | h | ⟨s0, hE, ⟨s, -, -, hno, -⟩ | ⟨s3, ks, k, hk, hx, h⟩⟩
  · rw [h] at hvalid
    exact absurd rfl hvalid
  · obtain ⟨h1, h2, -⟩ := h
    rw [Result.contents, h1, h2]
    simp [zeroInfo, rawOutput, trimmed]
  · rw [halloc] at hno
    exact absurd hno (by decide)
  · obtain ⟨f1, f2, f3, f4, f5, f6, f7⟩ := finish_spec env s3
    rw [← h] at f1 f2 f3 f4 f5 f6 f7
    rcases f7 with ⟨-, -, -, hno, -⟩ | ⟨-, -, hcont, b, hinfo⟩
    · rw [halloc] at hno
      exact absurd hno (by decide)
    · have hD : 0 ≤ s0.vbr_delay := hE.2.2.2.2.2.2.2.2.2.2.2.1 hdelay
      have hcount := hk.count hD
      have hcontent := hk.content hD hfill
      have hlast : k.samples = 0 ∨ k.accepted s0.info.hz s0.info.layer := by
        by_cases h0 : k.samples = 0
        · exact Or.inl h0
        · obtain ⟨i, hi, hhz, hly⟩ := hcons k (by rw [f1, hx.calls]; simp) h0
          rw [hinfo] at hi
          have hi2 := Option.some.inj hi
          refine Or.inr ⟨h0, ?_, ?_⟩
          · rw [hhz, ← hi2]
            exact hk.book.hz
          · rw [hly, ← hi2]
            exact hk.book.layer
      have hall := exiting_all_ok hx hlast
      rw [hcont, f1, f4, f5, hk.book.vbr_delay,
        ← accOutput_eq_rawOutput s0.info.hz s0.info.layer s3.calls hall]
      refine readRange_cut_eq_trimmed _ _ _ _ s3.to_skip _ hcount.nonneg ?_ hcount.either
        hcontent.content
      rw [hcontent.length]
      exact hcount.balance

/-- Claim C1 at a concrete input: a VBR directory (4 frames of one value, delay 1, padding 1,
hence a budget of 2) followed by the mono frames 1, 3, 5, 9: the raw output 1, 3, 5, 9 loses its
first value to the delay and is truncated to two values. -/
theorem output_is_trimmed_concatenation_witness :
    ∃ r, mp3dec_load_cb (toyEnv 1 vbrFour allocAlways) (bufArgs vbrStream none) 20 = some r ∧
      r.contents = [3, 5] := by
  obtain ⟨r, h⟩ := run_of_isSome
    (show (mp3dec_load_cb (toyEnv 1 vbrFour allocAlways) (bufArgs vbrStream none) 20).isSome
      = true by decide)
  have hexit := fact_of_run (fun r => r.exit) h (show _ = some Exit.done by decide)
  have hinfo := fact_of_run (fun r => r.info.map fun i => (i.hz, i.layer)) h
    (show _ = some (some ((44100 : Nat), (3 : Int))) by decide)
  have hcalls := fact_of_run (fun r => r.calls.map fun k => (k.samples, k.info.hz, k.info.layer)) h
    (show _ = some ([(1, 44100, 3), (1, 44100, 3), (1, 44100, 3), (1, 44100, 3), (0, 0, 0)] :
      List (Nat × Nat × Int)) by decide)
  have hraw := fact_of_run (fun r => (rawOutput r.calls, r.vbr_delay, r.budget)) h
    (show _ = some (([1, 3, 5, 9] : List Sample), (1 : Int), (2 : Nat)) by decide)
  beta_reduce at hexit hinfo hcalls hraw
  have hthm := output_is_trimmed_concatenation (toyEnv_fills 1 vbrFour allocAlways)
    (toyEnv_delay 1 vbrFour allocAlways (by decide)) (fun _ _ => rfl) h
    (by rw [hexit]; decide)
    (by
      intro k hk hk0
      cases hi : r.info with
      | none => rw [hi] at hinfo; simp at hinfo
      | some i =>
        rw [hi] at hinfo
        simp only [Option.map_some', Option.some.injEq, Prod.mk.injEq] at hinfo
        refine ⟨i, rfl, ?_⟩
        have hmem : (k.samples, k.info.hz, k.info.layer)
            ∈ r.calls.map fun k => (k.samples, k.info.hz, k.info.layer) :=
          List.mem_map_of_mem _ hk
        rw [hcalls] at hmem
        have hall : ∀ t ∈ ([(1, 44100, 3), (1, 44100, 3), (1, 44100, 3), (1, 44100, 3),
            (0, 0, 0)] : List (Nat × Nat × Int)), t.1 = 0 ∨ (t.2.1 = 44100 ∧ t.2.2 = 3) := by
          decide
        rcases hall _ hmem with h1 | ⟨h2, h3⟩
        · exact absurd h1 hk0
        · exact ⟨h2.trans hinfo.1.symm, h3.trans hinfo.2.symm⟩)
  simp only [Prod.mk.injEq] at hraw
  refine ⟨r, h, ?_⟩
  rw [hthm, hraw.1, hraw.2.1, hraw.2.2]
  decide

/-- Claim C2: when the frame decoder never produces more than `MINIMP3_MAX_SAMPLES_PER_FRAME`
values for a frame (and the declared delay is not negative), then at every call of the frame
decoder the capacity of the output buffer, after at most one doubling, is at least the
accumulated sample count plus `MINIMP3_MAX_SAMPLES_PER_FRAME` samples, the count after the frame
was appended still fits that capacity, and at the start of every pass of the decode loop the
accumulated count fits the capacity. -/
theorem capacity_has_room_for_a_frame {env : Env D} {a : Args D U S} {fuel : Nat}
    {r : Result U S} (hbd : DecoderBounded env) (hdelay : DelayNonneg env)
    (hrun : mp3dec_load_cb env a fuel = some r) :
    (∀ k ∈ r.calls,
      (k.acc + env.MINIMP3_MAX_SAMPLES_PER_FRAME) * env.sizeof_sample ≤ k.allocated ∧
      (k.acc + k.kept) * env.sizeof_sample ≤ k.allocated) ∧
    (∀ i ∈ r.starts, i.acc * env.sizeof_sample ≤ i.allocated) := by
  rcases run_cases hrun with h | h | ⟨s0, hE, ⟨s, hk, -, -, h⟩ | ⟨s3, ks, k, hk, -, h⟩⟩
  · rw [h]
    simp [paramError]
  · rw [h.2.1, h.2.2.1]
    simp
  · have hD : 0 ≤ s0.vbr_delay := hE.2.2.2.2.2.2.2.2.2.2.2.1 hdelay
    have hcap := hk.cap hD hbd
    rw [h]
    refine ⟨hcap.calls, ?_⟩
    intro i hi
    simp only [growFailure, mkResult, logStart, List.mem_append, List.mem_singleton] at hi
    rcases hi with h1 | h1
    · exact hcap.starts i h1
    · rw [h1]
      exact hcap.fits
  · have hD : 0 ≤ s0.vbr_delay := hE.2.2.2.2.2.2.2.2.2.2.2.1 hdelay
    have hcap := hk.cap hD hbd
    obtain ⟨f1, f2, f3, -⟩ := finish_spec env s3
    rw [h, f1, f3]
    exact ⟨hcap.calls, hcap.starts⟩

/-- Claim C2 at a concrete input: on the stream with the VBR directory the buffer is sized for the
budget of two samples, and at the fifth decoder call, with three samples accumulated, it has
been doubled to 9224 bytes: room for the 3 + 2304 samples of 2 bytes. -/
theorem capacity_has_room_for_a_frame_witness :
    ∃ r, mp3dec_load_cb (toyEnv 1 vbrFour allocAlways) (bufArgs vbrStream none) 20 = some r ∧
      (r.calls.map fun k => (k.acc, k.allocated))
        = [(0, 4612), (0, 4612), (1, 4612), (2, 4612), (3, 9224)] ∧
      ∀ k ∈ r.calls, (k.acc + 2304) * 2 ≤ k.allocated := by
  obtain ⟨r, h⟩ := run_of_isSome
    (show (mp3dec_load_cb (toyEnv 1 vbrFour allocAlways) (bufArgs vbrStream none) 20).isSome
      = true by decide)
  have hcalls := fact_of_run (fun r => r.calls.map fun k => (k.acc, k.allocated)) h
    (show _ = some ([(0, 4612), (0, 4612), (1, 4612), (2, 4612), (3, 9224)] : List (Nat × Nat))
      by decide)
  have hthm := capacity_has_room_for_a_frame (toyEnv_bounded 1 vbrFour allocAlways (by decide))
    (toyEnv_delay 1 vbrFour allocAlways (by decide)) h
  exact ⟨r, h, hcalls, fun k hk => (hthm.1 k hk).1⟩

section BudgetLink

variable {D U S : Type}

theorem Flow.sat_and {σ ρ : Type} {I I1 Q Q1 : σ → Prop} {R R1 : ρ → Prop} {f : Flow σ ρ}
    (h : Flow.sat I Q R f) (h1 : Flow.sat I1 Q1 R1 f) :
    Flow.sat (fun s => I s ∧ I1 s) (fun s => Q s ∧ Q1 s) (fun r => R r ∧ R1 r) f := by
  cases f with
  | next s => exact ⟨h, h1⟩
  | leave s => exact ⟨h, h1⟩
  | ret r => exact ⟨h, h1⟩

/-- What lines 186-198 do with a Layer III frame in which a VBR directory is found: the pass
never goes round again; it returns `0` when the declared budget is zero; otherwise it leaves
the loop with the declared budget in `detected_samples` and the scaled delay in `to_skip`. -/
theorem probeFrame_budget (env : Env D) (io : Option (IoOps S)) (s : St D U S)
    (i frame_size : Nat) (hdr : List Byte) (hfs : frame_size ≠ 0)
    (hlayer : env.HDR_GET_LAYER hdr = 1)
    (hvbr : (env.mp3dec_check_vbrtag hdr frame_size).ret > 0) :
    Flow.sat (fun _ => False)
      (fun s1 => declaredBudget env hdr frame_size ≠ 0 ∧
        s1.detected_samples = declaredBudget env hdr frame_size ∧
        s1.to_skip = (env.mp3dec_check_vbrtag hdr frame_size).delay * hdrChannels env hdr ∧
        s1.vbr_delay = (env.mp3dec_check_vbrtag hdr frame_size).delay * hdrChannels env hdr ∧
        s1.frame_info.channels = hdrChannels env hdr)
      (fun r => declaredBudget env hdr frame_size = 0 ∧ r.ret = 0 ∧ r.exit = Exit.vbr_zero)
      (probeFrame env io s i frame_size hdr) := by
  have c1 : ¬ (i ≠ 0 ∧ frame_size = 0) := fun h => hfs h.2
  have c3 : ¬ ((3 : Int) ≠ 4 - (env.HDR_GET_LAYER hdr : Int)) := by
    rw [hlayer]
    decide
  have c5 : (env.mp3dec_check_vbrtag hdr frame_size).ret ≠ 0 := by omega
  unfold probeFrame
  rw [if_neg c1, if_neg hfs]
  simp only
  rw [if_neg c3]
  simp only [hvbr, if_true, true_and, c5, ne_eq, not_false_eq_true]
  by_cases hz : declaredBudget env hdr frame_size = 0
  · have hz1 := hz
    unfold declaredBudget hdrChannels at hz1
    rw [if_pos hz1]
    exact ⟨hz, rfl, rfl⟩
  · have hz1 := hz
    unfold declaredBudget hdrChannels at hz1
    rw [if_neg hz1]
    cases io with
    | none => exact ⟨hz, rfl, rfl, rfl, rfl⟩
    | some ops => exact ⟨hz, rfl, rfl, rfl, rfl⟩

/-- Whatever the probe loop does with a located frame, from a state without a budget: a budget
it leaves behind is the declared one. -/
theorem probeFrame_declared (env : Env D) (io : Option (IoOps S)) (s : St D U S)
    (h0 : s.detected_samples = 0) (i frame_size : Nat) (hdr : List Byte) :
    Flow.sat (fun _ => True)
      (fun s1 => s1.detected_samples ≠ 0 →
        DeclaredBy env s1.detected_samples s1.vbr_delay s1.frame_info.channels)
      (fun _ => True) (probeFrame env io s i frame_size hdr) := by
  by_cases c1 : i ≠ 0 ∧ frame_size = 0
  · unfold probeFrame
    rw [if_pos c1]
    trivial
  · by_cases c2 : frame_size = 0
    · unfold probeFrame
      rw [if_neg c1, if_pos c2]
      trivial
    · by_cases c3 : (3 : Int) ≠ 4 - (env.HDR_GET_LAYER hdr : Int)
      · unfold probeFrame
        rw [if_neg c1, if_neg c2]
        simp only
        rw [if_pos c3]
        exact fun hne => absurd h0 hne
      · by_cases c4 : (env.mp3dec_check_vbrtag hdr frame_size).ret > 0
        · have hlayer : env.HDR_GET_LAYER hdr = 1 := by omega
          refine Flow.sat_mono (probeFrame_budget env io s i frame_size hdr c2 hlayer c4)
            (fun _ hf => hf.elim) ?_ (fun _ _ => trivial)
          rintro s1 ⟨-, h2, -, h4, h5⟩ -
          exact ⟨hdr, frame_size, c4, hlayer, h5, h4, h2⟩
        · unfold probeFrame
          rw [if_neg c1, if_neg c2]
          simp only
          rw [if_neg c3]
          simp only [c4, if_false, false_and]
          split_ifs <;> first
            | exact fun hne => absurd h0 hne
            | (cases io <;> exact fun hne => absurd h0 hne)

theorem probeStep_declared (env : Env D) {a : Args D U S} (io : Option (IoOps S))
    {s : St D U S} (h : ProbeHead a s) :
    Flow.sat (fun _ => True)
      (fun s1 => s1.detected_samples ≠ 0 →
        DeclaredBy env s1.detected_samples s1.vbr_delay s1.frame_info.channels)
      (fun _ => True) (probeStep env io s) := by
  unfold probeStep
  cases io with
  | none =>
    simp only
    exact probeFrame_declared env none { s with
        buf := s.buf.drop (env.mp3d_find_frame (window s.buf 0 s.buf_size)).1,
        buf_size := subSize s.buf_size (env.mp3d_find_frame (window s.buf 0 s.buf_size)).1 }
      h.2.2.2 _ _ _
  | some ops =>
    simp only
    have hr := probeRefill_spec env ops h
    cases hq : probeRefill env ops s with
    | inr r => trivial
    | inl s1 =>
      rw [hq] at hr
      simp only
      exact probeFrame_declared env (some ops) (markWin { s1 with consumed := s1.consumed +
          (env.mp3d_find_frame (window s1.buf s1.consumed (subSize s1.filled s1.consumed))).1 })
        hr.2.2.2 _ _ _

/-- The state in which the allocation leaves the function for the decode loop has the budget,
the delay and the header's channel count of the probed frame. -/
theorem allocate_declared (env : Env D) {s s1 : St D U S} (h : allocate env s = Sum.inl s1) :
    s1.detected_samples = s.detected_samples ∧ s1.vbr_delay = s.vbr_delay ∧
    s1.hdr_channels = s.frame_info.channels := by
  have hs : Sum.elim (fun t : St D U S => t.detected_samples = s.detected_samples ∧
      t.vbr_delay = s.vbr_delay ∧ t.hdr_channels = s.frame_info.channels) (fun _ => True)
      (allocate env s) := by
    unfold allocate
    simp only
    split_ifs <;> trivial
  rw [h] at hs
  exact hs

/-- A call that passes the shrink-to-fit step with a budget has the budget, the delay and the
channel count that the VBR directory of a Layer III frame declared. -/
theorem done_budget_declared {env : Env D} {a : Args D U S} {fuel : Nat} {r : Result U S}
    (hrun : mp3dec_load_cb env a fuel = some r) (hdone : r.exit = Exit.done)
    (hb : r.budget ≠ 0) : DeclaredBy env r.budget r.vbr_delay r.hdr_channels := by
  have hloop : ∀ s, ProbeHead a s → decodeAll env a.io a.progress_cb fuel s = some r →
      DeclaredBy env r.budget r.vbr_delay r.hdr_channels := by
    intro s hs h
    have hs1 : ProbeHead a { s with dec := env.mp3dec_init s.dec } := hs
    have hp := iterate_spec (probeStep env a.io)
      (fun t => ProbeHead a t ∧ True)
      (fun t => Probed env a t ∧ (t.detected_samples ≠ 0 →
        DeclaredBy env t.detected_samples t.vbr_delay t.frame_info.channels))
      (fun r => Early env r ∧ True)
      (fun t ht => Flow.sat_and (probeStep_spec env a.io ht.1) (probeStep_declared env a.io ht.1))
      fuel _ ⟨hs1, trivial⟩
    unfold decodeAll at h
    cases hq : iterate (probeStep env a.io) fuel { s with dec := env.mp3dec_init s.dec } with
    | none => rw [hq] at h; simp at h
    | some x =>
      rw [hq] at h hp
      cases x with
      | inr r1 =>
        simp only [Option.some.injEq] at h
        subst h
        rcases hp.1.2.2.2.2 with h1 | h1 | h1 | h1 | h1 | h1 | h1 <;>
          exact absurd (h1.1.symm.trans hdone) (by decide)
      | inl s1 =>
        simp only at h hp
        have ha := allocate_spec hp.1
        cases hq2 : allocate env s1 with
        | inr r1 =>
          rw [hq2] at h ha
          simp only [Option.some.injEq] at h
          subst h
          rcases ha.2.2.2.2 with h1 | h1 | h1 | h1 | h1 | h1 | h1 <;>
            exact absurd (h1.1.symm.trans hdone) (by decide)
        | inl s2 =>
          rw [hq2] at h ha
          simp only at h ha
          obtain ⟨e1, e2, e3⟩ := allocate_declared env hq2
          have hl := decode_loop_spec a.io a.progress_cb ha.1 fuel
          cases hq3 : iterate (decodeStep env a.io a.progress_cb) fuel s2 with
          | none => rw [hq3] at h; simp at h
          | some y =>
            rw [hq3] at h hl
            cases y with
            | inr r1 =>
              simp only [Option.some.injEq] at h
              subst h
              obtain ⟨t, -, -, -, hr⟩ := hl
              rw [hr] at hdone
              exact absurd hdone (by simp [growFailure, mkResult])
            | inl s3 =>
              simp only [Option.some.injEq] at h
              obtain ⟨hk, -⟩ := hl
              obtain ⟨-, -, -, f4, f5, f6, -⟩ := finish_spec env s3
              rw [h] at f4 f5 f6
              rw [f4, f5, f6, hk.book.detected, hk.book.vbr_delay, hk.book.hdr_channels,
                e1, e2, e3]
              refine hp.2 ?_
              rw [← e1, ← hk.book.detected, ← f4]
              exact hb
  unfold mp3dec_load_cb at hrun
  split at hrun
  · rename_i dec buf i hd hbf hi
    split_ifs at hrun with hparam
    · rw [← Option.some.inj hrun] at hdone
      exact absurd hdone (by simp [paramError])
    · cases hio : a.io with
      | none =>
        rw [hio] at hrun
        simp only at hrun
        have ht := tagSkipBuf_spec env (pristine_initSt dec buf a)
        cases hq : tagSkipBuf env (initSt dec buf a) with
        | inr r1 =>
          rw [hq] at hrun ht
          simp only [Option.some.injEq] at hrun
          subst hrun
          rcases ht.2.2.2.2 with h1 | h1 | h1 | h1 | h1 | h1 | h1 <;>
            exact absurd (h1.1.symm.trans hdone) (by decide)
        | inl s1 =>
          rw [hq] at hrun ht
          simp only at hrun ht
          rw [← hio] at hrun
          exact hloop s1 ht hrun
      | some ops =>
        rw [hio] at hrun
        simp only at hrun
        have ht := tagSkipIo_spec env ops (pristine_initSt dec buf a)
        cases hq : tagSkipIo env ops (initSt dec buf a) with
        | inr r1 =>
          rw [hq] at hrun ht
          simp only [Option.some.injEq] at hrun
          subst hrun
          rcases ht.2.2.2.2 with h1 | h1 | h1 | h1 | h1 | h1 | h1 <;>
            exact absurd (h1.1.symm.trans hdone) (by decide)
        | inl s1 =>
          rw [hq] at hrun ht
          simp only at hrun ht
          rw [← hio] at hrun
          exact hloop s1 ht hrun
  · rw [← Option.some.inj hrun] at hdone
    exact absurd hdone (by simp [paramError])

/-- The budget computation of lines 191-195 never wraps around: the amount `x` taken for the
delay is the delay when the declared total is at least the delay and nothing otherwise, the
amount `y` taken for the padding is the padding when it is positive and what is left is at
least the padding and nothing otherwise, and the budget is the total less the two. -/
theorem vbrBudget_guarded (samples frames : Nat) (to_skip padding : Int) :
    ∃ x y : Nat,
      x = (if toSize to_skip ≤ samples * frames % SIZE_MOD then toSize to_skip else 0) ∧
      y = (if 0 < padding ∧ toSize padding ≤ samples * frames % SIZE_MOD - x
            then toSize padding else 0) ∧
      x ≤ samples * frames % SIZE_MOD ∧ y ≤ samples * frames % SIZE_MOD - x ∧
      vbrBudget samples frames to_skip padding + x + y = samples * frames % SIZE_MOD := by
  unfold vbrBudget
  simp only
  by_cases h1 : samples * frames % SIZE_MOD ≥ toSize to_skip
  · rw [if_pos h1, subSize_of_le h1, if_pos h1]
    by_cases h2 : padding > 0 ∧ samples * frames % SIZE_MOD - toSize to_skip ≥ toSize padding
    · rw [if_pos h2, subSize_of_le h2.2]
      refine ⟨_, _, rfl, rfl, h1, ?_, ?_⟩
      · rw [if_pos h2]
        exact h2.2
      · rw [if_pos h2]
        omega
    · rw [if_neg h2]
      refine ⟨_, _, rfl, rfl, h1, ?_, ?_⟩
      · rw [if_neg h2]
        exact Nat.zero_le _
      · rw [if_neg h2]
        omega
  · rw [if_neg h1, if_neg h1]
    by_cases h2 : padding > 0 ∧ samples * frames % SIZE_MOD ≥ toSize padding
    · rw [if_pos h2, subSize_of_le h2.2]
      refine ⟨_, _, rfl, rfl, Nat.zero_le _, ?_, ?_⟩
      · rw [Nat.sub_zero, if_pos h2]
        exact h2.2
      · rw [Nat.sub_zero, if_pos h2]
        omega
    · rw [if_neg h2]
      refine ⟨_, _, rfl, rfl, Nat.zero_le _, ?_, ?_⟩
      · rw [Nat.sub_zero, if_neg h2]
        exact Nat.zero_le _
      · rw [Nat.sub_zero, if_neg h2]
        omega

end BudgetLink

/-- Claim C3: when the delay a VBR directory declares (scaled by the channel count) is at least
the number of values the decoder calls produced, the call reports exactly zero samples.  And the
budget computation never wraps around.  For every input of the computation of lines 191-195,
the amount taken for the delay is the delay when the declared total is at least the delay and
nothing otherwise, the amount taken for the padding is the padding when it is positive and what
is left is at least the padding and nothing otherwise, each amount is at most what it is taken
from, and the budget is the total less the two.  For every Layer III frame in which a VBR
directory is found, the probe loop computes the budget so from the frame's sample count and the
declared frame count, delay and padding, returns `0` when it is zero and otherwise leaves with
it in `detected_samples` and the scaled delay in `to_skip`.  And the budget of a call that
passes the shrink-to-fit step is the one so computed for a Layer III frame. -/
theorem delay_and_padding_never_underflow {env : Env D} {a : Args D U S} {fuel : Nat}
    {r : Result U S} (hrun : mp3dec_load_cb env a fuel = some r) (hvalid : r.exit ≠ Exit.param) :
    ((rawTotal r.calls : Int) ≤ r.vbr_delay → r.samples = 0) ∧
    (∀ (samples frames : Nat) (to_skip padding : Int), ∃ x y : Nat,
      x = (if toSize to_skip ≤ samples * frames % SIZE_MOD then toSize to_skip else 0) ∧
      y = (if 0 < padding ∧ toSize padding ≤ samples * frames % SIZE_MOD - x
            then toSize padding else 0) ∧
      x ≤ samples * frames % SIZE_MOD ∧ y ≤ samples * frames % SIZE_MOD - x ∧
      vbrBudget samples frames to_skip padding + x + y = samples * frames % SIZE_MOD) ∧
    (∀ (io : Option (IoOps S)) (s : St D U S) (i frame_size : Nat) (hdr : List Byte),
      frame_size ≠ 0 → env.HDR_GET_LAYER hdr = 1 →
      (env.mp3dec_check_vbrtag hdr frame_size).ret > 0 →
      Flow.sat (fun _ => False)
        (fun s1 => declaredBudget env hdr frame_size ≠ 0 ∧
          s1.detected_samples = declaredBudget env hdr frame_size ∧
          s1.to_skip = (env.mp3dec_check_vbrtag hdr frame_size).delay * hdrChannels env hdr ∧
          s1.vbr_delay = (env.mp3dec_check_vbrtag hdr frame_size).delay * hdrChannels env hdr ∧
          s1.frame_info.channels = hdrChannels env hdr)
        (fun r1 => declaredBudget env hdr frame_size = 0 ∧ r1.ret = 0 ∧
          r1.exit = Exit.vbr_zero)
        (probeFrame env io s i frame_size hdr)) ∧
    (r.exit = Exit.done → r.budget ≠ 0 →
      DeclaredBy env r.budget r.vbr_delay r.hdr_channels) := by
  have hzero : ∀ (s0 s : St D U S), Known env a.progress_cb s0 s →
      (rawTotal s.calls : Int) ≤ s0.vbr_delay → s.info.samples = 0 := by
    intro s0 s hk hle
    have h0 : (0 : Int) ≤ (rawTotal s.calls : Int) := Int.ofNat_nonneg _
    have hc := hk.count (le_trans h0 hle)
    have hacc := accTotal_le_rawTotal s0.info.hz s0.info.layer s.calls
    have hbal := hc.balance
    rcases hc.either with h1 | h1
    · omega
    · exact h1
  refine ⟨?_, vbrBudget_guarded, fun io s i fs hdr => probeFrame_budget env io s i fs hdr,
    fun hd hb => done_budget_declared hrun hd hb⟩
  rcases run_cases hrun with h | h | ⟨s0, hE, ⟨s, hk, -, -, h⟩ | ⟨s3, ks, k, hk, -, h⟩⟩
  · rw [h] at hvalid
    exact absurd rfl hvalid
  · intro _
    rw [Result.samples, h.1]
    rfl
  · intro hle
    rw [h] at hle ⊢
    have := hzero s0 s hk (by
      simpa [growFailure, mkResult, logStart, hk.book.vbr_delay] using hle)
    simpa [growFailure, mkResult, Result.samples] using this
  · obtain ⟨f1, f2, f3, f4, f5, f6, f7⟩ := finish_spec env s3
    rw [← h] at f1 f2 f3 f4 f5 f6 f7
    intro hle
    rw [f1, f5, hk.book.vbr_delay] at hle
    have hn := hzero s0 s3 hk hle
    have hcut : cutTo s3.detected_samples s3.info.samples = 0 := by
      have := cutTo_le s3.detected_samples s3.info.samples
      omega
    rcases f7 with ⟨-, -, hne, -⟩ | ⟨-, -, -, b, hinfo⟩
    · exact absurd hcut hne
    · rw [Result.samples, hinfo]
      exact hcut

/-- Claim C3 at a concrete input: a VBR directory that declares 9 frames and a delay of 10 in
front of four mono frames of one value each.  The declared total 9 is below the delay, so the
delay is not taken from it and the budget is 9; the four values the decoder produces are all
dropped, and the call reports zero samples. -/
theorem delay_and_padding_never_underflow_witness :
    ∃ r, mp3dec_load_cb (toyEnv 1 vbrLongDelay allocAlways) (bufArgs vbrStream none) 20 = some r ∧
      rawTotal r.calls = 4 ∧ r.vbr_delay = 10 ∧ r.samples = 0 ∧ r.budget = 9 ∧
      DeclaredBy (toyEnv 1 vbrLongDelay allocAlways) r.budget r.vbr_delay r.hdr_channels := by
  obtain ⟨r, h⟩ := run_of_isSome
    (show (mp3dec_load_cb (toyEnv 1 vbrLongDelay allocAlways) (bufArgs vbrStream none) 20).isSome
      = true by decide)
  have hexit := fact_of_run (fun r => r.exit) h (show _ = some Exit.done by decide)
  have hraw := fact_of_run (fun r => (rawTotal r.calls, r.vbr_delay, r.budget)) h
    (show _ = some ((4 : Nat), (10 : Int), (9 : Nat)) by decide)
  beta_reduce at hexit hraw
  simp only [Prod.mk.injEq] at hraw
  have hthm := delay_and_padding_never_underflow h (by rw [hexit]; decide)
  exact ⟨r, h, hraw.1, hraw.2.1, hthm.1 (by rw [hraw.1, hraw.2.1]; decide), hraw.2.2,
    hthm.2.2.2 hexit (by rw [hraw.2.2]; decide)⟩

/-- Claim C4, amended: when a decoded frame `k` with a nonzero sample count differs in rate or
layer from the stream and the call passes the shrink-to-fit step, then `k` is the last frame
decoded, the call returns `MP3D_E_DECODE`, the returned count is the count accumulated before
`k`, cut to the VBR budget, and the returned samples are the output of the frames before `k`,
trimmed by the VBR delay and budget: `k` itself contributes nothing. -/
theorem inconsistent_frame_keeps_earlier_output {env : Env D} {a : Args D U S} {fuel : Nat}
    {r : Result U S} (hrun : mp3dec_load_cb env a fuel = some r) (hdone : r.exit = Exit.done)
    (k : CallRec) (hk : k ∈ r.calls) (hk0 : k.samples ≠ 0)
    (hbad : ∃ i, r.info = some i ∧ (k.info.hz ≠ i.hz ∨ k.info.layer ≠ i.layer)) :
    ∃ ks, r.calls = ks ++ [k] ∧ r.ret = env.MP3D_E_DECODE ∧
      r.samples = cutTo r.budget k.acc ∧
      (DecoderFills env → DelayNonneg env →
        r.contents = trimmed (rawOutput ks) r.vbr_delay r.budget) := by
  rcases run_cases hrun with h | h | ⟨s0, hE, ⟨s, -, -, -, h⟩ | ⟨s3, ks, k1, hkn, hx, h⟩⟩
  · rw [h] at hk
    simp [paramError] at hk
  · rw [h.2.1] at hk
    simp at hk
  · rw [h] at hdone
    exact absurd hdone (by simp [growFailure, mkResult])
  · obtain ⟨f1, f2, f3, f4, f5, f6, f7⟩ := finish_spec env s3
    rw [← h] at f1 f2 f3 f4 f5 f6 f7
    rcases f7 with ⟨hsf, -⟩ | ⟨-, hret, hcont, b, hinfo⟩
    · rw [hsf] at hdone
      exact absurd hdone (by decide)
    · have hnot : ¬ k.accepted s0.info.hz s0.info.layer := by
        intro hacc
        obtain ⟨i, hi, hne⟩ := hbad
        rw [hinfo] at hi
        have hi2 := Option.some.inj hi
        rcases hne with h1 | h1
        · apply h1
          rw [hacc.2.1, ← hi2]
          exact hkn.book.hz.symm
        · apply h1
          rw [hacc.2.2, ← hi2]
          exact hkn.book.layer.symm
      have hlast : k = k1 := by
        rw [f1, hx.calls] at hk
        rcases List.mem_append.mp hk with h1 | h1
        · rcases (hx.before k h1).1 with h2 | h2
          · exact absurd h2 hk0
          · exact absurd h2 hnot
        · simpa using h1
      subst hlast
      have hhow : s3.ret = env.MP3D_E_DECODE := by
        rcases hx.how with ⟨-, -, h1, -⟩ | ⟨h1, -⟩ | ⟨-, h1 | h1, -⟩
        · exact h1
        · exact absurd h1 hnot
        · exact absurd h1 hk0
        · exact absurd h1 hnot
      have hsamp : s3.info.samples = k.acc := by
        rw [hx.samples, if_neg hnot]
        rfl
      refine ⟨ks, by rw [f1, hx.calls], by rw [hret, hhow], ?_, ?_⟩
      · rw [Result.samples, hinfo, f4, hsamp]
      · intro hfill hdelay
        have hD : 0 ≤ s0.vbr_delay := hE.2.2.2.2.2.2.2.2.2.2.2.1 hdelay
        have hcount := hkn.count hD
        have hcontent := hkn.content hD hfill
        have hacc : accOutput s0.info.hz s0.info.layer s3.calls = rawOutput ks := by
          rw [hx.calls, accOutput_append, if_neg hnot, List.append_nil]
          exact accOutput_eq_rawOutput _ _ ks fun j hj => (hx.before j hj).1
        rw [hcont, f4, f5, hkn.book.vbr_delay, ← hacc]
        refine readRange_cut_eq_trimmed _ _ _ _ s3.to_skip _ hcount.nonneg ?_ hcount.either
          hcontent.content
        rw [hcontent.length]
        exact hcount.balance

/-- The amended claim C4 at a concrete input: on the stream whose fourth frame changes the rate,
with a VBR budget of 2, the call returns `MP3D_E_DECODE` and the count 2: the 3 samples
accumulated before the inconsistent frame, cut to the budget. -/
theorem inconsistent_frame_keeps_earlier_output_witness :
    ∃ r, mp3dec_load_cb (toyEnv 1 vbrTwo allocAlways) (bufArgs rateChangeStream none) 20 = some r ∧
      r.ret = -5 ∧ r.samples = 2 := by
  obtain ⟨r, h⟩ := run_of_isSome
    (show (mp3dec_load_cb (toyEnv 1 vbrTwo allocAlways) (bufArgs rateChangeStream none) 20).isSome
      = true by decide)
  have hexit := fact_of_run (fun r => r.exit) h (show _ = some Exit.done by decide)
  have hinfo := fact_of_run (fun r => r.info.map fun i => i.hz) h
    (show _ = some (some (44100 : Nat)) by decide)
  have hlast := fact_of_run (fun r => r.calls.getLast?) h
    (show _ = some (some { allocated := 9224, acc := 3, to_skip := 0, samples := 1,
                           info := { frame_bytes := 1, channels := 1, hz := 48000, layer := 3,
                                     bitrate_kbps := 128 },
                           pcm := [101] }) by decide)
  have hbudget := fact_of_run (fun r => r.budget) h (show _ = some (2 : Nat) by decide)
  beta_reduce at hexit hinfo hlast hbudget
  obtain ⟨ks, -, hret, hsamp, -⟩ := inconsistent_frame_keeps_earlier_output h hexit
    { allocated := 9224, acc := 3, to_skip := 0, samples := 1,
      info := { frame_bytes := 1, channels := 1, hz := 48000, layer := 3, bitrate_kbps := 128 },
      pcm := [101] }
    (List.mem_of_getLast?_eq_some hlast) (by decide)
    (by
      cases hi : r.info with
      | none => rw [hi] at hinfo; simp at hinfo
      | some i =>
        rw [hi] at hinfo
        simp only [Option.map_some', Option.some.injEq] at hinfo
        exact ⟨i, rfl, Or.inl (by rw [hinfo]; decide)⟩)
  refine ⟨r, h, hret, ?_⟩
  rw [hsamp, hbudget]
  decide

/-- Claim C5, amended: when every decoded frame with samples has the rate and layer of the
stream, the callback never asks to stop, the call passes the shrink-to-fit step, and some decoded
frame with samples has another channel count than the first frame's header, then the call
returns success, the resulting channel count is the sentinel `0`, and the resulting sample count
is the sum over all decoded frames of samples times channels, less the delay a VBR directory
declared (not below zero) and cut to the VBR budget; without a VBR directory it is that sum. -/
theorem channel_change_is_tolerated {env : Env D} {a : Args D U S} {fuel : Nat}
    {r : Result U S} (hdelay : DelayNonneg env) (hrun : mp3dec_load_cb env a fuel = some r)
    (hdone : r.exit = Exit.done)
    (hcons : ∀ k ∈ r.calls, k.samples ≠ 0 →
      ∃ i, r.info = some i ∧ k.info.hz = i.hz ∧ k.info.layer = i.layer)
    (hcb : ∀ c ∈ r.cbs, c.result = 0)
    (k : CallRec) (hk : k ∈ r.calls) (hk0 : k.samples ≠ 0)
    (hch : k.info.channels ≠ r.hdr_channels) :
    r.ret = 0 ∧ (∃ i, r.info = some i ∧ i.channels = 0) ∧
    r.samples = cutTo r.budget (rawTotal r.calls - r.vbr_delay.toNat) ∧
    (r.vbr_delay = 0 → r.budget = 0 → r.samples = rawTotal r.calls) := by
  rcases run_cases hrun with h | h | ⟨s0, hE, ⟨s, -, -, -, h⟩ | ⟨s3, ks, k1, hkn, hx, h⟩⟩
  · rw [h] at hk
    simp [paramError] at hk
  · rw [h.2.1] at hk
    simp at hk
  · rw [h] at hdone
    exact absurd hdone (by simp [growFailure, mkResult])
  · obtain ⟨f1, f2, f3, f4, f5, f6, f7⟩ := finish_spec env s3
    rw [← h] at f1 f2 f3 f4 f5 f6 f7
    rcases f7 with ⟨hsf, -⟩ | ⟨-, hret, -, b, hinfo⟩
    · rw [hsf] at hdone
      exact absurd hdone (by decide)
    · have hok : ∀ j ∈ r.calls, j.samples ≠ 0 → j.accepted s0.info.hz s0.info.layer := by
        intro j hj hj0
        obtain ⟨i, hi, hhz, hly⟩ := hcons j hj hj0
        rw [hinfo] at hi
        have hi2 := Option.some.inj hi
        refine ⟨hj0, ?_, ?_⟩
        · rw [hhz, ← hi2]
          exact hkn.book.hz
        · rw [hly, ← hi2]
          exact hkn.book.layer
      have hall : ∀ j ∈ s3.calls, j.samples = 0 ∨ j.accepted s0.info.hz s0.info.layer := by
        intro j hj
        by_cases hj0 : j.samples = 0
        · exact Or.inl hj0
        · exact Or.inr (hok j (by rw [f1]; exact hj) hj0)
      have hk1 : k1 ∈ r.calls := by rw [f1, hx.calls]; simp
      have hret0 : s3.ret = 0 := by
        rcases hx.how with ⟨h1, h2, -⟩ | ⟨-, h1, cs, c, hcbs, hres, -⟩ | ⟨-, -, h1, -⟩
        · exact absurd (hok k1 hk1 h1) h2
        · have hc0 := hcb c (by rw [f2, hcbs]; simp)
          rw [hres] at hc0
          exact absurd hc0 h1
        · exact h1
      have hD : 0 ≤ s0.vbr_delay := hE.2.2.2.2.2.2.2.2.2.2.2.1 hdelay
      have hcount := hkn.count hD
      have hchan : s3.info.channels = 0 := by
        rw [hkn.book.channels]
        refine chanAfter_eq_zero _ _ _ _ k (by rw [← f1]; exact hk) (hok k hk hk0) ?_
        rw [← hkn.book.hdr_channels, ← f6]
        exact hch
      have hsamp : s3.info.samples = rawTotal s3.calls - s0.vbr_delay.toNat := by
        have hbal := hcount.balance
        rw [accTotal_eq_rawTotal _ _ _ hall] at hbal
        have hnn := hcount.nonneg
        rcases hcount.either with h1 | h1 <;> omega
      have hres : r.samples = cutTo r.budget (rawTotal r.calls - r.vbr_delay.toNat) := by
        rw [Result.samples, hinfo, f4, f1, f5, hkn.book.vbr_delay, hsamp]
      refine ⟨by rw [hret, hret0], ⟨_, hinfo, hchan⟩, hres, ?_⟩
      intro hd0 hb0
      rw [hres, hd0, hb0]
      simp [cutTo]

/-- The amended claim C5 at a concrete input: a mono, a stereo and a mono frame behind a VBR
directory with a delay of 1: the call returns `0`, and the 4 values the frames hold, less the
delay, give 3 samples. -/
theorem channel_change_is_tolerated_witness :
    ∃ r, mp3dec_load_cb (toyEnv 1 vbrNine allocAlways) (bufArgs channelChangeStream none) 20
        = some r ∧ r.ret = 0 ∧ r.samples = 3 := by
  obtain ⟨r, h⟩ := run_of_isSome
    (show (mp3dec_load_cb (toyEnv 1 vbrNine allocAlways)
      (bufArgs channelChangeStream none) 20).isSome = true by decide)
  have hexit := fact_of_run (fun r => r.exit) h (show _ = some Exit.done by decide)
  have hinfo := fact_of_run (fun r => r.info.map fun i => (i.hz, i.layer)) h
    (show _ = some (some ((44100 : Nat), (3 : Int))) by decide)
  have hcalls := fact_of_run (fun r => r.calls.map fun k => (k.samples, k.info.hz, k.info.layer)) h
    (show _ = some ([(1, 44100, 3), (1, 44100, 3), (1, 44100, 3), (0, 0, 0)] :
      List (Nat × Nat × Int)) by decide)
  have hcbs := fact_of_run (fun r => r.cbs) h (show _ = some [] by decide)
  have hnum := fact_of_run (fun r => (r.budget, rawTotal r.calls, r.vbr_delay, r.hdr_channels)) h
    (show _ = some ((8 : Nat), (4 : Nat), (1 : Int), (1 : Nat)) by decide)
  have hsecond := fact_of_run (fun r => r.calls.get? 1) h
    (show _ = some (some { allocated := 4624, acc := 0, to_skip := 0, samples := 1,
                           info := { frame_bytes := 1, channels := 2, hz := 44100, layer := 3,
                                     bitrate_kbps := 128 },
                           pcm := [2, 2] }) by decide)
  beta_reduce at hexit hinfo hcalls hcbs hnum hsecond
  simp only [Prod.mk.injEq] at hnum
  obtain ⟨hret, -, hsamp, -⟩ := channel_change_is_tolerated
    (toyEnv_delay 1 vbrNine allocAlways (by decide)) h hexit
    (by
      intro k hk hk0
      cases hi : r.info with
      | none => rw [hi] at hinfo; simp at hinfo
      | some i =>
        rw [hi] at hinfo
        simp only [Option.map_some', Option.some.injEq, Prod.mk.injEq] at hinfo
        refine ⟨i, rfl, ?_⟩
        have hmem : (k.samples, k.info.hz, k.info.layer)
            ∈ r.calls.map fun k => (k.samples, k.info.hz, k.info.layer) :=
          List.mem_map_of_mem _ hk
        rw [hcalls] at hmem
        have hall : ∀ t ∈ ([(1, 44100, 3), (1, 44100, 3), (1, 44100, 3), (0, 0, 0)] :
            List (Nat × Nat × Int)), t.1 = 0 ∨ (t.2.1 = 44100 ∧ t.2.2 = 3) := by
          decide
        rcases hall _ hmem with h1 | ⟨h2, h3⟩
        · exact absurd h1 hk0
        · exact ⟨h2.trans hinfo.1.symm, h3.trans hinfo.2.symm⟩)
    (by rw [hcbs]; simp)
    { allocated := 4624, acc := 0, to_skip := 0, samples := 1,
      info := { frame_bytes := 1, channels := 2, hz := 44100, layer := 3, bitrate_kbps := 128 },
      pcm := [2, 2] }
    (List.get?_mem hsecond) (by decide) (by rw [hnum.2.2.2]; decide)
  refine ⟨r, h, hret, ?_⟩
  rw [hsamp, hnum.1, hnum.2.1, hnum.2.2.1]
  decide

/-- In whole-buffer mode, when the locator never reports a frame and never skips more than it
was given, the probe loop returns through `return 0` within `buf_size + 1` passes. -/
theorem probe_no_frame_returns {env : Env D} (hnone : ∀ w, (env.mp3d_find_frame w).2 = 0)
    (hskip : ∀ w, (env.mp3d_find_frame w).1 ≤ w.length) :
    ∀ (fuel : Nat) (s : St D U S), s.buf_size < fuel →
      ∃ r, iterate (probeStep env (none : Option (IoOps S))) fuel s = some (Sum.inr r) ∧
        r.exit = Exit.no_frame := by
  intro fuel
  induction fuel with
  | zero => intro s h; omega
  | succ n ih =>
    intro s h
    have hlen : (window s.buf 0 s.buf_size).length ≤ s.buf_size := by
      simp only [window, List.drop_zero, List.length_take]
      exact Nat.min_le_left _ _
    have hle := Nat.le_trans (hskip (window s.buf 0 s.buf_size)) hlen
    by_cases h0 : (env.mp3d_find_frame (window s.buf 0 s.buf_size)).1 = 0
    · refine ⟨mkResult
        { s with buf := s.buf.drop (env.mp3d_find_frame (window s.buf 0 s.buf_size)).1,
                 buf_size := subSize s.buf_size
                   (env.mp3d_find_frame (window s.buf 0 s.buf_size)).1 }
        0 Exit.no_frame none, ?_, rfl⟩
      simp only [iterate, probeStep, probeFrame, hnone, h0, ne_eq, not_true_eq_false,
        false_and, if_false, if_true]
    · obtain ⟨r, hr, hx⟩ := ih
        { s with buf := s.buf.drop (env.mp3d_find_frame (window s.buf 0 s.buf_size)).1,
                 buf_size := subSize s.buf_size
                   (env.mp3d_find_frame (window s.buf 0 s.buf_size)).1 }
        (by
          simp only
          rw [subSize_of_le hle]
          omega)
      refine ⟨r, ?_, hx⟩
      simp only [iterate, probeStep, probeFrame, hnone, h0, ne_eq, not_false_eq_true,
        and_self, if_true]
      exact hr

theorem early_empty_success {env : Env D} {r : Result U S} (h : Early env r)
    (hx : r.exit = Exit.short_source ∨ r.exit = Exit.empty_after_tags ∨
      r.exit = Exit.no_frame ∨ r.exit = Exit.vbr_zero) : EmptySuccess r := by
  obtain ⟨h1, h2, -, -, h5⟩ := h
  refine ⟨?_, h1, h2⟩
  rcases h5 with h | h | h | h | h | h | h
  · rcases hx with e | e | e | e <;> exact absurd (h.1.symm.trans e) (by decide)
  · exact h.2
  · exact h.2
  · rcases hx with e | e | e | e <;> exact absurd (h.1.symm.trans e) (by decide)
  · exact h.2
  · exact h.2
  · rcases hx with e | e | e | e <;> exact absurd (h.1.symm.trans e) (by decide)

/-- A return of one of the four kinds of empty success is an empty success. -/
theorem empty_exits_are_empty_success {env : Env D} {a : Args D U S} {fuel : Nat}
    {r : Result U S} (hrun : mp3dec_load_cb env a fuel = some r)
    (hx : r.exit = Exit.short_source ∨ r.exit = Exit.empty_after_tags ∨
      r.exit = Exit.no_frame ∨ r.exit = Exit.vbr_zero) : EmptySuccess r := by
  rcases run_cases hrun with h | h | ⟨s0, -, ⟨s, -, -, -, h⟩ | ⟨s3, ks, k, -, -, h⟩⟩
  · rw [h] at hx
    simp [paramError] at hx
  · exact early_empty_success h hx
  · rw [h] at hx
    simp [growFailure, mkResult] at hx
  · obtain ⟨-, -, -, -, -, -, f7⟩ := finish_spec env s3
    rw [← h] at f7
    rcases f7 with h1 | h1 <;> rw [h1.1] at hx <;> simp at hx

/-- When the probe loop returns, that is what the rest of the function delivers. -/
theorem decodeAll_of_probe_ret (env : Env D) (io : Option (IoOps S))
    (cb : Option (ProgressCb U)) (fuel : Nat) (s : St D U S) {r : Result U S}
    (h : iterate (probeStep env io) fuel { s with dec := env.mp3dec_init s.dec }
      = some (Sum.inr r)) :
    decodeAll env io cb fuel s = some r := by
  unfold decodeAll
  rw [h]

/-- With valid whole-buffer arguments the call is the tag skip followed by the rest. -/
theorem load_cb_whole_buffer {env : Env D} {a : Args D U S} (hv : ValidArgs env a)
    (hio : a.io = none) (fuel : Nat) :
    ∃ dec buf, a.dec = some dec ∧ a.buf = some buf ∧
      mp3dec_load_cb env a fuel =
        match tagSkipBuf env (initSt dec buf a) with
        | Sum.inr r => some r
        | Sum.inl s => decodeAll env none a.progress_cb fuel s := by
  obtain ⟨h1, h2, h3, h4, -⟩ := hv
  obtain ⟨dec, hdec⟩ := Option.isSome_iff_exists.mp h1
  obtain ⟨buf, hbuf⟩ := Option.isSome_iff_exists.mp h2
  obtain ⟨i, hi⟩ := Option.isSome_iff_exists.mp h3
  refine ⟨dec, buf, hdec, hbuf, ?_⟩
  unfold mp3dec_load_cb
  rw [hdec, hbuf, hi]
  simp only [hio, h4, Option.isSome_none, Bool.false_eq_true, false_and, or_self, if_false]

/-- With valid bounded-window arguments the call is the tag skip followed by the rest. -/
theorem load_cb_bounded {env : Env D} {a : Args D U S} (hv : ValidArgs env a)
    {ops : IoOps S} (hio : a.io = some ops) (fuel : Nat) :
    ∃ dec buf, a.dec = some dec ∧ a.buf = some buf ∧
      mp3dec_load_cb env a fuel =
        match tagSkipIo env ops (initSt dec buf a) with
        | Sum.inr r => some r
        | Sum.inl s => decodeAll env (some ops) a.progress_cb fuel s := by
  obtain ⟨h1, h2, h3, h4, h5⟩ := hv
  obtain ⟨dec, hdec⟩ := Option.isSome_iff_exists.mp h1
  obtain ⟨buf, hbuf⟩ := Option.isSome_iff_exists.mp h2
  obtain ⟨i, hi⟩ := Option.isSome_iff_exists.mp h3
  have h6 : ¬ a.buf_size < env.MINIMP3_BUF_SIZE := by
    have := h5 (by rw [hio]; rfl)
    omega
  refine ⟨dec, buf, hdec, hbuf, ?_⟩
  unfold mp3dec_load_cb
  rw [hdec, hbuf, hi]
  simp only [hio, h4, h6, and_false, or_self, if_false]

/-- Claim C10: absence of decodable audio is an empty success.  Every return through the short
probe read, the empty buffer after tag skipping, the locator's "no frame" and the zero VBR budget
returns `0` with an all-zero info structure and no buffer.  And the call does return so: in
whole-buffer mode when the buffer is empty after tag skipping (a zero-length buffer is, when
the tag skipper leaves the empty buffer empty); in bounded-window mode when the first read
delivers fewer bytes than the ID3v2 probe window (a zero-length source does); in whole-buffer
mode when the locator never reports a frame; and in whole-buffer mode when the first frame is a
Layer III frame whose VBR directory declares a budget of zero. -/
theorem absent_audio_is_empty_success (env : Env D) (a : Args D U S) (fuel : Nat) :
    (∀ r, mp3dec_load_cb env a fuel = some r →
      (r.exit = Exit.short_source ∨ r.exit = Exit.empty_after_tags ∨ r.exit = Exit.no_frame ∨
        r.exit = Exit.vbr_zero) → EmptySuccess r) ∧
    (ValidArgs env a → a.io = none →
      (∀ buf, a.buf = some buf → (env.mp3dec_skip_id3 (window buf 0 a.buf_size)).2 = 0) →
      ∃ r, mp3dec_load_cb env a fuel = some r ∧ EmptySuccess r) ∧
    (ValidArgs env a → a.io = none → a.buf_size = 0 → (env.mp3dec_skip_id3 []).2 = 0 →
      ∃ r, mp3dec_load_cb env a fuel = some r ∧ EmptySuccess r) ∧
    (ValidArgs env a →
      (∀ ops, a.io = some ops → (ops.seek a.io_data 0).1 = 0 ∧
        (ops.read (ops.seek a.io_data 0).2 env.MINIMP3_ID3_DETECT_SIZE).1.length
          < env.MINIMP3_ID3_DETECT_SIZE) →
      a.io.isSome → ∃ r, mp3dec_load_cb env a fuel = some r ∧ EmptySuccess r) ∧
    (ValidArgs env a → a.io = none → (∀ w, (env.mp3d_find_frame w).2 = 0) →
      (∀ w, (env.mp3d_find_frame w).1 ≤ w.length) →
      (∀ buf, a.buf = some buf → (env.mp3dec_skip_id3 (window buf 0 a.buf_size)).2 < fuel) →
      ∃ r, mp3dec_load_cb env a fuel = some r ∧ EmptySuccess r) ∧
    (ValidArgs env a → a.io = none →
      (∀ buf, a.buf = some buf → FirstFrameVbrZero env buf a.buf_size) → 0 < fuel →
      ∃ r, mp3dec_load_cb env a fuel = some r ∧ EmptySuccess r) := by
  have hempty : ValidArgs env a → a.io = none →
      (∀ buf, a.buf = some buf → (env.mp3dec_skip_id3 (window buf 0 a.buf_size)).2 = 0) →
      ∃ r, mp3dec_load_cb env a fuel = some r ∧ EmptySuccess r := by
    intro hv hio h0
    obtain ⟨dec, buf, hdec, hbuf, hrun⟩ := load_cb_whole_buffer hv hio fuel
    have h1 := h0 buf hbuf
    have ht : tagSkipBuf env (initSt dec buf a) = Sum.inr (mkResult
        { initSt dec buf a with
            buf := buf.drop (env.mp3dec_skip_id3 (window buf 0 a.buf_size)).1,
            buf_size := (env.mp3dec_skip_id3 (window buf 0 a.buf_size)).2 }
        0 Exit.empty_after_tags none) := by
      unfold tagSkipBuf
      simp only [initSt, h1, if_true]
    rw [ht] at hrun
    exact ⟨_, hrun, empty_exits_are_empty_success hrun (Or.inr (Or.inl rfl))⟩
  refine ⟨fun r hrun hx => empty_exits_are_empty_success hrun hx, hempty, ?_, ?_, ?_, ?_⟩
  · intro hv hio hsize h0
    refine hempty hv hio fun buf _ => ?_
    rw [hsize]
    simpa [window] using h0
  · intro hv hshort hsome
    obtain ⟨ops, hio⟩ := Option.isSome_iff_exists.mp hsome
    obtain ⟨hseek, hread⟩ := hshort ops hio
    obtain ⟨dec, buf, hdec, hbuf, hrun⟩ := load_cb_bounded hv hio fuel
    have ht : ∃ r, tagSkipIo env ops (initSt dec buf a) = Sum.inr r ∧
        r.exit = Exit.short_source := by
      unfold tagSkipIo
      simp only [doSeek, doRead, initSt, hseek, ne_eq, not_true_eq_false, if_false]
      rw [if_neg (by omega), if_pos (by omega)]
      exact ⟨_, rfl, rfl⟩
    obtain ⟨r, hr, hx⟩ := ht
    rw [hr] at hrun
    exact ⟨r, hrun, empty_exits_are_empty_success hrun (Or.inl hx)⟩
  · intro hv hio hnone hskip hfuel
    obtain ⟨dec, buf, hdec, hbuf, hrun⟩ := load_cb_whole_buffer hv hio fuel
    have hf := hfuel buf hbuf
    by_cases h0 : (env.mp3dec_skip_id3 (window buf 0 a.buf_size)).2 = 0
    · exact hempty hv hio fun b hb => by
        rw [hbuf] at hb
        rw [← Option.some.inj hb]
        exact h0
    · have ht : tagSkipBuf env (initSt dec buf a) = Sum.inl
          { initSt dec buf a with
              buf := buf.drop (env.mp3dec_skip_id3 (window buf 0 a.buf_size)).1,
              buf_size := (env.mp3dec_skip_id3 (window buf 0 a.buf_size)).2 } := by
        unfold tagSkipBuf
        simp only [initSt, h0, if_false]
      rw [ht] at hrun
      simp only at hrun
      obtain ⟨r, hr, hx⟩ := probe_no_frame_returns hnone hskip fuel
        { initSt dec buf a with
            buf := buf.drop (env.mp3dec_skip_id3 (window buf 0 a.buf_size)).1,
            buf_size := (env.mp3dec_skip_id3 (window buf 0 a.buf_size)).2,
            dec := env.mp3dec_init dec } hf
      have hrun2 : mp3dec_load_cb env a fuel = some r :=
        hrun.trans (decodeAll_of_probe_ret env none a.progress_cb fuel _ hr)
      exact ⟨r, hrun2, empty_exits_are_empty_success hrun2 (Or.inr (Or.inr (Or.inl hx)))⟩
  · intro hv hio hvbr hfuel
    obtain ⟨dec, buf, hdec, hbuf, hrun⟩ := load_cb_whole_buffer hv hio fuel
    obtain ⟨h1, h2, h3, h4, h5⟩ := hvbr buf hbuf
    have ht : tagSkipBuf env (initSt dec buf a) = Sum.inl
        { initSt dec buf a with
            buf := buf.drop (env.mp3dec_skip_id3 (window buf 0 a.buf_size)).1,
            buf_size := (env.mp3dec_skip_id3 (window buf 0 a.buf_size)).2 } := by
      unfold tagSkipBuf
      simp only [initSt, h1, if_false]
    rw [ht] at hrun
    simp only at hrun
    obtain ⟨n, hn⟩ : ∃ n, fuel = n + 1 := ⟨fuel - 1, by omega⟩
    have hr : ∃ r, decodeAll env (none : Option (IoOps S)) a.progress_cb fuel
        { initSt dec buf a with
            buf := buf.drop (env.mp3dec_skip_id3 (window buf 0 a.buf_size)).1,
            buf_size := (env.mp3dec_skip_id3 (window buf 0 a.buf_size)).2 } = some r ∧
        r.exit = Exit.vbr_zero := by
      rw [hn]
      unfold decodeAll
      simp only [iterate, probeStep, probeFrame, initSt, h2, h3, h4, h5, and_false, if_false,
        ne_eq, not_true_eq_false, not_false_eq_true, true_and, if_true, Nat.cast_one,
        Int.reduceSub]
      exact ⟨_, rfl, rfl⟩
    obtain ⟨r, hr1, hr2⟩ := hr
    rw [hr1] at hrun
    exact ⟨r, hrun, empty_exits_are_empty_success hrun (Or.inr (Or.inr (Or.inr hr2)))⟩

/-- Claim C10 at concrete inputs: a zero-length buffer, a zero-length source behind a window of
`MINIMP3_BUF_SIZE` bytes, three bytes in which the locator finds no frame, and a VBR directory
frame that declares a budget of zero each give an empty success. -/
theorem absent_audio_is_empty_success_witness :
    (∃ r, mp3dec_load_cb (toyEnv 1 noVbr allocAlways) (bufArgs [] none) 1 = some r ∧
      EmptySuccess r) ∧
    (∃ r, mp3dec_load_cb (toyEnv 1 noVbr allocAlways) (ioArgs [] 16384 none) 1 = some r ∧
      EmptySuccess r) ∧
    (∃ r, mp3dec_load_cb silentEnv (bufArgs [0, 0, 0] none) 4 = some r ∧ EmptySuccess r) ∧
    (∃ r, mp3dec_load_cb (toyEnv 1 vbrNothing allocAlways) (bufArgs [7, 1] none) 1 = some r ∧
      EmptySuccess r) := by
  have hvalid : ∀ (env : Env Unit) (bytes : List Byte), bytes.length ≠ SIZE_MAX →
      ValidArgs env (bufArgs bytes none) := by
    intro env bytes h
    exact ⟨rfl, rfl, rfl, h, fun h => by simp [bufArgs] at h⟩
  refine ⟨?_, ?_, ?_, ?_⟩
  · exact (absent_audio_is_empty_success (toyEnv 1 noVbr allocAlways) (bufArgs [] none) 1).2.2.1
      (hvalid _ _ (by decide)) rfl rfl rfl
  · exact (absent_audio_is_empty_success (toyEnv 1 noVbr allocAlways)
      (ioArgs [] 16384 none) 1).2.2.2.1
      ⟨rfl, rfl, rfl, by decide, fun _ => by decide⟩
      (fun ops hops => by
        have h1 : ops = listIo := (Option.some.inj hops).symm
        subst h1
        exact ⟨rfl, by decide⟩)
      rfl
  · exact (absent_audio_is_empty_success silentEnv (bufArgs [0, 0, 0] none) 4).2.2.2.2.1
      (hvalid _ _ (by decide)) rfl (fun _ => rfl) (fun _ => Nat.le_refl _)
      (fun buf hbuf => by
        have h1 : buf = [0, 0, 0] := (Option.some.inj hbuf).symm
        subst h1
        decide)
  · exact (absent_audio_is_empty_success (toyEnv 1 vbrNothing allocAlways)
      (bufArgs [7, 1] none) 1).2.2.2.2.2
      (hvalid _ _ (by decide)) rfl
      (fun buf hbuf => by
        have h1 : buf = [7, 1] := (Option.some.inj hbuf).symm
        subst h1
        unfold FirstFrameVbrZero
        exact ⟨by decide, by decide, by decide, by decide, by decide⟩)
      (by decide)

/-- Claim C9, amended: when an invocation `c` of the progress callback returns a nonzero value,
it is the last invocation, the frame it was invoked for is the last frame decoded, the call
passes through the shrink-to-fit step, and when that step succeeds the call returns the value
the callback returned (not `0`), with the samples accumulated up to and including that frame,
cut to the VBR budget. -/
theorem callback_stop_keeps_samples_returns_value {env : Env D} {a : Args D U S} {fuel : Nat}
    {r : Result U S} (hrun : mp3dec_load_cb env a fuel = some r) (c : CbRec) (hc : c ∈ r.cbs)
    (hv : c.result ≠ 0) :
    ∃ cs ks k, r.cbs = cs ++ [c] ∧ (∀ c1 ∈ cs, c1.result = 0) ∧
      r.calls = ks ++ [k] ∧ k.info = c.info ∧ k.samples ≠ 0 ∧
      (r.exit = Exit.done ∨ r.exit = Exit.shrink_failed) ∧
      (r.exit = Exit.done → r.ret = c.result ∧ r.samples = cutTo r.budget (k.acc + k.kept)) := by
  rcases run_cases hrun with h | h | ⟨s0, -, ⟨s, -, hh, -, h⟩ | ⟨s3, ks, k, hk, hx, h⟩⟩
  · rw [h] at hc
    simp [paramError] at hc
  · rw [h.2.2.2.1] at hc
    simp at hc
  · rw [h] at hc
    exact absurd (hh.cbs c hc) hv
  · obtain ⟨f1, f2, f3, f4, f5, f6, f7⟩ := finish_spec env s3
    rw [← h] at f1 f2 f3 f4 f5 f6 f7
    rw [f2] at hc
    rcases hx.how with ⟨-, -, -, hz⟩ | ⟨hacc, hret, cs, c1, hcbs, hres, hinfo, hz⟩ | ⟨-, -, -, hz⟩
    · exact absurd (hz c hc) hv
    · have hcc : c = c1 := by
        rw [hcbs] at hc
        rcases List.mem_append.mp hc with h1 | h1
        · exact absurd (hz c h1) hv
        · simpa using h1
      subst hcc
      refine ⟨cs, ks, k, by rw [f2, hcbs], hz, by rw [f1, hx.calls], hinfo.symm, hacc.1, ?_, ?_⟩
      · rcases f7 with h1 | h1
        · exact Or.inr h1.1
        · exact Or.inl h1.1
      · intro hdone
        rcases f7 with h1 | ⟨-, h2, -, b, h4⟩
        · rw [h1.1] at hdone
          exact absurd hdone (by decide)
        · refine ⟨by rw [h2, hres], ?_⟩
          rw [Result.samples, h4, f4, hx.samples, if_pos hacc]
    · exact absurd (hz c hc) hv

/-- The amended claim C9 at a concrete input: on the ten-frame stream with the callback that
stops at the first frame, the call returns the callback's value `1`. -/
theorem callback_stop_keeps_samples_returns_value_witness :
    ∃ r, mp3dec_load_cb (toyEnv 1 noVbr allocAlways) (bufArgs tenFrames (some cbStopPastStart)) 20
        = some r ∧ r.ret = 1 := by
  cases h : mp3dec_load_cb (toyEnv 1 noVbr allocAlways)
      (bufArgs tenFrames (some cbStopPastStart)) 20 with
  | none =>
    have h1 : (mp3dec_load_cb (toyEnv 1 noVbr allocAlways)
        (bufArgs tenFrames (some cbStopPastStart)) 20).isSome = true := by decide
    rw [h] at h1
    exact absurd h1 (by decide)
  | some r =>
    have hcbs : (mp3dec_load_cb (toyEnv 1 noVbr allocAlways)
        (bufArgs tenFrames (some cbStopPastStart)) 20).map (fun r => (r.cbs, r.exit))
        = some ([{ file_size := 10, offset := 1,
                   info := { frame_bytes := 1, channels := 1, hz := 44100, layer := 3,
                             bitrate_kbps := 128 },
                   result := 1 }], Exit.done) := by decide
    rw [h] at hcbs
    simp only [Option.map_some', Option.some.injEq, Prod.mk.injEq] at hcbs
    obtain ⟨h1, h2⟩ := hcbs
    obtain ⟨cs, ks, k, -, -, -, -, -, -, hres⟩ :=
      callback_stop_keeps_samples_returns_value h
        { file_size := 10, offset := 1,
          info := { frame_bytes := 1, channels := 1, hz := 44100, layer := 3,
                    bitrate_kbps := 128 },
          result := 1 } (by rw [h1]; simp) (by decide)
    exact ⟨r, rfl, (hres h2).1⟩

end Claims

/-! ## Further claims -/

/-- A decidable fact computed about what a call delivers is a fact about the result. -/
theorem holds_of_run {α : Type} {o : Option α} {r : α} (P : α → Prop) [DecidablePred P]
    (h : o = some r) (hP : (o.map fun x => decide (P x)) = some true) : P r := by
  subst h
  simpa using hP

section Claims2

variable {D U S : Type}

end Claims2

section Claims3

variable {D U S : Type}

/-- The rate and layer `finish` reports are those of the state it is given. -/
theorem finish_hz_layer (env : Env D) (s : St D U S) :
    (finish env s).hz = s.info.hz ∧ (finish env s).layer = s.info.layer := by
  unfold finish
  constructor <;> split_ifs <;> simp [mkResult, Result.hz, Result.layer] <;> split_ifs <;> rfl

/-- A return before the decode loop is not a return from the end of the function. -/
theorem early_exit_ne {env : Env D} {r : Result U S} (h : Early env r) :
    r.exit ≠ Exit.done ∧ r.exit ≠ Exit.shrink_failed ∧ r.exit ≠ Exit.grow_failed ∧
    r.exit ≠ Exit.param := by
  obtain ⟨-, -, -, -, h5⟩ := h
  rcases h5 with h | h | h | h | h | h | h <;> rw [h.1] <;> decide

/-- Claim C12, amended: when a VBR directory established a nonzero budget, the sample count of
every return other than the out-of-memory return of the growth step inside the decode loop
(lines 231-233) is at most the budget; and after the loop, a count accumulated above the budget
is returned as exactly the budget, and a count within the budget is returned unchanged. -/
theorem final_count_within_budget {env : Env D} {a : Args D U S} {fuel : Nat} {r : Result U S}
    (hrun : mp3dec_load_cb env a fuel = some r) (hbudget : r.budget ≠ 0)
    (hexit : r.exit ≠ Exit.grow_failed) :
    r.samples ≤ r.budget ∧
    (r.exit = Exit.done ∨ r.exit = Exit.shrink_failed →
      (r.budget < r.accumulated → r.samples = r.budget) ∧
      (r.accumulated ≤ r.budget → r.samples = r.accumulated)) := by
  rcases run_cases hrun with h | h | ⟨s0, hE, ⟨s, -, -, -, h⟩ | ⟨s3, ks, k, hkn, hx, h⟩⟩
  · rw [h] at hbudget
    exact absurd rfl hbudget
  · have hne := early_exit_ne h
    refine ⟨?_, fun hd => ?_⟩
    · rw [Result.samples, h.1]
      exact Nat.zero_le _
    · rcases hd with hd | hd
      · exact absurd hd hne.1
      · exact absurd hd hne.2.1
  · rw [h] at hexit
    exact absurd rfl hexit
  · obtain ⟨f1, -, -, f4, -, -, f7⟩ := finish_spec env s3
    obtain ⟨g1, g2⟩ := finish_hz_layer env s3
    rw [← h] at f1 f4 f7 g1 g2
    have hacc : r.accumulated = s3.info.samples := by
      rw [Result.accumulated, f1, hx.calls, List.getLast?_append, hx.samples, g1, g2,
        hkn.book.hz, hkn.book.layer]
      rfl
    have hs : r.samples = cutTo r.budget r.accumulated := by
      rw [hacc, f4]
      rcases f7 with ⟨-, -, -, -, h5⟩ | ⟨-, -, -, b, hinfo⟩
      · exact h5
      · rw [Result.samples, hinfo]
    rw [hs]
    unfold cutTo
    refine ⟨?_, fun _ => ⟨fun hgt => ?_, fun hle => ?_⟩⟩
    · split_ifs with hc
      · exact Nat.le_refl _
      · have := not_and.mp hc hbudget
        omega
    · rw [if_pos ⟨hbudget, hgt⟩]
    · rw [if_neg (fun hc => absurd hc.2 (by omega))]

/-- Claim C12 at a concrete input: behind a VBR directory with a budget of 2 (4 frames of one
value, delay 1, padding 1) four frames accumulate 3 samples, and the call returns 2. -/
theorem final_count_within_budget_witness :
    ∃ r, mp3dec_load_cb (toyEnv 1 vbrFour allocAlways) (bufArgs vbrStream none) 20 = some r ∧
      r.budget = 2 ∧ r.accumulated = 3 ∧ r.samples = 2 := by
  obtain ⟨r, h⟩ := run_of_isSome
    (show (mp3dec_load_cb (toyEnv 1 vbrFour allocAlways)
      (bufArgs vbrStream none) 20).isSome = true by decide)
  have hb := holds_of_run (fun r => r.budget = 2 ∧ r.accumulated = 3 ∧ r.exit = Exit.done) h
    (by decide)
  have hthm := final_count_within_budget h (by rw [hb.1]; decide) (by rw [hb.2.2]; decide)
  refine ⟨r, h, hb.1, hb.2.1, ?_⟩
  rw [← hb.1]
  exact (hthm.2 (Or.inl hb.2.2)).1 (by rw [hb.1, hb.2.1]; decide)

/-- Claim C12 as stated fails: with a budget of 2 and an allocator that refuses the growth of
the buffer, the fourth pass of the decode loop returns `MP3D_E_MEMORY` (here `-2`) from line 233,
before the cut of lines 293-294, with the 3 samples accumulated so far in `info->samples`: the
returned count exceeds the budget. -/
theorem growth_failure_leaves_count_uncut :
    ∃ r, mp3dec_load_cb (toyEnv 1 vbrTwo allocFirstOnly) (bufArgs vbrStream none) 20 = some r ∧
      r.ret = -2 ∧ r.exit = Exit.grow_failed ∧ r.budget = 2 ∧ r.accumulated = 3 ∧
      r.samples = 3 ∧ ¬ r.samples ≤ r.budget := by
  obtain ⟨r, h⟩ := run_of_isSome
    (show (mp3dec_load_cb (toyEnv 1 vbrTwo allocFirstOnly)
      (bufArgs vbrStream none) 20).isSome = true by decide)
  have hb := holds_of_run
    (fun r => r.ret = -2 ∧ r.exit = Exit.grow_failed ∧ r.budget = 2 ∧ r.accumulated = 3 ∧
      r.samples = 3 ∧ ¬ r.samples ≤ r.budget) h (by decide)
  exact ⟨r, h, hb⟩

end Claims3

section Claims4

variable {D U S : Type}

/-- Claim C13: in a pass of the decode loop that reaches the frame decoder (the growth step gave
the state `s1`), when the decoder returns zero samples, the pass goes round again exactly when
the reported frame length is nonzero and leaves the loop otherwise; and the state `t` after the
pass has the info structure (sample count, channel count, rate, layer), the accumulated
samples, the bitrate accumulator, the frame counter, the pending delay, the return code and the
callback record of the state `s` before it: only the cursor moved, by the reported length (in
whole-buffer mode `buf` and `buf_size`, in bounded-window mode `consumed`). -/
theorem empty_frame_is_skipped (env : Env D) (io : Option (IoOps S))
    (cb : Option (ProgressCb U)) (s s1 : St D U S)
    (hgrow : growStep env (logStart s) = Sum.inl s1)
    (hzero : (fetchStep env io s1).samples = 0) :
    decodeStep env io cb s
      = (if (fetchStep env io s1).frame_info.frame_bytes ≠ 0 then Flow.next (fetchStep env io s1)
         else Flow.leave (fetchStep env io s1)) ∧
    (fetchStep env io s1).info = s.info ∧
    readRange 0 (fetchStep env io s1).out 0 s.info.samples = readRange 0 s.out 0 s.info.samples ∧
    (fetchStep env io s1).avg_bitrate_kbps = s.avg_bitrate_kbps ∧
    (fetchStep env io s1).frames = s.frames ∧
    (fetchStep env io s1).to_skip = s.to_skip ∧
    (fetchStep env io s1).ret = s.ret ∧
    (fetchStep env io s1).cbs = s.cbs ∧
    (io = none →
      (fetchStep env io s1).buf = s.buf.drop (fetchStep env io s1).frame_info.frame_bytes ∧
      (fetchStep env io s1).buf_size
        = subSize s.buf_size (fetchStep env io s1).frame_info.frame_bytes) ∧
    (∀ ops, io = some ops →
      (fetchStep env io s1).consumed
        = (decodeRefill env ops s1).consumed + (fetchStep env io s1).frame_info.frame_bytes ∧
      (fetchStep env io s1).filled = (decodeRefill env ops s1).filled) := by
  obtain ⟨g, n, hs1, -⟩ := growStep_inl hgrow
  have hstep : decodeStep env io cb s = accountStep cb env (fetchStep env io s1) := by
    unfold decodeStep
    rw [hgrow]
  obtain ⟨o, buf, buf_size, filled, consumed, eof, io_data, io_calls, wpts, -, hf⟩ :=
    fetchStep_eq env io s1
  refine ⟨?_, ?_, ?_, ?_, ?_, ?_, ?_, ?_, ?_, ?_⟩
  · rw [hstep]
    unfold accountStep
    rw [if_neg (not_not.mpr hzero)]
  · rw [hf, hs1]
    rfl
  · rw [hf, hs1]
    exact readRange_writeAt_below 0 s.out s.info.samples o.pcm
  · rw [hf, hs1]
    rfl
  · rw [hf, hs1]
    rfl
  · rw [hf, hs1]
    rfl
  · rw [hf, hs1]
    rfl
  · rw [hf, hs1]
    rfl
  · intro hio
    subst hio
    rw [hs1]
    exact ⟨rfl, rfl⟩
  · intro ops hio
    subst hio
    exact ⟨rfl, rfl⟩

/-- Claim C13 at a concrete input: at the head of the decode loop with the bytes `0, 1` left, the
byte `0` decodes to zero samples with an advance of one byte: the pass goes round again with the
byte `1` left and nothing else changed; with no bytes left the decoder reports zero samples and
no advance, and the loop is left. -/
theorem empty_frame_is_skipped_witness :
    decodeStep (toyEnv 1 noVbr allocAlways) none none (loopHead [0, 1])
      = Flow.next (fetchStep (toyEnv 1 noVbr allocAlways) none (logStart (loopHead [0, 1]))) ∧
    (fetchStep (toyEnv 1 noVbr allocAlways) none (logStart (loopHead [0, 1]))).info
      = (loopHead [0, 1]).info ∧
    (fetchStep (toyEnv 1 noVbr allocAlways) none (logStart (loopHead [0, 1]))).buf = [1] ∧
    (fetchStep (toyEnv 1 noVbr allocAlways) none (logStart (loopHead [0, 1]))).buf_size = 1 ∧
    decodeStep (toyEnv 1 noVbr allocAlways) none none (loopHead [])
      = Flow.leave (fetchStep (toyEnv 1 noVbr allocAlways) none (logStart (loopHead []))) := by
  have h1 := empty_frame_is_skipped (toyEnv 1 noVbr allocAlways) (none : Option (IoOps Unit))
    (none : Option (ProgressCb Unit)) (loopHead [0, 1]) (logStart (loopHead [0, 1])) rfl rfl
  have h2 := empty_frame_is_skipped (toyEnv 1 noVbr allocAlways) (none : Option (IoOps Unit))
    (none : Option (ProgressCb Unit)) (loopHead []) (logStart (loopHead [])) rfl rfl
  obtain ⟨a1, a2, -, -, -, -, -, -, a9, -⟩ := h1
  refine ⟨a1, a2, (a9 rfl).1, (a9 rfl).2, h2.1⟩

end Claims4

section Claims5

variable {D U S : Type}

theorem validArgs_of_not_bad {env : Env D} {a : Args D U S} (h : ¬ BadArgs env a) :
    ValidArgs env a := by
  unfold BadArgs at h
  simp only [not_or, not_and, not_lt] at h
  obtain ⟨h1, h2, h3, h4, h5⟩ := h
  exact ⟨Option.ne_none_iff_isSome.mp h1, Option.ne_none_iff_isSome.mp h2,
    Option.ne_none_iff_isSome.mp h3, h4, h5⟩

/-- With arguments that fail the parameter check the call is the parameter error. -/
theorem load_cb_bad_args {env : Env D} {a : Args D U S} (hbad : BadArgs env a) (fuel : Nat) :
    mp3dec_load_cb env a fuel = some (paramError env a) := by
  unfold mp3dec_load_cb
  split
  · rename_i dec buf i hd hb hi
    rcases hbad with h | h | h | h | h
    · rw [hd] at h; simp at h
    · rw [hb] at h; simp at h
    · rw [hi] at h; simp at h
    · rw [if_pos (Or.inl h)]
    · rw [if_pos (Or.inr h)]
  · rfl

end Claims5

section Window

variable {D U S : Type}

theorem length_window_le (p : List Byte) (off len : Nat) : (window p off len).length ≤ len := by
  simp only [window, List.length_take]
  exact Nat.min_le_left _ _

theorem winOk_append {cap : Nat} {ws : List WinRec} (h : WinOk cap ws) {c f : Nat}
    (h1 : c ≤ f) (h2 : f ≤ cap) : WinOk cap (ws ++ [{ consumed := c, filled := f }]) := by
  intro w hw
  rcases List.mem_append.mp hw with hw | hw
  · exact h w hw
  · rw [List.mem_singleton.mp hw]
    exact ⟨h1, h2⟩

theorem winInv_markWin {cap : Nat} {s : St D U S} (h : WinInv cap s) : WinInv cap (markWin s) :=
  ⟨h.1, h.2.1, h.2.2.1, winOk_append h.2.2.2 h.2.1 h.2.2.1⟩

theorem strip_le {env : Env D} (hstrip : TagStripShrinks env) (buf : List Byte)
    {f cap : Nat} (lim : Nat) (hf : f ≤ cap) :
    (if f < lim then env.mp3dec_skip_id3v1 (window buf 0 f) else f) ≤ cap := by
  split_ifs
  · exact le_trans (hstrip _) (le_trans (length_window_le _ _ _) hf)
  · exact hf

theorem probe_fill_le {n1 n2 id3 cap : Nat} (h3 : ¬ id3 ≠ n1) (h7 : ¬ n2 > subSize cap id3)
    (hle : id3 ≤ cap) : n1 + n2 ≤ cap := by
  rw [subSize_of_le hle] at h7
  have := not_not.mp h3
  omega

/-- The tag skip of bounded-window mode establishes the window invariant. -/
theorem tagSkipIo_win (env : Env D) (ops : IoOps S) (hstrip : TagStripShrinks env)
    (hconst : env.MINIMP3_ID3_DETECT_SIZE ≤ env.MINIMP3_BUF_SIZE) (s : St D U S)
    (hcap : env.MINIMP3_BUF_SIZE ≤ s.buf_size) (hw : s.wpts = []) (hc : s.consumed = 0) :
    Sum.elim (WinInv s.buf_size) (fun r => WinOk s.buf_size r.wpts) (tagSkipIo env ops s) := by
  have hnil : WinOk s.buf_size ([] : List WinRec) := fun w hw => by simp at hw
  have hle : env.MINIMP3_ID3_DETECT_SIZE ≤ s.buf_size := le_trans hconst hcap
  unfold tagSkipIo
  simp only
  split_ifs with c1 c2 c3 c4 c5 c6 c7 <;>
    simp only [Sum.elim_inl, Sum.elim_inr, mkResult, doSeek, doRead, hw] <;>
    first
      | exact hnil
      | exact winInv_markWin ⟨rfl, le_of_eq_of_le hc (Nat.zero_le _),
          strip_le hstrip _ _ (Nat.le_of_not_gt c6), hnil⟩
      | exact winInv_markWin ⟨rfl, le_of_eq_of_le hc (Nat.zero_le _),
          strip_le hstrip _ _ (probe_fill_le c3 c7 hle), hnil⟩

/-- The refill of the probe loop keeps the window invariant. -/
theorem probeRefill_win (env : Env D) (ops : IoOps S) (hstrip : TagStripShrinks env)
    {cap : Nat} {s : St D U S} (h : WinInv cap s) :
    Sum.elim (WinInv cap) (fun r => WinOk cap r.wpts) (probeRefill env ops s) := by
  obtain ⟨h1, h2, h3, h4⟩ := h
  have hsub : subSize s.filled s.consumed = s.filled - s.consumed := subSize_of_le h2
  have hsub2 : subSize s.buf_size (s.filled - s.consumed)
      = s.buf_size - (s.filled - s.consumed) := subSize_of_le (by omega)
  unfold probeRefill
  simp only
  split_ifs <;>
    simp only [Sum.elim_inl, Sum.elim_inr, mkResult, doRead, compact, hsub, hsub2] at * <;>
    first
      | exact h4
      | exact ⟨h1, h2, h3, h4⟩
      | (refine winInv_markWin ⟨h1, Nat.zero_le _, ?_, h4⟩
         dsimp only
         first
           | omega
           | (refine le_trans (hstrip _) (le_trans (length_window_le _ _ _) ?_)
              omega))

/-- The refill of the decode loop keeps the window invariant when reads are bounded. -/
theorem decodeRefill_win (env : Env D) (ops : IoOps S) (hread : ReadsBounded ops)
    (hstrip : TagStripShrinks env) {cap : Nat} {s : St D U S} (h : WinInv cap s) :
    WinInv cap (decodeRefill env ops s) := by
  obtain ⟨h1, h2, h3, h4⟩ := h
  have hsub : subSize s.filled s.consumed = s.filled - s.consumed := subSize_of_le h2
  have hsub2 : subSize s.buf_size (s.filled - s.consumed)
      = s.buf_size - (s.filled - s.consumed) := subSize_of_le (by omega)
  have hr := hread s.io_data (s.buf_size - (s.filled - s.consumed))
  unfold decodeRefill
  simp only
  split_ifs <;>
    simp only [doRead, compact, hsub, hsub2] at * <;>
    first
      | exact ⟨h1, h2, h3, h4⟩
      | (refine winInv_markWin ⟨h1, Nat.zero_le _, ?_, h4⟩
         dsimp only
         first
           | omega
           | (refine le_trans (hstrip _) (le_trans (length_window_le _ _ _) ?_)
              omega))

end Window

section Window2

variable {D U S : Type}

/-- What the probe loop does with a located frame keeps the window invariant, when the frame
lies in the filled part of the window. -/
theorem probeFrame_win (env : Env D) (ops : IoOps S) {cap : Nat} {s : St D U S}
    (h : WinInv cap s) (i frame_size : Nat) (hdr : List Byte)
    (hadv : s.consumed + frame_size ≤ s.filled) :
    Flow.sat (WinInv cap) (WinInv cap) (fun r => WinOk cap r.wpts)
      (probeFrame env (some ops) s i frame_size hdr) := by
  unfold probeFrame
  simp only
  split_ifs <;> first
    | exact h
    | exact h.2.2.2
    | exact winInv_markWin ⟨h.1, hadv, h.2.2.1, h.2.2.2⟩

/-- One pass of the probe loop keeps the window invariant. -/
theorem probeStep_win (env : Env D) (ops : IoOps S) (hstrip : TagStripShrinks env)
    (hloc : LocatorInWindow env) {cap : Nat} {s : St D U S} (h : WinInv cap s) :
    Flow.sat (WinInv cap) (WinInv cap) (fun r => WinOk cap r.wpts)
      (probeStep env (some ops) s) := by
  have hr := probeRefill_win env ops hstrip h
  unfold probeStep
  simp only
  cases hq : probeRefill env ops s with
  | inr r =>
    rw [hq] at hr
    exact hr
  | inl s1 =>
    rw [hq] at hr
    simp only [Sum.elim_inl] at hr ⊢
    obtain ⟨h1, h2, h3, h4⟩ := hr
    have hw := hloc (window s1.buf s1.consumed (subSize s1.filled s1.consumed))
    have hl := length_window_le s1.buf s1.consumed (subSize s1.filled s1.consumed)
    rw [subSize_of_le h2] at hl hw
    rw [subSize_of_le h2]
    have hs2 : WinInv cap { s1 with consumed := s1.consumed +
        (env.mp3d_find_frame (window s1.buf s1.consumed (s1.filled - s1.consumed))).1 } :=
      ⟨h1, show s1.consumed + _ ≤ s1.filled by omega, h3, h4⟩
    refine probeFrame_win env ops (winInv_markWin hs2) _ _ _ ?_
    show s1.consumed + _ + _ ≤ s1.filled
    omega

theorem allocate_win (env : Env D) {cap : Nat} {s : St D U S} (h : WinInv cap s) :
    Sum.elim (WinInv cap) (fun r => WinOk cap r.wpts) (allocate env s) := by
  unfold allocate
  simp only
  split_ifs <;> first
    | exact h
    | exact h.2.2.2

theorem notify_append_win (cb : Option (ProgressCb U)) {cap : Nat} {t : St D U S}
    (h : WinInv cap t) : WinInv cap (notify cb (appendFrame t)) := by
  cases cb <;> exact h

theorem accountStep_win (env : Env D) (cb : Option (ProgressCb U)) {cap : Nat} {s : St D U S}
    (h : WinInv cap s) :
    Flow.sat (WinInv cap) (WinInv cap) (fun r => WinOk cap r.wpts) (accountStep cb env s) := by
  have hch : WinInv cap { s with info := { s.info with channels := 0 } } := h
  unfold accountStep
  split_ifs
  · exact h
  · dsimp only
    split_ifs <;> exact notify_append_win cb hch
  · dsimp only
    split_ifs <;> exact notify_append_win cb h
  · exact h
  · exact h

/-- One pass of the decode loop keeps the window invariant. -/
theorem decodeStep_win (env : Env D) (ops : IoOps S) (cb : Option (ProgressCb U))
    (hread : ReadsBounded ops) (hstrip : TagStripShrinks env) (hdec : DecoderInWindow env)
    {cap : Nat} {s : St D U S} (h : WinInv cap s) :
    Flow.sat (WinInv cap) (WinInv cap) (fun r => WinOk cap r.wpts)
      (decodeStep env (some ops) cb s) := by
  unfold decodeStep
  cases hg : growStep env (logStart s) with
  | inr r =>
    rw [(growStep_inr hg).2]
    exact h.2.2.2
  | inl s1 =>
    obtain ⟨g, n, hs1, -⟩ := growStep_inl hg
    have h1 : WinInv cap s1 := by
      rw [hs1]
      exact h
    have h2 := decodeRefill_win env ops hread hstrip h1
    simp only
    refine accountStep_win env cb ?_
    unfold fetchStep
    simp only
    obtain ⟨a1, a2, a3, a4⟩ := h2
    have hw := hdec (decodeRefill env ops s1).dec
      (window (decodeRefill env ops s1).buf (decodeRefill env ops s1).consumed
        (subSize (decodeRefill env ops s1).filled (decodeRefill env ops s1).consumed))
    have hl := length_window_le (decodeRefill env ops s1).buf (decodeRefill env ops s1).consumed
      (subSize (decodeRefill env ops s1).filled (decodeRefill env ops s1).consumed)
    rw [subSize_of_le a2] at hl hw
    rw [subSize_of_le a2]
    have hs2 : WinInv cap { storeFrame (decodeRefill env ops s1)
          (env.mp3dec_decode_frame (decodeRefill env ops s1).dec
            (window (decodeRefill env ops s1).buf (decodeRefill env ops s1).consumed
              ((decodeRefill env ops s1).filled - (decodeRefill env ops s1).consumed))) with
        consumed := (decodeRefill env ops s1).consumed +
          (env.mp3dec_decode_frame (decodeRefill env ops s1).dec
            (window (decodeRefill env ops s1).buf (decodeRefill env ops s1).consumed
              ((decodeRefill env ops s1).filled
                - (decodeRefill env ops s1).consumed))).info.frame_bytes } :=
      ⟨a1, show (decodeRefill env ops s1).consumed + _ ≤ (decodeRefill env ops s1).filled by omega,
        a3, a4⟩
    exact winInv_markWin hs2

theorem finish_wpts (env : Env D) (s : St D U S) : (finish env s).wpts = s.wpts := by
  unfold finish
  simp only
  split_ifs <;> rfl

/-- Everything after the tag skip keeps the recorded window bounds in order. -/
theorem decodeAll_win (env : Env D) (ops : IoOps S) (cb : Option (ProgressCb U))
    (hread : ReadsBounded ops) (hstrip : TagStripShrinks env) (hloc : LocatorInWindow env)
    (hdec : DecoderInWindow env) {cap : Nat} {fuel : Nat} {s : St D U S} {r : Result U S}
    (hs : WinInv cap s) (h : decodeAll env (some ops) cb fuel s = some r) :
    WinOk cap r.wpts := by
  have hs1 : WinInv cap { s with dec := env.mp3dec_init s.dec } := hs
  have hp := iterate_spec (probeStep env (some ops)) (WinInv cap) (WinInv cap)
    (fun r => WinOk cap r.wpts) (fun t ht => probeStep_win env ops hstrip hloc ht) fuel _ hs1
  unfold decodeAll at h
  cases hq : iterate (probeStep env (some ops)) fuel { s with dec := env.mp3dec_init s.dec } with
  | none => rw [hq] at h; simp at h
  | some x =>
    rw [hq] at h hp
    cases x with
    | inr r1 =>
      simp only [Option.some.injEq] at h
      subst h
      exact hp
    | inl s1 =>
      simp only at h hp
      have ha := allocate_win env hp
      cases hq2 : allocate env s1 with
      | inr r1 =>
        rw [hq2] at h ha
        simp only [Option.some.injEq] at h
        subst h
        exact ha
      | inl s2 =>
        rw [hq2] at h ha
        simp only [Sum.elim_inl] at h ha
        have hd := iterate_spec (decodeStep env (some ops) cb) (WinInv cap) (WinInv cap)
          (fun r => WinOk cap r.wpts)
          (fun t ht => decodeStep_win env ops cb hread hstrip hdec ht) fuel _ ha
        cases hq3 : iterate (decodeStep env (some ops) cb) fuel s2 with
        | none => rw [hq3] at h; simp at h
        | some y =>
          rw [hq3] at h hd
          cases y with
          | inr r1 =>
            simp only [Option.some.injEq] at h
            subst h
            exact hd
          | inl s3 =>
            simp only [Option.some.injEq] at h
            subst h
            rw [finish_wpts]
            exact hd.2.2.2

end Window2

section Claims6

variable {D U S : Type}

theorem toyEnv_locator (spf : Nat) (vbr : VbrTag) (alloc : Nat → Nat → Bool) :
    LocatorInWindow (toyEnv spf vbr alloc) := by
  intro w
  have h := List.takeWhile_append_dropWhile (fun b => decide (b = 0)) w
  have hl := congrArg List.length h
  rw [List.length_append] at hl
  show (w.takeWhile fun b => decide (b = 0)).length
    + (if (w.dropWhile fun b => decide (b = 0)) = [] then 0 else 1) ≤ w.length
  split_ifs with hc
  · omega
  · have := List.length_pos.mpr hc
    omega

theorem toyEnv_decoder (spf : Nat) (vbr : VbrTag) (alloc : Nat → Nat → Bool) :
    DecoderInWindow (toyEnv spf vbr alloc) := by
  intro d w
  show (toyDecode spf w).info.frame_bytes ≤ w.length
  unfold toyDecode
  cases w with
  | nil => simp [zeroFrameInfo]
  | cons b bs =>
    simp only
    split_ifs <;> simp [zeroFrameInfo]

theorem listIo_bounded : ReadsBounded listIo := by
  intro d n
  show ((d.1.drop d.2).take n).length ≤ n
  rw [List.length_take]
  exact Nat.min_le_left _ _

/-- Claim C15: in bounded-window mode, when every read delivers at most the bytes requested,
the frame the locator reports and the advance the decoder reports lie in the window they were
given, and stripping an ID3v1 tag does not lengthen the data (with `MINIMP3_ID3_DETECT_SIZE` at
most `MINIMP3_BUF_SIZE`), then at every recorded point of the call (after the tag skip, after
every refill, after every locator skip, after every frame advance)
`consumed ≤ filled ≤ capacity`, so that the unsigned difference `filled - consumed` does not
wrap around. -/
theorem window_bounds_hold {env : Env D} {a : Args D U S} {fuel : Nat} {r : Result U S}
    {ops : IoOps S} (hio : a.io = some ops) (hread : ReadsBounded ops)
    (hloc : LocatorInWindow env) (hdec : DecoderInWindow env) (hstrip : TagStripShrinks env)
    (hconst : env.MINIMP3_ID3_DETECT_SIZE ≤ env.MINIMP3_BUF_SIZE)
    (hrun : mp3dec_load_cb env a fuel = some r) :
    ∀ w ∈ r.wpts, w.consumed ≤ w.filled ∧ w.filled ≤ a.buf_size ∧
      subSize w.filled w.consumed = w.filled - w.consumed := by
  have hok : WinOk a.buf_size r.wpts := by
    by_cases hbad : BadArgs env a
    · rw [load_cb_bad_args hbad fuel] at hrun
      rw [← Option.some.inj hrun]
      intro w hw
      simp [paramError] at hw
    · have hv := validArgs_of_not_bad hbad
      obtain ⟨dec, buf, -, -, hcall⟩ := load_cb_bounded hv hio fuel
      rw [hcall] at hrun
      have hcap : env.MINIMP3_BUF_SIZE ≤ a.buf_size := hv.2.2.2.2 (by rw [hio]; rfl)
      have ht := tagSkipIo_win env ops hstrip hconst (initSt dec buf a) hcap rfl rfl
      cases hq : tagSkipIo env ops (initSt dec buf a) with
      | inr r1 =>
        rw [hq] at hrun ht
        simp only [Option.some.injEq] at hrun
        subst hrun
        exact ht
      | inl s1 =>
        rw [hq] at hrun ht
        exact decodeAll_win env ops a.progress_cb hread hstrip hloc hdec ht hrun
  intro w hw
  exact ⟨(hok w hw).1, (hok w hw).2, subSize_of_le (hok w hw).1⟩

/-- Claim C15 at a concrete input: the ten-frame stream read through a window of
`MINIMP3_BUF_SIZE` bytes; the window bounds are recorded 14 times, and each time
`consumed ≤ filled ≤ 16384`. -/
theorem window_bounds_hold_witness :
    ∃ r, mp3dec_load_cb (toyEnv 1 noVbr allocAlways) tenFramesIo 20 = some r ∧
      r.wpts.length = 14 ∧ ∀ w ∈ r.wpts, w.consumed ≤ w.filled ∧ w.filled ≤ 16384 := by
  obtain ⟨r, h⟩ := run_of_isSome
    (show (mp3dec_load_cb (toyEnv 1 noVbr allocAlways) tenFramesIo 20).isSome = true by decide)
  have hthm := window_bounds_hold (rfl : tenFramesIo.io = some listIo) listIo_bounded
    (toyEnv_locator 1 noVbr allocAlways) (toyEnv_decoder 1 noVbr allocAlways)
    (fun w => Nat.le_refl _) (by decide) h
  have hlen := holds_of_run (fun r => r.wpts.length = 14) h (by decide)
  exact ⟨r, h, hlen, fun w hw => ⟨(hthm w hw).1, (hthm w hw).2.1⟩⟩

end Claims6

section Claims7

variable {D U S : Type}

/-- The shrink-to-fit step, when the reallocation is attempted and fails: the step returns
through the out-of-memory error exactly when the cut sample count is nonzero. -/
theorem finish_failed_shrink (env : Env D) (s : St D U S)
    (hneed : s.allocated ≠ cutTo s.detected_samples s.info.samples * env.sizeof_sample)
    (hfail : env.alloc_ok s.nalloc (cutTo s.detected_samples s.info.samples * env.sizeof_sample)
      = false) :
    ((finish env s).exit = Exit.shrink_failed ↔ cutTo s.detected_samples s.info.samples ≠ 0) ∧
    ((finish env s).exit = Exit.shrink_failed → (finish env s).ret = env.MP3D_E_MEMORY) ∧
    (cutTo s.detected_samples s.info.samples = 0 →
      (finish env s).exit = Exit.done ∧ (finish env s).ret = s.ret ∧
      (finish env s).info.map (fun i => i.buffer) = some none) := by
  unfold finish
  unfold cutTo at hneed hfail ⊢
  by_cases hcut : s.detected_samples ≠ 0 ∧ s.info.samples > s.detected_samples
  · simp only [hcut, and_self, if_true] at hneed hfail ⊢
    split_ifs <;> simp_all [mkResult]
  · simp only [hcut, if_false] at hneed hfail ⊢
    split_ifs <;> simp_all [mkResult]

/-- Claim C16: on every return that passes the shrink-to-fit step, the returned buffer holds
exactly as many samples as the returned sample count (a null buffer holds none); a return
through the failed shrink has the code `MP3D_E_MEMORY` and a nonzero sample count; and when the
shrink reallocation is attempted and fails, the step returns the out-of-memory error if and
only if the final sample count is nonzero: with a count of zero it returns the code of the loop
with a null buffer. -/
theorem shrink_to_fit_is_exact (env : Env D) (a : Args D U S) (fuel : Nat) :
    (∀ r, mp3dec_load_cb env a fuel = some r → r.exit = Exit.done →
      r.contents.length = r.samples) ∧
    (∀ r, mp3dec_load_cb env a fuel = some r → r.exit = Exit.shrink_failed →
      r.ret = env.MP3D_E_MEMORY ∧ r.samples ≠ 0) ∧
    (∀ s : St D U S,
      s.allocated ≠ cutTo s.detected_samples s.info.samples * env.sizeof_sample →
      env.alloc_ok s.nalloc (cutTo s.detected_samples s.info.samples * env.sizeof_sample)
        = false →
      ((finish env s).exit = Exit.shrink_failed ↔
        cutTo s.detected_samples s.info.samples ≠ 0) ∧
      ((finish env s).exit = Exit.shrink_failed → (finish env s).ret = env.MP3D_E_MEMORY) ∧
      (cutTo s.detected_samples s.info.samples = 0 →
        (finish env s).exit = Exit.done ∧ (finish env s).ret = s.ret ∧
        (finish env s).info.map (fun i => i.buffer) = some none)) := by
  refine ⟨fun r hrun hdone => ?_, fun r hrun hsf => ?_, fun s h1 h2 => finish_failed_shrink env s h1 h2⟩
  · rcases run_cases hrun with h | h | ⟨s0, hE, ⟨s, -, -, -, h⟩ | ⟨s3, ks, k, hkn, hx, h⟩⟩
    · rw [h] at hdone
      exact absurd hdone (by simp [paramError])
    · exact absurd hdone (early_exit_ne h).1
    · rw [h] at hdone
      exact absurd hdone (by simp [growFailure, mkResult])
    · obtain ⟨-, -, -, -, -, -, f7⟩ := finish_spec env s3
      rw [← h] at f7
      rcases f7 with ⟨hsf, -⟩ | ⟨-, -, hcont, b, hinfo⟩
      · rw [hsf] at hdone
        exact absurd hdone (by decide)
      · rw [hcont, length_readRange, Result.samples, hinfo]
  · rcases run_cases hrun with h | h | ⟨s0, hE, ⟨s, -, -, -, h⟩ | ⟨s3, ks, k, hkn, hx, h⟩⟩
    · rw [h] at hsf
      exact absurd hsf (by simp [paramError])
    · exact absurd hsf (early_exit_ne h).2.1
    · rw [h] at hsf
      exact absurd hsf (by simp [growFailure, mkResult])
    · obtain ⟨-, -, -, -, -, -, f7⟩ := finish_spec env s3
      rw [← h] at f7
      rcases f7 with ⟨-, hret, hne, -, hs⟩ | ⟨hd, -⟩
      · exact ⟨hret, by rw [hs]; exact hne⟩
      · rw [hd] at hsf
        exact absurd hsf (by decide)

/-- Claim C16 at concrete inputs, with an allocator that refuses everything after the first
request.  Ten frames: the shrink to 10 samples fails, and the call returns `MP3D_E_MEMORY`
(here `-2`).  A stream that holds only a VBR directory frame: the shrink to 0 samples fails as
well, and the call returns `0` with an empty buffer. -/
theorem shrink_to_fit_is_exact_witness :
    (∃ r, mp3dec_load_cb (toyEnv 1 noVbr allocFirstOnly) (bufArgs tenFrames none) 20 = some r ∧
      r.ret = -2 ∧ r.samples ≠ 0) ∧
    (∃ r, mp3dec_load_cb (toyEnv 1 vbrTwo allocFirstOnly) (bufArgs vbrOnlyStream none) 20
        = some r ∧ r.ret = 0 ∧ r.contents.length = r.samples ∧ r.samples = 0) := by
  obtain ⟨r1, h1⟩ := run_of_isSome
    (show (mp3dec_load_cb (toyEnv 1 noVbr allocFirstOnly)
      (bufArgs tenFrames none) 20).isSome = true by decide)
  obtain ⟨r2, h2⟩ := run_of_isSome
    (show (mp3dec_load_cb (toyEnv 1 vbrTwo allocFirstOnly)
      (bufArgs vbrOnlyStream none) 20).isSome = true by decide)
  have e1 := holds_of_run (fun r => r.exit = Exit.shrink_failed) h1 (by decide)
  have e2 := holds_of_run (fun r => r.exit = Exit.done ∧ r.ret = 0 ∧ r.samples = 0) h2
    (by decide)
  have t1 := (shrink_to_fit_is_exact (toyEnv 1 noVbr allocFirstOnly)
    (bufArgs tenFrames none) 20).2.1 r1 h1 e1
  have t2 := (shrink_to_fit_is_exact (toyEnv 1 vbrTwo allocFirstOnly)
    (bufArgs vbrOnlyStream none) 20).1 r2 h2 e2.1
  exact ⟨⟨r1, h1, t1.1, t1.2⟩, ⟨r2, h2, e2.2.1, t2, e2.2.2⟩⟩

end Claims7

section Claims11

variable {D U S : Type}

/-- A loop whose body commutes with a change of the state commutes with it. -/
theorem iterate_comm {σ ρ : Type} (step : σ → Flow σ ρ) (f : σ → σ) (g : Flow σ ρ → Flow σ ρ)
    (hn : ∀ s, g (Flow.next s) = Flow.next (f s)) (hl : ∀ s, g (Flow.leave s) = Flow.leave (f s))
    (hr : ∀ r, g (Flow.ret r) = Flow.ret r)
    (h : ∀ s, step (f s) = g (step s)) :
    ∀ (fuel : Nat) (s : σ),
      iterate step fuel (f s) = (iterate step fuel s).map (Sum.map f id) := by
  intro fuel
  induction fuel with
  | zero => intro s; rfl
  | succ n ih =>
    intro s
    simp only [iterate]
    rw [h s]
    cases hq : step s with
    | next s1 =>
      rw [hn]
      exact ih s1
    | leave s1 =>
      rw [hl]
      rfl
    | ret r =>
      rw [hr]
      rfl

theorem probeFrame_withDec (env : Env D) (io : Option (IoOps S)) (d : D) (s : St D U S)
    (i frame_size : Nat) (hdr : List Byte) :
    probeFrame env io (s.withDec d) i frame_size hdr
      = (probeFrame env io s i frame_size hdr).withDec d := by
  unfold probeFrame
  by_cases c1 : i ≠ 0 ∧ frame_size = 0
  · rw [if_pos c1, if_pos c1]
    rfl
  · rw [if_neg c1, if_neg c1]
    by_cases c2 : frame_size = 0
    · rw [if_pos c2, if_pos c2]
      rfl
    · rw [if_neg c2, if_neg c2]
      simp only
      by_cases c3 : (3 : Int) ≠ 4 - (env.HDR_GET_LAYER hdr : Int)
      · rw [if_pos c3, if_pos c3]
        rfl
      · rw [if_neg c3, if_neg c3]
        by_cases c4 : (env.mp3dec_check_vbrtag hdr frame_size).ret > 0
        · have c5 : (env.mp3dec_check_vbrtag hdr frame_size).ret ≠ 0 := by omega
          simp only [c4, if_true, true_and, c5, ne_eq, not_false_eq_true]
          split_ifs <;> first
            | rfl
            | (cases io <;> rfl)
        · simp only [c4, if_false, false_and]
          split_ifs <;> first
            | rfl
            | (cases io <;> rfl)

/-- The probe loop of whole-buffer mode does not look at the decoder state. -/
theorem probeStep_withDec (env : Env D) (d : D) (s : St D U S) :
    probeStep env (none : Option (IoOps S)) (s.withDec d)
      = (probeStep env (none : Option (IoOps S)) s).withDec d := by
  unfold probeStep
  exact probeFrame_withDec env none d
    { s with buf := s.buf.drop (env.mp3d_find_frame (window s.buf 0 s.buf_size)).1,
             buf_size := subSize s.buf_size (env.mp3d_find_frame (window s.buf 0 s.buf_size)).1 }
    _ _ _

theorem tagSkipBuf_withDec (env : Env D) (d : D) (s : St D U S) :
    tagSkipBuf env (s.withDec d) = Sum.map (St.withDec d) id (tagSkipBuf env s) := by
  unfold tagSkipBuf
  simp only [St.withDec, logStart]
  split_ifs <;> rfl

theorem allocate_withDec (env : Env D) (d : D) (s : St D U S) :
    allocate env (s.withDec d) = Sum.map (St.withDec d) id (allocate env s) := by
  unfold allocate
  simp only [St.withDec, logStart]
  split_ifs <;> rfl

theorem growStep_withDec (env : Env D) (d : D) (s : St D U S) :
    growStep env (logStart (s.withDec d))
      = Sum.map (St.withDec d) id (growStep env (logStart s)) := by
  unfold growStep
  simp only [St.withDec, logStart]
  split_ifs <;> rfl

/-- A pass of the decode loop of whole-buffer mode depends on the decoder state only through
what the frame decoder makes of it. -/
theorem decodeStep_dec_eq (env : Env D) (cb : Option (ProgressCb U)) (d1 d2 : D)
    (h : ∀ w, env.mp3dec_decode_frame d1 w = env.mp3dec_decode_frame d2 w) (s : St D U S) :
    decodeStep env (none : Option (IoOps S)) cb (s.withDec d1)
      = decodeStep env (none : Option (IoOps S)) cb (s.withDec d2) := by
  unfold decodeStep
  rw [growStep_withDec, growStep_withDec]
  cases growStep env (logStart s) with
  | inr r => rfl
  | inl s1 =>
    simp only [Sum.map_inl]
    have hf : fetchStep env (none : Option (IoOps S)) (s1.withDec d1)
        = fetchStep env (none : Option (IoOps S)) (s1.withDec d2) := by
      unfold fetchStep
      simp only
      show _ = _
      have hw := h (window s1.buf 0 (min s1.buf_size INT_MAX))
      simp only [St.withDec, storeFrame, logCall]
      rw [hw]
    rw [hf]

theorem iterate_first_step {σ ρ : Type} (step : σ → Flow σ ρ) {s t : σ}
    (h : step s = step t) (fuel : Nat) : iterate step fuel s = iterate step fuel t := by
  cases fuel with
  | zero => rfl
  | succ n => simp only [iterate, h]

/-- Everything after the tag skip, in whole-buffer mode, gives the same result from two states
that differ in the decoder state only, when `mp3dec_init` resets it. -/
theorem decodeAll_dec_eq (env : Env D) (hinit : InitResets env) (cb : Option (ProgressCb U))
    (fuel : Nat) (d1 d2 : D) (s : St D U S) :
    decodeAll env (none : Option (IoOps S)) cb fuel (s.withDec d1)
      = decodeAll env (none : Option (IoOps S)) cb fuel (s.withDec d2) := by
  have hp : ∀ d : D,
      iterate (probeStep env (none : Option (IoOps S))) fuel
          { s.withDec d with dec := env.mp3dec_init (s.withDec d).dec }
        = (iterate (probeStep env (none : Option (IoOps S))) fuel s).map
            (Sum.map (St.withDec (env.mp3dec_init d)) id) :=
    fun d => iterate_comm (probeStep env (none : Option (IoOps S)))
      (St.withDec (env.mp3dec_init d)) (Flow.withDec (env.mp3dec_init d))
      (fun _ => rfl) (fun _ => rfl) (fun _ => rfl)
      (fun t => probeStep_withDec env (env.mp3dec_init d) t) fuel s
  unfold decodeAll
  rw [hp d1, hp d2]
  cases iterate (probeStep env (none : Option (IoOps S))) fuel s with
  | none => rfl
  | some x =>
    cases x with
    | inr r => rfl
    | inl s1 =>
      simp only [Option.map_some', Sum.map_inl]
      rw [allocate_withDec, allocate_withDec]
      cases allocate env s1 with
      | inr r => rfl
      | inl s2 =>
        simp only [Sum.map_inl]
        rw [iterate_first_step (decodeStep env (none : Option (IoOps S)) cb)
          (decodeStep_dec_eq env cb _ _ (hinit d1 d2) s2) fuel]

/-- Claim C17: in whole-buffer mode, with a buffer and a size that pass the parameter check,
what the call delivers (the return code, the info structure, and everything else recorded of
the run) does not depend on what the decoder state and the info structure held before the
call, when `mp3dec_init` resets the decoder state: decoding the same input with the state and
the info an earlier call left behind gives the same result. -/
theorem result_independent_of_prior_state (env : Env D) (hinit : InitResets env)
    (a : Args D U S) (hio : a.io = none) (hbuf : a.buf.isSome) (hsize : a.buf_size ≠ SIZE_MAX)
    (d1 d2 : D) (i1 i2 : mp3dec_file_info_t) (fuel : Nat) :
    mp3dec_load_cb env { a with dec := some d1, info := some i1 } fuel
      = mp3dec_load_cb env { a with dec := some d2, info := some i2 } fuel := by
  obtain ⟨buf, hb⟩ := Option.isSome_iff_exists.mp hbuf
  have hcall : ∀ (d : D) (i : mp3dec_file_info_t),
      mp3dec_load_cb env { a with dec := some d, info := some i } fuel
        = match tagSkipBuf env ((initSt d buf a : St D U S)) with
          | Sum.inr r => some r
          | Sum.inl s => decodeAll env none a.progress_cb fuel s := by
    intro d i
    unfold mp3dec_load_cb
    simp only [hb, hio, hsize, Option.isSome_none, Bool.false_eq_true, false_and, or_self,
      if_false]
    rfl
  have hst : ∀ d : D, (initSt d buf a : St D U S) = (initSt d1 buf a : St D U S).withDec d :=
    fun _ => rfl
  rw [hcall d1 i1, hcall d2 i2, hst d2, tagSkipBuf_withDec]
  cases tagSkipBuf env (initSt d1 buf a : St D U S) with
  | inr r => rfl
  | inl s =>
    simp only [Sum.map_inl]
    have h1 : s = s.withDec s.dec := rfl
    rw [h1]
    exact decodeAll_dec_eq env hinit a.progress_cb fuel s.dec d2 s

/-- Claim C17 at a concrete input: a decoder whose state counts its calls and colours the
samples with the count.  The ten-frame stream decoded with a fresh decoder state and a zeroed
info structure, and decoded again with a decoder state that counts 77 and an info structure left
by another call, gives the same result. -/
theorem result_independent_of_prior_state_witness :
    mp3dec_load_cb countEnv (countArgs 0 zeroInfo tenFrames) 20
      = mp3dec_load_cb countEnv (countArgs 77 usedInfo tenFrames) 20 ∧
    ((mp3dec_load_cb countEnv (countArgs 77 usedInfo tenFrames) 20).map
      fun r => (r.ret, r.samples, r.contents))
      = some (0, 10, [1, 4, 7, 4, 7, 10, 7, 10, 13, 10]) :=
  ⟨result_independent_of_prior_state countEnv (fun _ _ _ => rfl)
      (countArgs 0 zeroInfo tenFrames) rfl rfl (by decide) 0 77 zeroInfo usedInfo 20,
    by decide⟩

end Claims11

section Claims9

variable {D U S : Type}

theorem startsOk_nil : StartsOk [] :=
  ⟨fun i hi => by simp at hi, List.Pairwise.nil⟩

/-- Recording the start of a pass keeps the recorded starts in order. -/
theorem startsOk_snoc {s0 s : St D U S} (hc : CountInv s0 s) (hi : StartsInv s) :
    StartsOk (s.starts ++ [{ to_skip := s.to_skip, acc := s.info.samples,
                              allocated := s.allocated }]) := by
  obtain ⟨⟨h1, h2⟩, h3⟩ := hi
  constructor
  · intro i hmem
    rcases List.mem_append.mp hmem with hm | hm
    · exact h1 i hm
    · rw [List.mem_singleton.mp hm]
      refine ⟨hc.nonneg, fun hne => ?_⟩
      rcases hc.either with h | h
      · exact absurd h hne
      · exact h
  · rw [List.pairwise_append]
    refine ⟨h2, List.pairwise_singleton _ _, fun x hx y hy => ?_⟩
    rw [List.mem_singleton.mp hy]
    exact h3 x hx

/-- A frame never adds to the pending delay. -/
theorem pass_to_skip_le {env : Env D} {cb : Option (ProgressCb U)} {s0 s s1 : St D U S}
    {k : CallRec} (hc : CountInv s0 s) (hp : Pass env cb s s1 k) : s1.to_skip ≤ s.to_skip := by
  by_cases hacc : k.accepted s.info.hz s.info.layer
  · rw [(hp.accepted hacc).to_skip]
    have hnn := hc.nonneg
    have hk : 0 ≤ k.skip := by
      unfold CallRec.skip
      rw [hp.k_to_skip]
      split_ifs
      · exact le_min (Int.ofNat_nonneg _) hnn
      · exact le_refl _
    omega
  · rw [(hp.rejected hacc).to_skip]

theorem startsInv_step {env : Env D} {cb : Option (ProgressCb U)} {s0 s s1 : St D U S}
    {k : CallRec} (hc : CountInv s0 s) (hi : StartsInv s) (hp : Pass env cb s s1 k) :
    StartsInv s1 := by
  have hle := pass_to_skip_le hc hp
  refine ⟨by rw [hp.starts]; exact startsOk_snoc hc hi, fun i hmem => ?_⟩
  rw [hp.starts] at hmem
  rcases List.mem_append.mp hmem with hm | hm
  · exact le_trans hle (hi.2 i hm)
  · rw [List.mem_singleton.mp hm]
    exact hle

/-- The decode loop, entered with a pending delay that is not negative, keeps the recorded
starts in order, however it ends. -/
theorem decode_loop_starts {env : Env D} {a : Args D U S} (io : Option (IoOps S))
    (cb : Option (ProgressCb U)) {s0 : St D U S} (hE : Entry env a s0)
    (hD : 0 ≤ s0.vbr_delay) (fuel : Nat) :
    loopSat (fun s3 => StartsOk s3.starts) (fun r => StartsOk r.starts)
      (iterate (decodeStep env io cb) fuel s0) := by
  have h0 : StartsInv s0 := by
    unfold StartsInv
    rw [hE.2.2.1]
    exact ⟨startsOk_nil, fun i hi => by simp at hi⟩
  refine iterate_spec (decodeStep env io cb)
    (fun s => Known env cb s0 s ∧ StartsInv s) _ _ ?_ fuel s0 ⟨known_refl cb hE, h0⟩
  intro s hs
  refine Flow.sat_mono (decodeStep_pass env io cb s) ?_ ?_ ?_
  · rintro s1 ⟨k, hp, -⟩
    exact ⟨known_step hs.1 hp, startsInv_step (hs.1.count hD) hs.2 hp⟩
  · rintro s1 ⟨k, hp, -⟩
    exact (startsInv_step (hs.1.count hD) hs.2 hp).1
  · rintro r ⟨-, hr⟩
    rw [hr]
    exact startsOk_snoc (hs.1.count hD) hs.2

/-- Claim C18: when the VBR directory parser reports a delay that is not negative, then at the
start of every pass of the decode loop the pending delay `to_skip` is not negative, a nonzero
pending delay goes with an accumulated sample count of zero, and the pending delay at a later
start is at most the one at an earlier start. -/
theorem pending_delay_only_falls {env : Env D} {a : Args D U S} {fuel : Nat} {r : Result U S}
    (hdelay : DelayNonneg env) (hrun : mp3dec_load_cb env a fuel = some r) :
    (∀ i ∈ r.starts, 0 ≤ i.to_skip ∧ (i.to_skip ≠ 0 → i.acc = 0)) ∧
    r.starts.Pairwise fun x y => y.to_skip ≤ x.to_skip := by
  have hok : StartsOk r.starts := by
    rcases load_cb_inv hrun with h | h | ⟨s0, hE, h⟩
    · rw [h]
      exact startsOk_nil
    · rw [h.2.2.1]
      exact startsOk_nil
    · have hD : 0 ≤ s0.vbr_delay := hE.2.2.2.2.2.2.2.2.2.2.2.1 hdelay
      have hl := decode_loop_starts a.io a.progress_cb hE hD fuel
      rcases h with h2 | ⟨s3, h2, h3⟩
      · rw [h2] at hl
        exact hl
      · rw [h2] at hl
        rw [h3, (finish_spec env s3).2.2.1]
        exact hl
  exact hok

/-- Claim C18 at a concrete input: behind a VBR directory with a delay of 1 and four frames of
one value each, the pending delay at the starts of the five passes is `1, 0, 0, 0, 0`, with
nothing accumulated at the first. -/
theorem pending_delay_only_falls_witness :
    ∃ r, mp3dec_load_cb (toyEnv 1 vbrFour allocAlways) (bufArgs vbrStream none) 20 = some r ∧
      (r.starts.map fun i => (i.to_skip, i.acc))
        = [(1, 0), (0, 0), (0, 1), (0, 2), (0, 3)] ∧
      (∀ i ∈ r.starts, 0 ≤ i.to_skip ∧ (i.to_skip ≠ 0 → i.acc = 0)) ∧
      r.starts.Pairwise fun x y => y.to_skip ≤ x.to_skip := by
  obtain ⟨r, h⟩ := run_of_isSome
    (show (mp3dec_load_cb (toyEnv 1 vbrFour allocAlways)
      (bufArgs vbrStream none) 20).isSome = true by decide)
  have hthm := pending_delay_only_falls (toyEnv_delay 1 vbrFour allocAlways (by decide)) h
  have hs := holds_of_run (fun r => (r.starts.map fun i => (i.to_skip, i.acc))
    = [(1, 0), (0, 0), (0, 1), (0, 2), (0, 3)]) h (by decide)
  exact ⟨r, h, hs, hthm.1, hthm.2⟩

end Claims9

section Claims10

variable {D U S : Type}

theorem subSize_le_add (a b : Nat) : subSize a b ≤ a + SIZE_MOD := by
  unfold subSize
  split_ifs <;> omega

/-- The probe loop goes round again only with the state it was given: the locator skipped
bytes and found no frame. -/
theorem probeFrame_next_sat (env : Env D) (io : Option (IoOps S)) (s : St D U S)
    (i frame_size : Nat) (hdr : List Byte) :
    Flow.sat (fun s1 => s1 = s ∧ i ≠ 0) (fun _ => True) (fun _ => True)
      (probeFrame env io s i frame_size hdr) := by
  unfold probeFrame
  by_cases c1 : i ≠ 0 ∧ frame_size = 0
  · rw [if_pos c1]
    exact ⟨rfl, c1.1⟩
  · rw [if_neg c1]
    by_cases c2 : frame_size = 0
    · rw [if_pos c2]
      trivial
    · rw [if_neg c2]
      simp only
      split_ifs <;> first
        | trivial
        | (cases io <;> trivial)

theorem probeFrame_next {env : Env D} {io : Option (IoOps S)} {s s1 : St D U S}
    {i frame_size : Nat} {hdr : List Byte}
    (h : probeFrame env io s i frame_size hdr = Flow.next s1) : s1 = s ∧ i ≠ 0 := by
  have hs := probeFrame_next_sat env io s i frame_size hdr
  rw [h] at hs
  exact hs

/-- In whole-buffer mode a pass of the probe loop that goes round again has strictly less of
the buffer left. -/
theorem probeStep_next_lt {env : Env D} (hskip : LocatorSkipBounded env) {s s1 : St D U S}
    (h : probeStep env (none : Option (IoOps S)) s = Flow.next s1) :
    s1.buf_size < s.buf_size := by
  unfold probeStep at h
  simp only at h
  obtain ⟨hs, hi⟩ := probeFrame_next h
  have hle := Nat.le_trans (hskip (window s.buf 0 s.buf_size)) (length_window_le _ _ _)
  rw [hs]
  show subSize s.buf_size _ < s.buf_size
  rw [subSize_of_le hle]
  omega

theorem notify_append_frame (cb : Option (ProgressCb U)) (t : St D U S) :
    (notify cb (appendFrame t)).buf_size = t.buf_size ∧
    (notify cb (appendFrame t)).frame_info = t.frame_info := by
  cases cb <;> exact ⟨rfl, rfl⟩

/-- The bookkeeping of a decoded frame goes round again only when the frame advanced the
cursor, and does not touch the cursor. -/
theorem accountStep_next_sat (env : Env D) (cb : Option (ProgressCb U)) (t : St D U S) :
    Flow.sat (fun t1 => t1.buf_size = t.buf_size ∧ t.frame_info.frame_bytes ≠ 0)
      (fun _ => True) (fun _ => True) (accountStep cb env t) := by
  unfold accountStep
  split_ifs with c1 c2 c3 c4
  · trivial
  · dsimp only
    split_ifs with d1 d2
    · trivial
    · refine ⟨(notify_append_frame cb _).1, ?_⟩
      rw [(notify_append_frame cb _).2] at d2
      exact d2
    · trivial
  · dsimp only
    split_ifs with d1 d2
    · trivial
    · refine ⟨(notify_append_frame cb _).1, ?_⟩
      rw [(notify_append_frame cb _).2] at d2
      exact d2
    · trivial
  · exact ⟨rfl, c4⟩
  · trivial

theorem accountStep_next {env : Env D} {cb : Option (ProgressCb U)} {t t1 : St D U S}
    (h : accountStep cb env t = Flow.next t1) :
    t1.buf_size = t.buf_size ∧ t.frame_info.frame_bytes ≠ 0 := by
  have hs := accountStep_next_sat env cb t
  rw [h] at hs
  exact hs

/-- In whole-buffer mode a pass of the decode loop that goes round again has strictly less of
the buffer left. -/
theorem decodeStep_next_lt {env : Env D} (hadv : DecoderInWindow env)
    {cb : Option (ProgressCb U)} {s s1 : St D U S}
    (h : decodeStep env (none : Option (IoOps S)) cb s = Flow.next s1) :
    s1.buf_size < s.buf_size := by
  unfold decodeStep at h
  cases hg : growStep env (logStart s) with
  | inr r =>
    rw [hg] at h
    exact absurd h (by simp)
  | inl s2 =>
    rw [hg] at h
    simp only at h
    obtain ⟨g, n, hs2, -⟩ := growStep_inl hg
    obtain ⟨h1, h2⟩ := accountStep_next h
    have hw := hadv s2.dec (window s2.buf 0 (min s2.buf_size INT_MAX))
    have hl := length_window_le s2.buf 0 (min s2.buf_size INT_MAX)
    have hb : s2.buf_size = s.buf_size := by rw [hs2]; rfl
    have hfb : (fetchStep env (none : Option (IoOps S)) s2).frame_info.frame_bytes
        = (env.mp3dec_decode_frame s2.dec (window s2.buf 0 (min s2.buf_size INT_MAX))).info.frame_bytes :=
      rfl
    have hbs : (fetchStep env (none : Option (IoOps S)) s2).buf_size
        = subSize s2.buf_size
            (env.mp3dec_decode_frame s2.dec
              (window s2.buf 0 (min s2.buf_size INT_MAX))).info.frame_bytes := rfl
    rw [h1, hbs, ← hb]
    rw [hfb] at h2
    have hm : min s2.buf_size INT_MAX ≤ s2.buf_size := Nat.min_le_left _ _
    rw [subSize_of_le (by omega)]
    omega

/-- A loop whose passes that go round again decrease a measure delivers within
`measure + 1` passes. -/
theorem iterate_terminates {σ ρ : Type} (step : σ → Flow σ ρ) (m : σ → Nat)
    (h : ∀ s s1, step s = Flow.next s1 → m s1 < m s) :
    ∀ (fuel : Nat) (s : σ), m s < fuel → ∃ x, iterate step fuel s = some x := by
  intro fuel
  induction fuel with
  | zero => intro s hs; omega
  | succ n ih =>
    intro s hs
    cases hq : step s with
    | next s1 =>
      obtain ⟨x, hx⟩ := ih s1 (by have := h s s1 hq; omega)
      exact ⟨x, by simp only [iterate, hq]; exact hx⟩
    | leave s1 => exact ⟨Sum.inl s1, by simp only [iterate, hq]⟩
    | ret r => exact ⟨Sum.inr r, by simp only [iterate, hq]⟩

theorem probeFrame_bound (env : Env D) (b : Nat) (s : St D U S) (hs : s.buf_size ≤ b)
    (i frame_size : Nat) (hdr : List Byte) :
    Flow.sat (fun s1 => s1.buf_size ≤ b) (fun s1 => s1.buf_size ≤ b + SIZE_MOD)
      (fun _ => True) (probeFrame env (none : Option (IoOps S)) s i frame_size hdr) := by
  have h1 : s.buf_size ≤ b + SIZE_MOD := Nat.le_trans hs (Nat.le_add_right _ _)
  have h2 : subSize s.buf_size frame_size ≤ b + SIZE_MOD :=
    Nat.le_trans (subSize_le_add _ _) (Nat.add_le_add_right hs _)
  unfold probeFrame
  by_cases c1 : i ≠ 0 ∧ frame_size = 0
  · rw [if_pos c1]
    exact hs
  · rw [if_neg c1]
    by_cases c2 : frame_size = 0
    · rw [if_pos c2]
      trivial
    · rw [if_neg c2]
      simp only
      split_ifs <;> trivial

/-- In whole-buffer mode the probe loop, entered with at most `b` bytes left, is left with at
most `b + SIZE_MOD` bytes left (the skip of a VBR directory frame longer than what is left wraps
around). -/
theorem probeStep_bound {env : Env D} (hskip : LocatorSkipBounded env) (b : Nat)
    (s : St D U S) (hs : s.buf_size ≤ b) :
    Flow.sat (fun s1 => s1.buf_size ≤ b) (fun s1 => s1.buf_size ≤ b + SIZE_MOD)
      (fun _ => True) (probeStep env (none : Option (IoOps S)) s) := by
  have hle := Nat.le_trans (hskip (window s.buf 0 s.buf_size)) (length_window_le _ _ _)
  have h2 : subSize s.buf_size (env.mp3d_find_frame (window s.buf 0 s.buf_size)).1 ≤ b := by
    rw [subSize_of_le hle]
    omega
  unfold probeStep
  exact probeFrame_bound env b
    { s with buf := s.buf.drop (env.mp3d_find_frame (window s.buf 0 s.buf_size)).1,
             buf_size := subSize s.buf_size (env.mp3d_find_frame (window s.buf 0 s.buf_size)).1 }
    h2 _ _ _

theorem allocate_buf_size_sat (env : Env D) (s : St D U S) :
    Sum.elim (fun s1 : St D U S => s1.buf_size = s.buf_size) (fun _ => True)
      (allocate env s) := by
  unfold allocate
  simp only
  split_ifs <;> trivial

theorem tagSkipBuf_buf_size_sat (env : Env D) (s : St D U S) :
    Sum.elim
      (fun s1 : St D U S => s1.buf_size = (env.mp3dec_skip_id3 (window s.buf 0 s.buf_size)).2)
      (fun _ => True) (tagSkipBuf env s) := by
  unfold tagSkipBuf
  simp only
  split_ifs <;> trivial

theorem allocate_buf_size {env : Env D} {s s1 : St D U S} (h : allocate env s = Sum.inl s1) :
    s1.buf_size = s.buf_size := by
  have hs := allocate_buf_size_sat env s
  rw [h] at hs
  exact hs

/-- Claim C19: in whole-buffer mode, when the frame locator skips no more than the length it is
given and the frame decoder advances no more than the length it is given, every pass of the
probe loop and of the decode loop that goes round again strictly decreases the remaining length
`buf_size`; each of the two loops, entered with `buf_size` bytes left, delivers within
`buf_size + 1` passes; and a call with valid arguments returns, for every input, once the
passes allowed exceed the length left after tag skipping by `2^64`. -/
theorem loops_terminate {env : Env D} (hskip : LocatorSkipBounded env)
    (hadv : DecoderInWindow env) (cb : Option (ProgressCb U)) :
    (∀ s s1 : St D U S, probeStep env (none : Option (IoOps S)) s = Flow.next s1 →
      s1.buf_size < s.buf_size) ∧
    (∀ s s1 : St D U S, decodeStep env (none : Option (IoOps S)) cb s = Flow.next s1 →
      s1.buf_size < s.buf_size) ∧
    (∀ s : St D U S, ∃ x,
      iterate (probeStep env (none : Option (IoOps S))) (s.buf_size + 1) s = some x) ∧
    (∀ s : St D U S, ∃ x,
      iterate (decodeStep env (none : Option (IoOps S)) cb) (s.buf_size + 1) s = some x) ∧
    (∀ (a : Args D U S) (fuel : Nat), ValidArgs env a → a.io = none → a.progress_cb = cb →
      (∀ buf, a.buf = some buf →
        (env.mp3dec_skip_id3 (window buf 0 a.buf_size)).2 + SIZE_MOD < fuel) →
      ∃ r, mp3dec_load_cb env a fuel = some r) := by
  refine ⟨fun s s1 h => probeStep_next_lt hskip h, fun s s1 h => decodeStep_next_lt hadv h,
    fun s => iterate_terminates _ (fun t => t.buf_size)
      (fun t t1 h => probeStep_next_lt hskip h) _ s (Nat.lt_succ_self _),
    fun s => iterate_terminates _ (fun t => t.buf_size)
      (fun t t1 h => decodeStep_next_lt hadv h) _ s (Nat.lt_succ_self _), ?_⟩
  intro a fuel hv hio hcb hfuel
  obtain ⟨dec, buf, -, hbuf, hcall⟩ := load_cb_whole_buffer hv hio fuel
  have hf := hfuel buf hbuf
  rw [hcall, hcb]
  cases hq : tagSkipBuf env (initSt dec buf a) with
  | inr r => exact ⟨r, rfl⟩
  | inl s =>
    simp only
    have hsb : s.buf_size = (env.mp3dec_skip_id3 (window buf 0 a.buf_size)).2 := by
      have ht := tagSkipBuf_buf_size_sat env (initSt dec buf a)
      rw [hq] at ht
      exact ht
    unfold decodeAll
    obtain ⟨x, hx⟩ := iterate_terminates (probeStep env (none : Option (IoOps S)))
      (fun t => t.buf_size) (fun t t1 h => probeStep_next_lt hskip h) fuel
      { s with dec := env.mp3dec_init s.dec } (show s.buf_size < fuel by omega)
    have hb := iterate_spec (probeStep env (none : Option (IoOps S)))
      (fun t => t.buf_size ≤ s.buf_size) (fun t => t.buf_size ≤ s.buf_size + SIZE_MOD)
      (fun _ => True) (fun t ht => probeStep_bound hskip s.buf_size t ht) fuel
      { s with dec := env.mp3dec_init s.dec } (Nat.le_refl _)
    rw [hx] at hb ⊢
    cases x with
    | inr r => exact ⟨r, rfl⟩
    | inl s1 =>
      have hb1 : s1.buf_size ≤ s.buf_size + SIZE_MOD := hb
      simp only
      cases hq2 : allocate env s1 with
      | inr r => exact ⟨r, rfl⟩
      | inl s2 =>
        simp only
        have hs2 := allocate_buf_size hq2
        obtain ⟨y, hy⟩ := iterate_terminates (decodeStep env (none : Option (IoOps S)) cb)
          (fun t => t.buf_size) (fun t t1 h => decodeStep_next_lt hadv h) fuel s2
          (show s2.buf_size < fuel by omega)
        rw [hy]
        cases y with
        | inr r => exact ⟨r, rfl⟩
        | inl s3 => exact ⟨finish env s3, rfl⟩

theorem toyEnv_skip (spf : Nat) (vbr : VbrTag) (alloc : Nat → Nat → Bool) :
    LocatorSkipBounded (toyEnv spf vbr alloc) := by
  intro w
  have h := toyEnv_locator spf vbr alloc w
  omega

/-- Claim C19 at a concrete input: over two bytes of garbage and three frames the probe loop
and the decode loop, entered with the 5 bytes left, each deliver within 6 passes, and the call
returns. -/
theorem loops_terminate_witness :
    (∃ x, iterate (probeStep (toyEnv 1 noVbr allocAlways) (none : Option (IoOps Unit))) 6
      (loopHead garbageStream) = some x) ∧
    (∃ x, iterate (decodeStep (toyEnv 1 noVbr allocAlways) (none : Option (IoOps Unit))
      (none : Option (ProgressCb Unit))) 6 (loopHead garbageStream) = some x) ∧
    (∃ r, mp3dec_load_cb (toyEnv 1 noVbr allocAlways) (bufArgs garbageStream none)
      (SIZE_MOD + 6) = some r) := by
  have h := @loops_terminate Unit Unit Unit (toyEnv 1 noVbr allocAlways)
    (toyEnv_skip 1 noVbr allocAlways) (toyEnv_decoder 1 noVbr allocAlways) none
  refine ⟨h.2.2.1 (loopHead garbageStream), h.2.2.2.1 (loopHead garbageStream),
    h.2.2.2.2 (bufArgs garbageStream none) (SIZE_MOD + 6)
      ⟨rfl, rfl, rfl, by decide, fun hio => by simp [bufArgs] at hio⟩ rfl rfl ?_⟩
  intro buf _
  have hl := length_window_le buf 0 (bufArgs garbageStream none).buf_size
  show (window buf 0 (bufArgs garbageStream none).buf_size).length + SIZE_MOD < SIZE_MOD + 6
  have h5 : (bufArgs garbageStream none).buf_size = 5 := rfl
  rw [h5] at hl ⊢
  omega

end Claims10

section Claims8

variable {D U S : Type}

/-- What the probe loop does with a located frame: it leaves the loop only with the nonzero
frame length stored in `frame_info.frame_bytes`. -/
theorem probeFrame_leaves_nonzero (env : Env D) (io : Option (IoOps S)) (s : St D U S)
    (i frame_size : Nat) (hdr : List Byte) :
    Flow.sat (fun _ => True) (fun s1 => s1.frame_info.frame_bytes ≠ 0) (fun _ => True)
      (probeFrame env io s i frame_size hdr) := by
  unfold probeFrame
  by_cases c1 : i ≠ 0 ∧ frame_size = 0
  · rw [if_pos c1]
    trivial
  · rw [if_neg c1]
    by_cases c2 : frame_size = 0
    · rw [if_pos c2]
      trivial
    · rw [if_neg c2]
      simp only
      split_ifs <;> first
        | trivial
        | exact c2
        | (cases io <;> exact c2)

theorem probeStep_leaves_nonzero (env : Env D) (io : Option (IoOps S)) (s : St D U S) :
    Flow.sat (fun _ => True) (fun s1 => s1.frame_info.frame_bytes ≠ 0) (fun _ => True)
      (probeStep env io s) := by
  unfold probeStep
  cases io with
  | none => exact probeFrame_leaves_nonzero env none _ _ _ _
  | some ops =>
    simp only
    cases probeRefill env ops s with
    | inr r => trivial
    | inl s1 => exact probeFrame_leaves_nonzero env (some ops) _ _ _ _

/-- Claim C20: when the locator reports frame size 0, the probe loop either retries (bytes were
skipped) or returns `0` (nothing was skipped), and in every state in which the probe loop is
left, which is the state the allocation sizing of `allocate` divides in, the frame length
`frame_info.frame_bytes` is nonzero. -/
theorem sizing_divisor_is_nonzero (env : Env D) (io : Option (IoOps S)) :
    (∀ (s : St D U S) (i : Nat) (hdr : List Byte),
      probeFrame env io s i 0 hdr
        = if i ≠ 0 then Flow.next s else Flow.ret (mkResult s 0 Exit.no_frame none)) ∧
    (∀ (fuel : Nat) (s s1 : St D U S),
      iterate (probeStep env io) fuel s = some (Sum.inl s1) →
      s1.frame_info.frame_bytes ≠ 0) := by
  constructor
  · intro s i hdr
    unfold probeFrame
    by_cases hi : i ≠ 0
    · rw [if_pos ⟨hi, rfl⟩, if_pos hi]
    · rw [if_neg (fun h => hi h.1), if_pos rfl, if_neg hi]
  · intro fuel s s1 h
    exact iterate_leave (fun t _ => probeStep_leaves_nonzero env io t) (trivial : True) h

/-- Claim C20 at a concrete input: over the bytes `0, 0, 1` the probe loop is left at the frame
`1`, of length 1. -/
theorem sizing_divisor_is_nonzero_witness :
    ∃ s1, iterate (probeStep (toyEnv 1 noVbr allocAlways) (none : Option (IoOps Unit))) 3
        (loopHead [0, 0, 1]) = some (Sum.inl s1) ∧
      s1.frame_info.frame_bytes ≠ 0 :=
  ⟨_, rfl, (sizing_divisor_is_nonzero (toyEnv 1 noVbr allocAlways)
    (none : Option (IoOps Unit))).2 3 (loopHead [0, 0, 1]) _ rfl⟩

end Claims8

end Minimp3
